import Mathlib

/-!
# Unreal texture package (UTX) structural reader of DevIL

A shallow embedding of `src/DevIL/src-IL/src/il_utx.c` and the properties of
its header check, name decoding, compact integer codec, reference resolver
and table readers.

Machine integers are `Nat` or `Int` with explicit reduction modulo the width.
The byte reader, the allocator and the error stack of the image library live
in other files of the library; they are modelled below as explicit state.
-/

namespace Utx

/-! ## Machine integers -/

/-- An 8-bit unsigned value (ILubyte, and the bit pattern of a char). -/
abbrev Byte := Fin 256

/-- Conversion of a C int to ILubyte: reduction modulo 256. -/
def toUByte (c : Int) : Byte :=
  ⟨(c % 256).toNat, by omega⟩

/-- Conversion to a signed 32-bit integer (ILint): wrap-around modulo 2^32
into the range from -2^31 to 2^31 - 1. -/
def toInt32 (z : Int) : Int :=
  (z + 2147483648) % 4294967296 - 2147483648

/-- The 32-bit two-complement bit pattern of an integer. -/
def toUInt32 (z : Int) : Nat :=
  (z % 4294967296).toNat

/-- Bitwise or of two 32-bit signed integers, computed on their bit patterns. -/
def or32 (a b : Int) : Int :=
  toInt32 ((toUInt32 a ||| toUInt32 b : Nat) : Int)

/-- Left shift of a 32-bit signed integer, wrapping at 32 bits. -/
def shl32 (a : Int) (k : Nat) : Int :=
  toInt32 (a * 2 ^ k)

/-! ## The byte reader -/

/-- The input stream: the whole content and the read position. -/
structure Stream where
  data : List Byte
  pos : Nat
deriving DecidableEq, Repr

/-- The value igetc returns at the end of the stream. -/
def IL_EOF : Int := -1

/-- Modelled from the spec: igetc is the single-byte read of the byte reader,
which is not part of this file. It returns the byte at the read position as a
non-negative int and advances by one; at the end of the stream it returns
IL_EOF and does not move. -/
def igetc (s : Stream) : Int × Stream :=
  if h : s.pos < s.data.length then
    (((s.data.get ⟨s.pos, h⟩).val : Int), { s with pos := s.pos + 1 })
  else
    (IL_EOF, s)

/-- Modelled from the spec: ieof is the end-of-stream query of the byte
reader: true when the read position is at or past the size of the content. -/
def ieof (s : Stream) : Bool :=
  decide (s.data.length ≤ s.pos)

/-- Modelled from the spec: iread is the raw read of the byte reader. It
transfers as many of the Size * Number requested bytes as remain, advances by
that many, and returns the number of complete items transferred. -/
def iread (Size Number : Nat) (s : Stream) : List Byte × Nat × Stream :=
  let ByteSize := min (Size * Number) (s.data.length - s.pos)
  ((s.data.drop s.pos).take ByteSize,
   (if Size ≠ 0 then ByteSize / Size else ByteSize),
   { s with pos := s.pos + ByteSize })

/-- Modelled from the spec: iseek with IL_SEEK_SET is the seek to an absolute
offset of the byte reader. -/
def iseek (Offset : Nat) (s : Stream) : Stream :=
  { s with pos := Offset }

/-- Little-endian value of a byte sequence. -/
def leValue : List Byte → Nat
  | [] => 0
  | b :: bs => b.val + 256 * leValue bs

/-- Modelled from the spec: GetLittleUInt is the little-endian 32-bit read of
the byte reader, an iread of one 4-byte item. When fewer than four bytes
remain the real reader leaves the missing high bytes indeterminate; the model
takes them as zero. -/
def GetLittleUInt (s : Stream) : Nat × Stream :=
  let r := iread 4 1 s
  (leValue r.1, r.2.2)

/-- Modelled from the spec: GetLittleUShort is the little-endian 16-bit read
of the byte reader, an iread of one 2-byte item (missing bytes as zero). -/
def GetLittleUShort (s : Stream) : Nat × Stream :=
  let r := iread 2 1 s
  (leValue r.1, r.2.2)

/-! ## Header -/

/-- The package header (struct UTXHEADER). -/
structure UTXHEADER where
  Signature : Nat
  Version : Nat
  LicenseMode : Nat
  Flags : Nat
  NameCount : Nat
  NameOffset : Nat
  ExportCount : Nat
  ExportOffset : Nat
  ImportCount : Nat
  ImportOffset : Nat
deriving DecidableEq, Repr

/-- Reads the ten header fields in order; always reports success. -/
def GetUtxHead (s : Stream) : Bool × UTXHEADER × Stream :=
  let r0 := GetLittleUInt s
  let r1 := GetLittleUShort r0.2
  let r2 := GetLittleUShort r1.2
  let r3 := GetLittleUInt r2.2
  let r4 := GetLittleUInt r3.2
  let r5 := GetLittleUInt r4.2
  let r6 := GetLittleUInt r5.2
  let r7 := GetLittleUInt r6.2
  let r8 := GetLittleUInt r7.2
  let r9 := GetLittleUInt r8.2
  (true,
   { Signature := r0.1, Version := r1.1, LicenseMode := r2.1, Flags := r3.1,
     NameCount := r4.1, NameOffset := r5.1, ExportCount := r6.1,
     ExportOffset := r7.1, ImportCount := r8.1, ImportOffset := r9.1 },
   r9.2)

/-- Header validation: the signature and the version range. -/
def CheckUtxHead (Header : UTXHEADER) : Bool :=
  if Header.Signature ≠ 0x9E2A83C1 then false
  else if Header.Version < 61 ∨ Header.Version > 69 then false
  else true

/-! ## Compact integers -/

/-- The loop of UtxReadCompactInteger from iteration i on: at most five bytes,
the first carrying the sign, a continue flag and 6 bits, the middle ones a
continue flag and 7 bits, the fifth 5 bits. -/
def compactLoop (i : Nat) (output : Int) (sign : Bool) (s : Stream) :
    Int × Bool × Stream :=
  if i < 5 then
    let r := igetc s
    let x := toUByte r.1
    if i = 0 then
      let sign1 := if (x.val &&& 0x80) > 0 then true else sign
      let output1 := or32 output ((x.val &&& 0x3F : Nat) : Int)
      if (x.val &&& 0x40) = 0 then (output1, sign1, r.2)
      else compactLoop (i + 1) output1 sign1 r.2
    else if i = 4 then
      let output1 := or32 output (shl32 ((x.val &&& 0x1F : Nat) : Int) (6 + 3 * 7))
      compactLoop (i + 1) output1 sign r.2
    else
      let output1 := or32 output (shl32 ((x.val &&& 0x7F : Nat) : Int) (6 + (i - 1) * 7))
      if (x.val &&& 0x80) = 0 then (output1, sign, r.2)
      else compactLoop (i + 1) output1 sign r.2
  else
    (output, sign, s)
termination_by 5 - i
decreasing_by all_goals omega

/-- Reads a compact integer: the loop, then the negation when the sign flag
of the first byte was set (a 32-bit multiplication by -1). -/
def UtxReadCompactInteger (s : Stream) : Int × Stream :=
  let r := compactLoop 0 0 false s
  let output := if r.2.1 then toInt32 (r.1 * -1) else r.1
  (output, r.2.2)

/-- The byte with value n modulo 256. -/
def byte (n : Nat) : Byte :=
  ⟨n % 256, by omega⟩

/-- The bytes of the documented layout for a sign bit s (0 or 0x80) and a
magnitude m, written from the words of the specification: byte 0 holds the
sign in bit 7, the continue flag in bit 6 and the 6 low magnitude bits; then
come groups of 7, 7 and 7 magnitude bits with the continue flag in bit 7; then
a last group of 5 bits. The shortest form is produced. -/
def encodeMagnitude (s m : Nat) : List Byte :=
  if m < 64 then [byte (s + m)]
  else
    let m1 := m / 64
    if m1 < 128 then [byte (s + 0x40 + m % 64), byte m1]
    else
      let m2 := m1 / 128
      if m2 < 128 then [byte (s + 0x40 + m % 64), byte (0x80 + m1 % 128), byte m2]
      else
        let m3 := m2 / 128
        if m3 < 128 then
          [byte (s + 0x40 + m % 64), byte (0x80 + m1 % 128), byte (0x80 + m2 % 128), byte m3]
        else
          [byte (s + 0x40 + m % 64), byte (0x80 + m1 % 128), byte (0x80 + m2 % 128),
           byte (0x80 + m3 % 128), byte (m3 / 128 % 32)]

/-- The encoder of the documented layout for a signed integer: the sign flag
is set for a negative value and the magnitude is its absolute value. -/
def encodeCompact (v : Int) : List Byte :=
  encodeMagnitude (if v < 0 then 0x80 else 0) v.natAbs

/-- The stream after k successive single-byte reads. -/
def skip : Nat → Stream → Stream
  | 0, s => s
  | k + 1, s => (igetc (skip k s)).2

/-- The value, as an ILubyte, that the read number k (from 0) of successive
single-byte reads delivers. -/
def peek (s : Stream) (k : Nat) : Nat :=
  (toUByte (igetc (skip k s)).1).val

/-- The value of the compact integer with first byte x0 and accumulated
value M: M negated in 32 bits when bit 7 of x0 is set. -/
def applySign (x0 : Nat) (M : Int) : Int :=
  if 128 ≤ x0 then toInt32 (M * -1) else M

/-! ## Reference resolver -/

/-- Resolves a raw reference in place: a negative value is an import
reference, a positive value an export reference, zero the null reference (the
flag is then left as it was). The arithmetic is 32-bit. -/
def ChangeObjectReference (ObjRef : Int) (IsImported : Bool) : Int × Bool :=
  if ObjRef < 0 then (toInt32 (toInt32 (-ObjRef) - 1), true)
  else if ObjRef > 0 then (toInt32 (ObjRef - 1), false)
  else (-1, IsImported)

/-! ## Allocator and error stack -/

/-- The error codes this reader and its collaborators record. -/
inductive ILerror where
  | IL_OUT_OF_MEMORY
  | IL_ILLEGAL_OPERATION
  | IL_INVALID_FILE_HEADER
deriving DecidableEq, Repr

/-- The state of the library that the reader acts on: the input stream, the
live heap blocks (by address), the next fresh address, the number of
allocation requests that will still be granted, and the recorded errors (most
recent first). -/
structure IL where
  io : Stream
  live : List Nat
  next : Nat
  avail : Nat
  error : List ILerror
deriving DecidableEq, Repr

/-- Modelled from the spec: ilSetError of the image library records an error. -/
def ilSetError (e : ILerror) (st : IL) : IL :=
  { st with error := e :: st.error }

/-- Modelled from the spec: ialloc of the image library returns a fresh block,
or NULL (none) after recording IL_OUT_OF_MEMORY when the request is refused.
The size of a request is not modelled. -/
def ialloc (st : IL) : Option Nat × IL :=
  if st.avail = 0 then (none, ilSetError ILerror.IL_OUT_OF_MEMORY st)
  else (some st.next,
        { st with live := st.next :: st.live, next := st.next + 1, avail := st.avail - 1 })

/-- Modelled from the spec: ifree of the image library releases a block;
releasing NULL does nothing. -/
def ifree (p : Option Nat) (st : IL) : IL :=
  match p with
  | none => st
  | some a => { st with live := st.live.erase a }

/-! ## Names -/

/-- An owned character buffer: its address and its bytes. -/
structure CStr where
  addr : Nat
  bytes : List Byte
deriving DecidableEq, Repr

/-- The address held by a char pointer (none for NULL). -/
def ptrOf (p : Option CStr) : Option Nat :=
  p.map CStr.addr

/-- Capacity of the scratch buffer of GetUtxName. -/
def NAME_MAX_LEN : Nat := 256

/-- Reads OldName[idx] for an int index. Index -1 lies just below the buffer;
the byte found there is the parameter oob. -/
def oldNameAt (oob : Byte) (OldName : List Byte) (idx : Int) : Byte :=
  if idx < 0 then oob else OldName.getD idx.toNat 0

/-- The do-while loop of the old-style branch of GetUtxName. Length is an
ILubyte, so its increment is modulo 256. -/
def oldNameLoop (oob : Byte) (OldName : List Byte) (Length : Nat) (s : Stream) :
    List Byte × Nat × Stream :=
  let r := igetc s
  let OldName1 := OldName.set Length (toUByte r.1)
  let Length1 := (Length + 1) % 256
  if (!ieof r.2 && decide (oldNameAt oob OldName1 ((Length1 : Int) - 1) ≠ 0)
      && decide (Length1 < NAME_MAX_LEN)) = true then
    oldNameLoop oob OldName1 Length1 r.2
  else
    (OldName1, Length1, r.2)
termination_by s.data.length - s.pos
decreasing_by
  rename_i hc
  simp only [Bool.and_eq_true, Bool.not_eq_true', ieof, decide_eq_false_iff_not] at hc
  have h1 := hc.1.1
  by_cases h : s.pos < s.data.length
  · rw [igetc, dif_pos h]
    show s.data.length - (s.pos + 1) < s.data.length - s.pos
    omega
  · exfalso
    have hr : r = (IL_EOF, s) := by
      show igetc s = (IL_EOF, s)
      rw [igetc, dif_neg h]
    rw [hr] at h1
    exact h (by simpa using h1)

/-- Gets a name from the stream: new style (a length byte, then that many
bytes) from version 64 on, old style (zero-terminated) before. The result is
an owned buffer, or NULL (none). -/
def GetUtxName (Header : UTXHEADER) (oob : Byte) (st : IL) : Option CStr × IL :=
  if Header.Version ≥ 64 then
    let r := igetc st.io
    let Length := toUByte r.1
    let a := ialloc { st with io := r.2 }
    match a.1 with
    | none => (none, a.2)
    | some p =>
      let rd := iread Length.val 1 a.2.io
      if rd.2.1 ≠ 1 then (none, ifree (some p) { a.2 with io := rd.2.2 })
      else (some ⟨p, rd.1⟩, { a.2 with io := rd.2.2 })
  else
    let l := oldNameLoop oob (List.replicate NAME_MAX_LEN 0) 0 st.io
    let OldName := l.1
    let Length := l.2.1
    if Length = NAME_MAX_LEN ∧ oldNameAt oob OldName ((Length : Int) - 1) ≠ 0 then
      (none, { st with io := l.2.2 })
    else
      let a := ialloc { st with io := l.2.2 }
      match a.1 with
      | none => (none, a.2)
      | some p => (some ⟨p, OldName.take Length⟩, a.2)

/-- One record of the name table (struct UTXENTRYNAME). -/
structure UTXENTRYNAME where
  Name : Option CStr
  Flags : Nat
deriving DecidableEq, Repr, Inhabited

/-- A heap array: its address and its elements. -/
structure HeapArray (α : Type) where
  addr : Nat
  elems : List α
deriving DecidableEq, Repr

/-- The read loop of GetUtxNameTable from entry NumRead on; it stops early
(break) at the first name that is NULL. Returns the array, the value of
NumRead at exit and the state. -/
def nameTableLoop (Header : UTXHEADER) (oob : Byte) (NameEntries : List UTXENTRYNAME)
    (NumRead : Nat) (st : IL) : List UTXENTRYNAME × Nat × IL :=
  if NumRead < Header.NameCount then
    let r := GetUtxName Header oob st
    let e := NameEntries.getD NumRead default
    let NameEntries1 := NameEntries.set NumRead { e with Name := r.1 }
    if r.1 = none then (NameEntries1, NumRead, r.2)
    else
      let f := GetLittleUInt r.2.io
      let e1 := NameEntries1.getD NumRead default
      nameTableLoop Header oob (NameEntries1.set NumRead { e1 with Flags := f.1 })
        (NumRead + 1) { r.2 with io := f.2 }
  else
    (NameEntries, NumRead, st)
termination_by Header.NameCount - NumRead
decreasing_by omega

/-- The clean-up loop of GetUtxNameTable from index i on: each iteration
releases NameEntries[NumRead].Name. -/
def nameFreeLoop (NameEntries : List UTXENTRYNAME) (NumRead : Nat) (i : Nat) (st : IL) : IL :=
  if i < NumRead then
    nameFreeLoop NameEntries NumRead (i + 1)
      (ifree (ptrOf (NameEntries.getD NumRead default).Name) st)
  else st
termination_by NumRead - i
decreasing_by omega

/-- Builds the name table: seeks to NameOffset, allocates the array (its
initial content is the parameter junk), reads NameCount entries, and on an
early exit runs the clean-up loop, records IL_INVALID_FILE_HEADER and returns
NULL (none). -/
def GetUtxNameTable (Header : UTXHEADER) (oob : Byte) (junk : Nat → UTXENTRYNAME)
    (st : IL) : Option (HeapArray UTXENTRYNAME) × IL :=
  let st0 := { st with io := iseek Header.NameOffset st.io }
  let a := ialloc st0
  match a.1 with
  | none => (none, a.2)
  | some p =>
    let l := nameTableLoop Header oob ((List.range Header.NameCount).map junk) 0 a.2
    if l.2.1 < Header.NameCount then
      (none, ilSetError ILerror.IL_INVALID_FILE_HEADER (nameFreeLoop l.1 l.2.1 0 l.2.2))
    else
      (some ⟨p, l.1⟩, l.2.2)

/-- The sibling routine that releases a name table: every name, then the array. -/
def UtxDestroyNameEntries (NameEntries : HeapArray UTXENTRYNAME) (Header : UTXHEADER)
    (st : IL) : IL :=
  ifree (some NameEntries.addr)
    ((List.range Header.NameCount).foldl
      (fun acc i => ifree (ptrOf (NameEntries.elems.getD i default).Name) acc) st)

/-! ## Export table -/

/-- One record of the export table (struct UTXEXPORTTABLE). -/
structure UTXEXPORTTABLE where
  Class : Int
  Super : Int
  Group : Int
  ObjectName : Int
  ObjectFlags : Nat
  SerialSize : Int
  SerialOffset : Int
  ClassImported : Bool
  SuperImported : Bool
  GroupImported : Bool
deriving DecidableEq, Repr, Inhabited

/-- Reads one export record into the entry e (the body of the loop of
GetUtxExportTable): seven fields in stream order, then the resolution of
Class, Super and Group. -/
def readExportEntry (e : UTXEXPORTTABLE) (s : Stream) : UTXEXPORTTABLE × Stream :=
  let r0 := UtxReadCompactInteger s
  let r1 := UtxReadCompactInteger r0.2
  let r2 := GetLittleUInt r1.2
  let r3 := UtxReadCompactInteger r2.2
  let r4 := GetLittleUInt r3.2
  let r5 := UtxReadCompactInteger r4.2
  let r6 := UtxReadCompactInteger r5.2
  let c := ChangeObjectReference r0.1 e.ClassImported
  let p := ChangeObjectReference r1.1 e.SuperImported
  let g := ChangeObjectReference (toInt32 (r2.1 : Int)) e.GroupImported
  ({ Class := c.1, Super := p.1, Group := g.1, ObjectName := r3.1,
     ObjectFlags := r4.1, SerialSize := r5.1, SerialOffset := r6.1,
     ClassImported := c.2, SuperImported := p.2, GroupImported := g.2 },
   r6.2)

/-- The loop of GetUtxExportTable from record i on. -/
def exportLoop (Header : UTXHEADER) (ExportTable : List UTXEXPORTTABLE) (i : Nat)
    (s : Stream) : List UTXEXPORTTABLE × Stream :=
  if i < Header.ExportCount then
    let r := readExportEntry (ExportTable.getD i default) s
    exportLoop Header (ExportTable.set i r.1) (i + 1) r.2
  else
    (ExportTable, s)
termination_by Header.ExportCount - i
decreasing_by omega

/-- Builds the export table: seeks to ExportOffset, allocates the array (its
initial content is the parameter junk) and reads ExportCount records. -/
def GetUtxExportTable (Header : UTXHEADER) (junk : Nat → UTXEXPORTTABLE) (st : IL) :
    Option (HeapArray UTXEXPORTTABLE) × IL :=
  let st0 := { st with io := iseek Header.ExportOffset st.io }
  let a := ialloc st0
  match a.1 with
  | none => (none, a.2)
  | some p =>
    let l := exportLoop Header ((List.range Header.ExportCount).map junk) 0 a.2.io
    (some ⟨p, l.1⟩, { a.2 with io := l.2 })

/-- The stream before export record i + k, when record i starts at s and
the array initially holds junk: each record is read by readExportEntry. -/
def exportAdvance (junk : Nat → UTXEXPORTTABLE) : Nat → Stream → Nat → Stream
  | _, s, 0 => s
  | i, s, k + 1 => exportAdvance junk (i + 1) (readExportEntry (junk i) s).2 k

/-- The name table as the specification words it: n names decoded one after
the other by GetUtxName, each followed by its 32-bit little-endian flags; the
result is all n entries, or nothing as soon as one name fails to decode. -/
def decodeNames (Header : UTXHEADER) (oob : Byte) : Nat → IL → Option (List UTXENTRYNAME × IL)
  | 0, st => some ([], st)
  | n + 1, st =>
    match (GetUtxName Header oob st).1 with
    | none => none
    | some nm =>
      let f := GetLittleUInt (GetUtxName Header oob st).2.io
      match decodeNames Header oob n { (GetUtxName Header oob st).2 with io := f.2 } with
      | none => none
      | some r => some (⟨some nm, f.1⟩ :: r.1, r.2)

/-- The state in which GetUtxNameTable starts reading entries: the stream is
at NameOffset and the block of the table has been allocated. -/
def nameTableStart (Header : UTXHEADER) (st : IL) : IL :=
  { io := iseek Header.NameOffset st.io, live := st.next :: st.live, next := st.next + 1,
    avail := st.avail - 1, error := st.error }

/-- The byte found i positions after the read position, as successive
single-byte reads deliver it: past the end of the stream igetc yields IL_EOF,
which is 0xFF as an ILubyte. -/
def streamByte (s : Stream) (i : Nat) : Byte :=
  (s.data.drop s.pos).getD i 255

/-- The sign factor of a compact integer whose first byte is b0, in the words
of the specification: -1 when bit 7 of byte 0 is set, +1 otherwise. -/
def compactSign (b0 : Nat) : Int :=
  if b0 &&& 0x80 = 0 then 1 else -1

/-- The number of bytes of a compact integer, in the words of the
specification: 1 when bit 6 of byte 0 is clear, otherwise i + 1 for the first
i among 1, 2, 3 whose byte has bit 7 clear, otherwise 5. -/
def compactLength (b0 b1 b2 b3 : Nat) : Nat :=
  if b0 &&& 0x40 = 0 then 1
  else if b1 &&& 0x80 = 0 then 2
  else if b2 &&& 0x80 = 0 then 3
  else if b3 &&& 0x80 = 0 then 4
  else 5

/-- One record of the import table (struct UTXIMPORTTABLE). -/
structure UTXIMPORTTABLE where
  ClassPackage : Int
  ClassName : Int
  Package : Int
  ObjectName : Int
  PackageImported : Bool
deriving DecidableEq, Repr, Inhabited

/-- Reads one import record into the entry e (the body of the loop of
GetUtxImportTable): four fields in stream order, then the resolution of
Package. -/
def readImportEntry (e : UTXIMPORTTABLE) (s : Stream) : UTXIMPORTTABLE × Stream :=
  let r0 := UtxReadCompactInteger s
  let r1 := UtxReadCompactInteger r0.2
  let r2 := GetLittleUInt r1.2
  let r3 := UtxReadCompactInteger r2.2
  let p := ChangeObjectReference (toInt32 (r2.1 : Int)) e.PackageImported
  ({ ClassPackage := r0.1, ClassName := r1.1, Package := p.1, ObjectName := r3.1,
     PackageImported := p.2 },
   r3.2)

/-- The loop of GetUtxImportTable from record i on. -/
def importLoop (Header : UTXHEADER) (ImportTable : List UTXIMPORTTABLE) (i : Nat)
    (s : Stream) : List UTXIMPORTTABLE × Stream :=
  if i < Header.ImportCount then
    let r := readImportEntry (ImportTable.getD i default) s
    importLoop Header (ImportTable.set i r.1) (i + 1) r.2
  else
    (ImportTable, s)
termination_by Header.ImportCount - i
decreasing_by omega

/-- Builds the import table: seeks to ImportOffset, allocates the array (its
initial content is the parameter junk) and reads ImportCount records. -/
def GetUtxImportTable (Header : UTXHEADER) (junk : Nat → UTXIMPORTTABLE) (st : IL) :
    Option (HeapArray UTXIMPORTTABLE) × IL :=
  let st0 := { st with io := iseek Header.ImportOffset st.io }
  let a := ialloc st0
  match a.1 with
  | none => (none, a.2)
  | some p =>
    let l := importLoop Header ((List.range Header.ImportCount).map junk) 0 a.2.io
    (some ⟨p, l.1⟩, { a.2 with io := l.2 })

/-- Releases an export table: the array only. -/
def UtxDestroyExportTable (ExportTable : HeapArray UTXEXPORTTABLE) (_ : UTXHEADER)
    (st : IL) : IL :=
  ifree (some ExportTable.addr) st

/-- Releases an import table: the array only. -/
def UtxDestroyImportTable (ImportTable : HeapArray UTXIMPORTTABLE) (_ : UTXHEADER)
    (st : IL) : IL :=
  ifree (some ImportTable.addr) st

/-- The stream before import record i + k, when record i starts at s and
the array initially holds junk: each record is read by readImportEntry. -/
def importAdvance (junk : Nat → UTXIMPORTTABLE) : Nat → Stream → Nat → Stream
  | _, s, 0 => s
  | i, s, k + 1 => importAdvance junk (i + 1) (readImportEntry (junk i) s).2 k

/-- Modelled from the spec: ilFixImage, the finalize step of the image
library, acts on the library state and returns a success flag. It is a field
of this environment, together with what the source leaves indeterminate: the
byte below the scratch buffer of GetUtxName and the content of freshly
allocated arrays. -/
structure Env where
  oob : Byte
  junkNames : Nat → UTXENTRYNAME
  junkExports : Nat → UTXEXPORTTABLE
  junkImports : Nat → UTXIMPORTTABLE
  ilFixImage : IL → Bool × IL

/-- The library state seen by iLoadUtxInternal: the reader state, whether a
current image is bound (iCurImage is not NULL), and one observer that the
source does not have: the number of times the finalize step was invoked. -/
structure Lib where
  il : IL
  curImage : Bool
  fixCalls : Nat

/-- The literal compared against in the texture scan: the seven characters of
Texture and the terminating zero byte. -/
def Texture : List Byte := [84, 101, 120, 116, 117, 114, 101, 0]

/-- C library strcmp of a heap buffer against a zero-terminated literal: the
difference of the first pair of bytes that differ, or 0 when both reach the
zero byte together. The comparison reads the buffer byte by byte; when the
buffer ends before a difference or a zero byte is found the next read is
outside the buffer, which C leaves undefined: the result is none. -/
def strcmp : List Byte → List Byte → Option Int
  | [], _ => none
  | _ :: _, [] => none
  | x :: xs, y :: ys =>
    if x ≠ y then some ((x.val : Int) - (y.val : Int))
    else if x.val = 0 then some 0
    else strcmp xs ys

/-- The array read NameEntries[idx] with a signed index and no bounds check:
it yields the entry when idx lies inside the array; a read outside the array
is undefined in C and yields none. -/
def nameEntryAt (NameEntries : HeapArray UTXENTRYNAME) (idx : Int) : Option UTXENTRYNAME :=
  if 0 ≤ idx ∧ idx < (NameEntries.elems.length : Int) then NameEntries.elems.get? idx.toNat
  else none

/-- The expression strcmp(NameEntries[idx].Name, "Texture") of the texture
scan: the array read, the read through the Name pointer (undefined when it is
NULL) and the comparison. -/
def scanCompare (NameEntries : HeapArray UTXENTRYNAME) (idx : Int) : Option Int :=
  match nameEntryAt NameEntries idx with
  | none => none
  | some Entry =>
    match Entry.Name with
    | none => none
    | some Name => strcmp Name.bytes Texture

/-- The texture scan of iLoadUtxInternal from export entry i on. Each
iteration evaluates strcmp(NameEntries[ExportTable[i].ObjectName].Name,
"Texture"); the outcome of the comparison changes nothing (the body is
i = i). The scan yields none as soon as one iteration is undefined. -/
def scanLoop (Header : UTXHEADER) (NameEntries : HeapArray UTXENTRYNAME)
    (ExportTable : HeapArray UTXEXPORTTABLE) (i : Nat) : Option Unit :=
  if i < Header.ExportCount then
    match scanCompare NameEntries (ExportTable.elems.getD i default).ObjectName with
    | none => none
    | some _ => scanLoop Header NameEntries ExportTable (i + 1)
  else some ()
termination_by Header.ExportCount - i
decreasing_by omega

/-- The internal loader: checks that an image is bound, reads and validates
the header, builds the name, export and import tables (releasing the tables
already built when a later one fails), scans the exports, releases the three
tables and returns the result of ilFixImage. The result is none when the
texture scan is undefined: such a run does not reach ilFixImage. -/
def iLoadUtxInternal (env : Env) (w : Lib) : Option (Bool × Lib) :=
  if w.curImage = false then
    some (false, { w with il := ilSetError ILerror.IL_ILLEGAL_OPERATION w.il })
  else
    let h := GetUtxHead w.il.io
    let Header := h.2.1
    if h.1 = false then some (false, { w with il := { w.il with io := h.2.2 } })
    else if CheckUtxHead Header = false then
      some (false, { w with il := { w.il with io := h.2.2 } })
    else
      let n := GetUtxNameTable Header env.oob env.junkNames { w.il with io := h.2.2 }
      match n.1 with
      | none => some (false, { w with il := n.2 })
      | some NameEntries =>
        let e := GetUtxExportTable Header env.junkExports n.2
        match e.1 with
        | none => some (false, { w with il := UtxDestroyNameEntries NameEntries Header e.2 })
        | some ExportTable =>
          let m := GetUtxImportTable Header env.junkImports e.2
          match m.1 with
          | none =>
            some (false,
             { w with il := (UtxDestroyExportTable ExportTable Header
                 (UtxDestroyNameEntries NameEntries Header m.2)) })
          | some ImportTable =>
            match scanLoop Header NameEntries ExportTable 0 with
            | none => none
            | some _ =>
              let f := env.ilFixImage
                (UtxDestroyImportTable ImportTable Header
                  (UtxDestroyExportTable ExportTable Header
                    (UtxDestroyNameEntries NameEntries Header m.2)))
              some (f.1, { w with il := f.2, fixCalls := w.fixCalls + 1 })

/-- The header that iLoadUtxInternal reads from the state w. -/
def stageHeader (w : Lib) : UTXHEADER :=
  (GetUtxHead w.il.io).2.1

/-- The outcome of the name table stage of iLoadUtxInternal. -/
def stageNames (env : Env) (w : Lib) : Option (HeapArray UTXENTRYNAME) × IL :=
  GetUtxNameTable (stageHeader w) env.oob env.junkNames
    { w.il with io := (GetUtxHead w.il.io).2.2 }

/-- The outcome of the export table stage of iLoadUtxInternal. -/
def stageExports (env : Env) (w : Lib) : Option (HeapArray UTXEXPORTTABLE) × IL :=
  GetUtxExportTable (stageHeader w) env.junkExports (stageNames env w).2

/-- The outcome of the import table stage of iLoadUtxInternal. -/
def stageImports (env : Env) (w : Lib) : Option (HeapArray UTXIMPORTTABLE) × IL :=
  GetUtxImportTable (stageHeader w) env.junkImports (stageExports env w).2

/-- The state that iLoadUtxInternal hands to ilFixImage: the one left by
the import stage after releasing the name table, the export table and then
the import table. -/
def stageTeardown (env : Env) (w : Lib) (NameEntries : HeapArray UTXENTRYNAME)
    (ExportTable : HeapArray UTXEXPORTTABLE) (ImportTable : HeapArray UTXIMPORTTABLE) : IL :=
  UtxDestroyImportTable ImportTable (stageHeader w)
    (UtxDestroyExportTable ExportTable (stageHeader w)
      (UtxDestroyNameEntries NameEntries (stageHeader w) (stageImports env w).2))

/-- A package of version 64 with two names, Texture and A, one export record
and no import record; the export table starts at offset 56, right after the
names, and holds the bytes of the parameter tail. -/
def samplePackage (tail : List Byte) : List Byte :=
  0xC1 :: 0x83 :: 0x2A :: 0x9E :: 64 :: 0 :: 0 :: 0 :: 0 :: 0 :: 0 :: 0 ::
  2 :: 0 :: 0 :: 0 :: 36 :: 0 :: 0 :: 0 :: 1 :: 0 :: 0 :: 0 :: 56 :: 0 :: 0 :: 0 ::
  0 :: 0 :: 0 :: 0 :: 56 :: 0 :: 0 :: 0 ::
  8 :: 84 :: 101 :: 120 :: 116 :: 117 :: 114 :: 101 :: 0 :: 0 :: 0 :: 0 :: 0 ::
  2 :: 65 :: 0 :: 0 :: 0 :: 0 :: 0 :: tail

/-- The header of samplePackage. -/
def sampleHeader : UTXHEADER :=
  ⟨0x9E2A83C1, 64, 0, 0, 2, 36, 1, 56, 0, 56⟩

/-- The name table of samplePackage: the table at block 0, the names Texture
and A at blocks 1 and 2, both with flags 0. -/
def sampleNames : HeapArray UTXENTRYNAME :=
  ⟨0, [⟨some ⟨1, [84, 101, 120, 116, 117, 114, 101, 0]⟩, 0⟩, ⟨some ⟨2, [65, 0]⟩, 0⟩]⟩

/-- An environment whose finalize step succeeds and leaves the state alone. -/
def sampleEnv : Env :=
  ⟨0, fun _ => default, fun _ => default, fun _ => default, fun st => (true, st)⟩

/-- The library state before loading samplePackage: an image is bound, the
stream is at its start, the heap is empty and ten allocations are available. -/
def sampleLib (tail : List Byte) : Lib :=
  ⟨⟨⟨samplePackage tail, 0⟩, [], 0, 10, []⟩, true, 0⟩

/-- A stream of 36 bytes whose signature is 0x12345678 (version 61). -/
def badPackage : List Byte :=
  [0x78, 0x56, 0x34, 0x12, 61, 0, 0, 0, 0, 0, 0, 0, 0, 0, 0, 0, 0, 0, 0, 0, 0, 0, 0, 0,
   0, 0, 0, 0, 0, 0, 0, 0, 0, 0, 0, 0]

/-! ## Properties of the byte reader -/

theorem advance_twice (L p a b q : Nat) (h : q = p + min a (L - p)) :
    q + min b (L - q) = p + min (a + b) (L - p) := by
  omega

theorem GetLittleUInt_step (d : List Byte) (p : Nat) :
    ∃ v q, GetLittleUInt ⟨d, p⟩ = (v, ⟨d, q⟩) ∧ q = p + min 4 (d.length - p) :=
  ⟨_, _, rfl, by simp⟩

theorem GetLittleUShort_step (d : List Byte) (p : Nat) :
    ∃ v q, GetLittleUShort ⟨d, p⟩ = (v, ⟨d, q⟩) ∧ q = p + min 2 (d.length - p) :=
  ⟨_, _, rfl, by simp⟩

theorem GetLittleUInt_of_le (s : Stream) (h : s.pos + 4 ≤ s.data.length) :
    GetLittleUInt s = (leValue ((s.data.drop s.pos).take 4), ⟨s.data, s.pos + 4⟩) := by
  have hm : min (4 * 1) (s.data.length - s.pos) = 4 := by omega
  simp only [GetLittleUInt, iread, hm]

theorem GetLittleUShort_of_le (s : Stream) (h : s.pos + 2 ≤ s.data.length) :
    GetLittleUShort s = (leValue ((s.data.drop s.pos).take 2), ⟨s.data, s.pos + 2⟩) := by
  have hm : min (2 * 1) (s.data.length - s.pos) = 2 := by omega
  simp only [GetLittleUShort, iread, hm]

/-! ## Header validation -/

/-- C1: CheckUtxHead returns true exactly when the signature is 0x9E2A83C1 and
the version lies in the closed interval from 61 to 69; versions 60 and 70 are
rejected, and two headers with the same signature and version get the same
answer whatever their license mode, flags, counts and offsets. -/
theorem CheckUtxHead_iff (Header : UTXHEADER) :
    (CheckUtxHead Header = true ↔
      Header.Signature = 0x9E2A83C1 ∧ 61 ≤ Header.Version ∧ Header.Version ≤ 69) ∧
    (Header.Version = 60 ∨ Header.Version = 70 → CheckUtxHead Header = false) ∧
    (∀ other : UTXHEADER, other.Signature = Header.Signature →
      other.Version = Header.Version → CheckUtxHead other = CheckUtxHead Header) := by
  refine ⟨?_, ?_, ?_⟩
  · unfold CheckUtxHead
    split_ifs with h1 h2
    · simp [h1]
    · simp only [Bool.false_eq_true, false_iff, not_and, not_le]
      omega
    · simp only [true_iff]
      refine ⟨not_not.mp h1, ?_, ?_⟩ <;> omega
  · intro hv
    unfold CheckUtxHead
    split_ifs with h1 h2
    · rfl
    · rfl
    · omega
  · intro other hs hv
    simp only [CheckUtxHead, hs, hv]

/-! ## Compact integers -/

set_option maxRecDepth 100000 in
theorem byte_and_3F : ∀ x : Byte, x.val &&& 0x3F = x.val % 64 := by decide
set_option maxRecDepth 100000 in
theorem byte_and_7F : ∀ x : Byte, x.val &&& 0x7F = x.val % 128 := by decide
set_option maxRecDepth 100000 in
theorem byte_and_1F : ∀ x : Byte, x.val &&& 0x1F = x.val % 32 := by decide
set_option maxRecDepth 100000 in
theorem byte_and_40 : ∀ x : Byte, x.val &&& 0x40 = 64 * (x.val / 64 % 2) := by decide
set_option maxRecDepth 100000 in
theorem byte_and_80 : ∀ x : Byte, x.val &&& 0x80 = 128 * (x.val / 128) := by decide

theorem toUInt32_coe (M : Nat) (h : M < 4294967296) : toUInt32 (M : Int) = M := by
  unfold toUInt32; omega

theorem toUInt32_toInt32 (z : Int) : toUInt32 (toInt32 z) = toUInt32 z := by
  unfold toUInt32 toInt32; omega

theorem toInt32_small (z : Int) (h1 : -2147483648 ≤ z) (h2 : z < 2147483648) : toInt32 z = z := by
  unfold toInt32; omega

theorem lor_disjoint (M a k : Nat) (hM : M < 2 ^ k) : M ||| a * 2 ^ k = M + a * 2 ^ k := by
  rw [Nat.lor_comm, Nat.mul_comm, ← Nat.mul_add_lt_is_or hM, Nat.add_comm]

theorem or32_acc (M a k : Nat) (hM : M < 2 ^ k) (hb : M + a * 2 ^ k < 4294967296) :
    or32 (M : Int) (shl32 (a : Int) k) = toInt32 ((M + a * 2 ^ k : Nat) : Int) := by
  unfold or32 shl32
  rw [toUInt32_toInt32, toUInt32_coe M (by omega)]
  have : (a : Int) * 2 ^ k = ((a * 2 ^ k : Nat) : Int) := by push_cast; rfl
  rw [this, toUInt32_coe _ (by omega), lor_disjoint M a k hM]

theorem or32_zero (a : Nat) (h : a < 4294967296) : or32 0 (a : Int) = toInt32 (a : Int) := by
  unfold or32
  have : toUInt32 0 = 0 := by unfold toUInt32; rfl
  rw [this, toUInt32_coe a h, Nat.zero_or]

theorem compactLoop_first (s : Stream) :
    compactLoop 0 0 false s =
      if peek s 0 / 64 % 2 = 0 then
        (((peek s 0 % 64 : Nat) : Int), decide (128 ≤ peek s 0), skip 1 s)
      else
        compactLoop 1 ((peek s 0 % 64 : Nat) : Int) (decide (128 ≤ peek s 0)) (skip 1 s) := by
  rw [compactLoop]
  have hx := (toUByte (igetc s).1).isLt
  have e1 : or32 0 (((toUByte (igetc s).1).val &&& 0x3F : Nat) : Int)
      = ((peek s 0 % 64 : Nat) : Int) := by
    rw [byte_and_3F, or32_zero _ (by omega), toInt32_small _ (by omega) (by omega)]
    rfl
  have e2 : (if (toUByte (igetc s).1).val &&& 0x80 > 0 then true else false)
      = decide (128 ≤ peek s 0) := by
    rw [byte_and_80]
    simp only [peek, skip]
    by_cases h : 128 ≤ (toUByte (igetc s).1).val
    · have : 128 * ((toUByte (igetc s).1).val / 128) > 0 := by omega
      simp [h, this]
    · have : ¬ 128 * ((toUByte (igetc s).1).val / 128) > 0 := by omega
      simp [h, this]
  have e3 : ((toUByte (igetc s).1).val &&& 0x40 = 0) ↔ peek s 0 / 64 % 2 = 0 := by
    rw [byte_and_40]
    simp only [peek, skip]
    omega
  simp only [show (0 : Nat) < 5 by decide, if_true, e1, e2, e3]
  rfl

theorem compactLoop_middle (i : Nat) (M : Nat) (sign : Bool) (s : Stream)
    (h1 : 1 ≤ i) (h3 : i ≤ 3) (hM : M < 2 ^ (6 + (i - 1) * 7)) :
    compactLoop i (M : Int) sign s =
      if peek s 0 / 128 = 0 then
        (((M + peek s 0 % 128 * 2 ^ (6 + (i - 1) * 7) : Nat) : Int), sign, skip 1 s)
      else
        compactLoop (i + 1) ((M + peek s 0 % 128 * 2 ^ (6 + (i - 1) * 7) : Nat) : Int)
          sign (skip 1 s) := by
  rw [compactLoop]
  have hx := (toUByte (igetc s).1).isLt
  have hp : (2:Nat) ^ (6 + (i - 1) * 7) ≤ 2 ^ 20 :=
    Nat.pow_le_pow_right (by decide) (by omega)
  have hp0 : 0 < (2:Nat) ^ (6 + (i - 1) * 7) := Nat.two_pow_pos _
  have hb : (toUByte (igetc s).1).val % 128 * 2 ^ (6 + (i - 1) * 7) ≤ 127 * 2 ^ 20 :=
    Nat.mul_le_mul (by omega) hp
  have e1 : or32 (M : Int) (shl32 (((toUByte (igetc s).1).val &&& 0x7F : Nat) : Int)
        (6 + (i - 1) * 7))
      = ((M + peek s 0 % 128 * 2 ^ (6 + (i - 1) * 7) : Nat) : Int) := by
    rw [byte_and_7F, or32_acc _ _ _ hM (by omega), toInt32_small _ (by omega) (by omega)]
    rfl
  have e3 : ((toUByte (igetc s).1).val &&& 0x80 = 0) ↔ peek s 0 / 128 = 0 := by
    rw [byte_and_80]
    simp only [peek, skip]
    omega
  have c1 : i < 5 := by omega
  have c2 : ¬ i = 0 := by omega
  have c3 : ¬ i = 4 := by omega
  simp only [c1, c2, c3, if_true, if_false, e1, e3]
  rfl

theorem compactLoop_last (M : Nat) (sign : Bool) (s : Stream) (hM : M < 2 ^ 27) :
    compactLoop 4 (M : Int) sign s =
      (toInt32 ((M + peek s 0 % 32 * 2 ^ 27 : Nat) : Int), sign, skip 1 s) := by
  rw [compactLoop]
  have hx := (toUByte (igetc s).1).isLt
  have e1 : or32 (M : Int) (shl32 (((toUByte (igetc s).1).val &&& 0x1F : Nat) : Int)
        (6 + 3 * 7))
      = toInt32 ((M + peek s 0 % 32 * 2 ^ 27 : Nat) : Int) := by
    rw [byte_and_1F, or32_acc _ _ _ hM (by omega)]
    rfl
  simp only [show (4 : Nat) < 5 by decide, show ¬ (4 : Nat) = 0 by decide, if_true, if_false, e1]
  rw [compactLoop]
  simp only [show ¬ (4 + 1 : Nat) < 5 by decide, if_false]
  rfl

theorem skip_add (a b : Nat) (s : Stream) : skip a (skip b s) = skip (a + b) s := by
  induction a with
  | zero => simp [skip]
  | succ n ih => rw [Nat.succ_add, skip, skip, ih]

theorem peek_skip (a b : Nat) (s : Stream) : peek (skip b s) a = peek s (a + b) := by
  simp only [peek, skip_add]

theorem compactLoop_nf (s : Stream) :
    compactLoop 0 0 false s =
      if peek s 0 / 64 % 2 = 0 then
        (((peek s 0 % 64 : Nat) : Int), decide (128 ≤ peek s 0), skip 1 s)
      else if peek s 1 / 128 = 0 then
        (((peek s 0 % 64 + peek s 1 % 128 * 2 ^ 6 : Nat) : Int), decide (128 ≤ peek s 0),
         skip 2 s)
      else if peek s 2 / 128 = 0 then
        (((peek s 0 % 64 + peek s 1 % 128 * 2 ^ 6 + peek s 2 % 128 * 2 ^ 13 : Nat) : Int),
         decide (128 ≤ peek s 0), skip 3 s)
      else if peek s 3 / 128 = 0 then
        (((peek s 0 % 64 + peek s 1 % 128 * 2 ^ 6 + peek s 2 % 128 * 2 ^ 13
            + peek s 3 % 128 * 2 ^ 20 : Nat) : Int),
         decide (128 ≤ peek s 0), skip 4 s)
      else
        (toInt32 ((peek s 0 % 64 + peek s 1 % 128 * 2 ^ 6 + peek s 2 % 128 * 2 ^ 13
            + peek s 3 % 128 * 2 ^ 20 + peek s 4 % 32 * 2 ^ 27 : Nat) : Int),
         decide (128 ≤ peek s 0), skip 5 s) := by
  have h0 := Nat.mod_lt (peek s 0) (show 0 < 64 by decide)
  have h1 := Nat.mod_lt (peek s 1) (show 0 < 128 by decide)
  have h2 := Nat.mod_lt (peek s 2) (show 0 < 128 by decide)
  have h3 := Nat.mod_lt (peek s 3) (show 0 < 128 by decide)
  rw [compactLoop_first]
  by_cases c0 : peek s 0 / 64 % 2 = 0
  · simp only [c0, if_true]
  simp only [c0, if_false]
  rw [compactLoop_middle 1 _ _ _ (by decide) (by decide) (by simpa using h0)]
  simp only [peek_skip, skip_add, Nat.zero_add, Nat.reduceAdd, Nat.reduceSub, Nat.zero_mul,
    Nat.add_zero, Nat.reduceMul]
  by_cases c1 : peek s 1 / 128 = 0
  · simp only [c1, if_true]
  simp only [c1, if_false]
  rw [compactLoop_middle 2 _ _ _ (by decide) (by decide) (by norm_num; omega)]
  simp only [peek_skip, skip_add, Nat.zero_add, Nat.reduceAdd, Nat.reduceSub, Nat.one_mul,
    Nat.reduceMul]
  by_cases c2 : peek s 2 / 128 = 0
  · simp only [c2, if_true]
  simp only [c2, if_false]
  rw [compactLoop_middle 3 _ _ _ (by decide) (by decide) (by norm_num; omega)]
  simp only [peek_skip, skip_add, Nat.zero_add, Nat.reduceAdd, Nat.reduceSub, Nat.reduceMul]
  by_cases c3 : peek s 3 / 128 = 0
  · simp only [c3, if_true]
  simp only [c3, if_false]
  rw [compactLoop_last _ _ _ (by norm_num; omega)]
  simp only [peek_skip, skip_add, Nat.zero_add, Nat.reduceAdd]

theorem UtxReadCompactInteger_nf (s : Stream) :
    UtxReadCompactInteger s =
      if peek s 0 / 64 % 2 = 0 then
        (applySign (peek s 0) ((peek s 0 % 64 : Nat) : Int), skip 1 s)
      else if peek s 1 / 128 = 0 then
        (applySign (peek s 0) ((peek s 0 % 64 + peek s 1 % 128 * 2 ^ 6 : Nat) : Int), skip 2 s)
      else if peek s 2 / 128 = 0 then
        (applySign (peek s 0)
          ((peek s 0 % 64 + peek s 1 % 128 * 2 ^ 6 + peek s 2 % 128 * 2 ^ 13 : Nat) : Int),
         skip 3 s)
      else if peek s 3 / 128 = 0 then
        (applySign (peek s 0)
          ((peek s 0 % 64 + peek s 1 % 128 * 2 ^ 6 + peek s 2 % 128 * 2 ^ 13
            + peek s 3 % 128 * 2 ^ 20 : Nat) : Int),
         skip 4 s)
      else
        (applySign (peek s 0)
          (toInt32 ((peek s 0 % 64 + peek s 1 % 128 * 2 ^ 6 + peek s 2 % 128 * 2 ^ 13
            + peek s 3 % 128 * 2 ^ 20 + peek s 4 % 32 * 2 ^ 27 : Nat) : Int)),
         skip 5 s) := by
  have hsign : (compactLoop 0 0 false s).2.1 = decide (128 ≤ peek s 0) := by
    rw [compactLoop_nf]
    split_ifs <;> simp only
  have hread : UtxReadCompactInteger s =
      (applySign (peek s 0) (compactLoop 0 0 false s).1, (compactLoop 0 0 false s).2.2) := by
    unfold UtxReadCompactInteger applySign
    simp only [hsign, decide_eq_true_eq]
  rw [hread, compactLoop_nf]
  split_ifs <;> simp only

theorem toUByte_coe (b : Byte) : toUByte ((b.val : Nat) : Int) = b := by
  apply Fin.ext
  have := b.isLt
  simp only [toUByte]
  omega

theorem skip_eq (k : Nat) (s : Stream) :
    skip k s = ⟨s.data, min (s.pos + k) (max s.pos s.data.length)⟩ := by
  induction k with
  | zero =>
    obtain ⟨d, p⟩ := s
    simp [skip]
  | succ n ih =>
    rw [skip, ih, igetc]
    split
    · rename_i h
      simp only [Stream.mk.injEq, true_and] at h ⊢
      omega
    · rename_i h
      simp only [Stream.mk.injEq, true_and] at h ⊢
      omega

theorem skip_of_le (k : Nat) (d : List Byte) (p : Nat) (h : p + k ≤ d.length) :
    skip k ⟨d, p⟩ = ⟨d, p + k⟩ := by
  rw [skip_eq]
  simp only [Stream.mk.injEq, true_and]
  omega

theorem peek_eq_getD (s : Stream) (k : Nat) :
    peek s k = ((s.data.drop s.pos).getD k 255).val := by
  rw [peek, skip_eq, igetc]
  rw [List.getD_eq_getElem?_getD, List.getElem?_drop]
  split
  · rename_i h
    simp only at h
    have hk : s.pos + k < s.data.length := by omega
    have hm : min (s.pos + k) (max s.pos s.data.length) = s.pos + k := by omega
    simp only [toUByte_coe, List.get_eq_getElem, hm, List.getElem?_eq_getElem hk,
      Option.getD_some]
  · rename_i h
    simp only at h
    have hk : s.data.length ≤ s.pos + k := by omega
    rw [List.getElem?_eq_none hk]
    rfl

theorem peek_append (pre l : List Byte) (k : Nat) :
    peek ⟨pre ++ l, pre.length⟩ k = (l.getD k 255).val := by
  rw [peek_eq_getD]
  simp

theorem byte_val (n : Nat) : (byte n).val = n % 256 := rfl

theorem read_one (s : Stream) (h0 : peek s 0 / 64 % 2 = 0) :
    UtxReadCompactInteger s = (applySign (peek s 0) ((peek s 0 % 64 : Nat) : Int), skip 1 s) := by
  rw [UtxReadCompactInteger_nf, if_pos h0]

theorem read_two (s : Stream) (h0 : ¬ peek s 0 / 64 % 2 = 0) (h1 : peek s 1 / 128 = 0) :
    UtxReadCompactInteger s =
      (applySign (peek s 0) ((peek s 0 % 64 + peek s 1 % 128 * 2 ^ 6 : Nat) : Int),
       skip 2 s) := by
  rw [UtxReadCompactInteger_nf, if_neg h0, if_pos h1]

theorem read_three (s : Stream) (h0 : ¬ peek s 0 / 64 % 2 = 0) (h1 : ¬ peek s 1 / 128 = 0)
    (h2 : peek s 2 / 128 = 0) :
    UtxReadCompactInteger s =
      (applySign (peek s 0)
        ((peek s 0 % 64 + peek s 1 % 128 * 2 ^ 6 + peek s 2 % 128 * 2 ^ 13 : Nat) : Int),
       skip 3 s) := by
  rw [UtxReadCompactInteger_nf, if_neg h0, if_neg h1, if_pos h2]

theorem read_four (s : Stream) (h0 : ¬ peek s 0 / 64 % 2 = 0) (h1 : ¬ peek s 1 / 128 = 0)
    (h2 : ¬ peek s 2 / 128 = 0) (h3 : peek s 3 / 128 = 0) :
    UtxReadCompactInteger s =
      (applySign (peek s 0)
        ((peek s 0 % 64 + peek s 1 % 128 * 2 ^ 6 + peek s 2 % 128 * 2 ^ 13
          + peek s 3 % 128 * 2 ^ 20 : Nat) : Int),
       skip 4 s) := by
  rw [UtxReadCompactInteger_nf, if_neg h0, if_neg h1, if_neg h2, if_pos h3]

theorem read_five (s : Stream) (h0 : ¬ peek s 0 / 64 % 2 = 0) (h1 : ¬ peek s 1 / 128 = 0)
    (h2 : ¬ peek s 2 / 128 = 0) (h3 : ¬ peek s 3 / 128 = 0) :
    UtxReadCompactInteger s =
      (applySign (peek s 0)
        (toInt32 ((peek s 0 % 64 + peek s 1 % 128 * 2 ^ 6 + peek s 2 % 128 * 2 ^ 13
          + peek s 3 % 128 * 2 ^ 20 + peek s 4 % 32 * 2 ^ 27 : Nat) : Int)),
       skip 5 s) := by
  rw [UtxReadCompactInteger_nf, if_neg h0, if_neg h1, if_neg h2, if_neg h3]

theorem first_val (sb a : Nat) (hsb : sb = 0 ∨ sb = 128) (ha : a < 128) :
    (byte (sb + a)).val = sb + a := by
  rw [byte_val]; omega

theorem first_stop (sb a : Nat) (hsb : sb = 0 ∨ sb = 128) (ha : a < 64) :
    (sb + a) / 64 % 2 = 0 := by omega

theorem first_cont (sb a : Nat) (hsb : sb = 0 ∨ sb = 128) (ha : a < 64) :
    ¬ (sb + (0x40 + a)) / 64 % 2 = 0 := by omega

theorem first_low (sb a : Nat) (hsb : sb = 0 ∨ sb = 128) (ha : a < 64) :
    (sb + a) % 64 = a := by omega

theorem first_low_cont (sb a : Nat) (hsb : sb = 0 ∨ sb = 128) (ha : a < 64) :
    (sb + (0x40 + a)) % 64 = a := by omega

theorem first_sign (sb a : Nat) (hsb : sb = 0 ∨ sb = 128) (ha : a < 128) :
    128 ≤ sb + a ↔ sb = 128 := by omega

theorem mid_val (a : Nat) (ha : a < 128) : (byte (0x80 + a)).val = 128 + a := by
  rw [byte_val]; omega

theorem mid_cont (a : Nat) (ha : a < 128) : ¬ (128 + a) / 128 = 0 := by omega

theorem mid_low (a : Nat) (ha : a < 128) : (128 + a) % 128 = a := by omega

theorem end_val (q : Nat) (hq : q < 128) : (byte q).val = q := by
  rw [byte_val]; omega

theorem end_stop (q : Nat) (hq : q < 128) : q / 128 = 0 := by omega

theorem end_low (q : Nat) (hq : q < 128) : q % 128 = q := by omega

theorem end_low5 (q : Nat) (hq : q < 32) : q % 32 = q := by omega

theorem applySign_small (x0 sb m : Nat) (hx : 128 ≤ x0 ↔ sb = 128) (hm : m < 2147483648) :
    applySign x0 (m : Int) = if sb = 128 then -(m : Int) else (m : Int) := by
  unfold applySign toInt32
  by_cases h : sb = 128
  · rw [if_pos (hx.mpr h), if_pos h]; omega
  · rw [if_neg (fun h2 => h (hx.mp h2)), if_neg h]

theorem applySign_wrap (x0 sb m : Nat) (hx : 128 ≤ x0 ↔ sb = 128)
    (hs : (sb = 0 ∧ m < 2147483648) ∨ (sb = 128 ∧ m ≤ 2147483648)) :
    applySign x0 (toInt32 (m : Int)) = if sb = 128 then -(m : Int) else (m : Int) := by
  unfold applySign toInt32
  by_cases h : sb = 128
  · rw [if_pos (hx.mpr h), if_pos h]; omega
  · rw [if_neg (fun h2 => h (hx.mp h2)), if_neg h]; omega

theorem digits_two (m q1 a0 : Nat) (f0 : 64 * q1 + a0 = m) : a0 + q1 * 2 ^ 6 = m := by
  omega

theorem digits_three (m q1 q2 a0 a1 : Nat) (f0 : 64 * q1 + a0 = m) (f1 : 128 * q2 + a1 = q1) :
    a0 + a1 * 2 ^ 6 + q2 * 2 ^ 13 = m := by
  omega

theorem digits_four (m q1 q2 q3 a0 a1 a2 : Nat) (f0 : 64 * q1 + a0 = m)
    (f1 : 128 * q2 + a1 = q1) (f2 : 128 * q3 + a2 = q2) :
    a0 + a1 * 2 ^ 6 + a2 * 2 ^ 13 + q3 * 2 ^ 20 = m := by
  omega

theorem digits_five (m q1 q2 q3 q4 a0 a1 a2 a3 : Nat) (f0 : 64 * q1 + a0 = m)
    (f1 : 128 * q2 + a1 = q1) (f2 : 128 * q3 + a2 = q2) (f3 : 128 * q4 + a3 = q3) :
    a0 + a1 * 2 ^ 6 + a2 * 2 ^ 13 + a3 * 2 ^ 20 + q4 * 2 ^ 27 = m := by
  omega

theorem magnitude_top (m q1 q2 q3 q4 a0 a1 a2 a3 : Nat) (f0 : 64 * q1 + a0 = m)
    (f1 : 128 * q2 + a1 = q1) (f2 : 128 * q3 + a2 = q2) (f3 : 128 * q4 + a3 = q3)
    (hm : m ≤ 2147483648) : q4 < 32 := by
  omega

theorem roundtrip_magnitude (sb m : Nat)
    (hs : (sb = 0 ∧ m < 2147483648) ∨ (sb = 128 ∧ 0 < m ∧ m ≤ 2147483648))
    (pre rest : List Byte) :
    UtxReadCompactInteger ⟨pre ++ (encodeMagnitude sb m ++ rest), pre.length⟩
      = ((if sb = 128 then -(m : Int) else (m : Int)),
         ⟨pre ++ (encodeMagnitude sb m ++ rest),
          pre.length + (encodeMagnitude sb m).length⟩) := by
  have hsb : sb = 0 ∨ sb = 128 := by
    rcases hs with h | h
    · exact Or.inl h.1
    · exact Or.inr h.1
  have hm : m ≤ 2147483648 := by
    rcases hs with h | h
    · exact Nat.le_of_lt h.2
    · exact h.2.2
  have hs2 : (sb = 0 ∧ m < 2147483648) ∨ (sb = 128 ∧ m ≤ 2147483648) := by
    rcases hs with h | h
    · exact Or.inl h
    · exact Or.inr ⟨h.1, h.2.2⟩
  have hsmall : ∀ k, k < 2147483648 → m ≤ k → m < 2147483648 := fun k h1 h2 =>
    Nat.lt_of_le_of_lt h2 h1
  clear hs
  unfold encodeMagnitude
  have f0 := Nat.div_add_mod m 64
  have f1 := Nat.div_add_mod (m / 64) 128
  have f2 := Nat.div_add_mod (m / 64 / 128) 128
  have f3 := Nat.div_add_mod (m / 64 / 128 / 128) 128
  have b0 := Nat.mod_lt m (show 0 < 64 by decide)
  have b1 := Nat.mod_lt (m / 64) (show 0 < 128 by decide)
  have b2 := Nat.mod_lt (m / 64 / 128) (show 0 < 128 by decide)
  have b3 := Nat.mod_lt (m / 64 / 128 / 128) (show 0 < 128 by decide)
  simp only []
  generalize m / 64 / 128 / 128 / 128 = q4 at *
  generalize m / 64 / 128 / 128 % 128 = a3 at *
  generalize m / 64 / 128 / 128 = q3 at *
  generalize m / 64 / 128 % 128 = a2 at *
  generalize m / 64 / 128 = q2 at *
  generalize m / 64 % 128 = a1 at *
  generalize m / 64 = q1 at *
  generalize m % 64 = a0 at *
  have g2 := digits_two m q1 a0 f0
  have g3 := digits_three m q1 q2 a0 a1 f0 f1
  have g4 := digits_four m q1 q2 q3 a0 a1 a2 f0 f1 f2
  have g5 := digits_five m q1 q2 q3 q4 a0 a1 a2 a3 f0 f1 f2 f3
  have t5 := magnitude_top m q1 q2 q3 q4 a0 a1 a2 a3 f0 f1 f2 f3 hm
  clear f0 f1 f2 f3
  by_cases c1 : m < 64
  · simp only [c1, if_true]
    have p0 : peek ⟨pre ++ ([byte (sb + m)] ++ rest), pre.length⟩ 0 = sb + m := by
      rw [peek_append]
      exact first_val sb m hsb (Nat.lt_trans c1 (by decide))
    rw [read_one _ (by rw [p0]; exact first_stop sb m hsb c1), p0, skip_of_le 1 _ _ (by simp),
      first_low sb m hsb c1,
      applySign_small _ sb m (first_sign sb m hsb (Nat.lt_trans c1 (by decide)))
        (Nat.lt_trans c1 (by decide))]
    rfl
  simp only [c1, if_false]
  by_cases c2 : q1 < 128
  · simp only [c2, if_true]
    have p0 : peek ⟨pre ++ ([byte (sb + 0x40 + a0), byte q1] ++ rest), pre.length⟩ 0
        = sb + (0x40 + a0) := by
      rw [peek_append, Nat.add_assoc]
      exact first_val sb _ hsb (by omega)
    have p1 : peek ⟨pre ++ ([byte (sb + 0x40 + a0), byte q1] ++ rest), pre.length⟩ 1 = q1 := by
      rw [peek_append]
      exact end_val q1 c2
    rw [read_two _ (by rw [p0]; exact first_cont sb a0 hsb b0)
      (by rw [p1]; exact end_stop q1 c2), p0, p1, skip_of_le 2 _ _ (by simp),
      first_low_cont sb a0 hsb b0, end_low q1 c2, g2,
      applySign_small _ sb m (first_sign sb _ hsb (by omega)) (by omega)]
    rfl
  simp only [c2, if_false]
  have hc0 : (0x40 : Nat) + a0 < 128 := by omega
  have hsg := first_sign sb _ hsb hc0
  by_cases c3 : q2 < 128
  · simp only [c3, if_true]
    have p0 : peek ⟨pre ++ ([byte (sb + 0x40 + a0), byte (0x80 + a1), byte q2] ++ rest),
        pre.length⟩ 0 = sb + (0x40 + a0) := by
      rw [peek_append, Nat.add_assoc]
      exact first_val sb _ hsb hc0
    have p1 : peek ⟨pre ++ ([byte (sb + 0x40 + a0), byte (0x80 + a1), byte q2] ++ rest),
        pre.length⟩ 1 = 128 + a1 := by
      rw [peek_append]
      exact mid_val a1 b1
    have p2 : peek ⟨pre ++ ([byte (sb + 0x40 + a0), byte (0x80 + a1), byte q2] ++ rest),
        pre.length⟩ 2 = q2 := by
      rw [peek_append]
      exact end_val q2 c3
    have hlt : m < 2147483648 := by
      clear g2 g4 g5 t5 hs2 hsmall hsg p0 p1 p2
      omega
    rw [read_three _ (by rw [p0]; exact first_cont sb a0 hsb b0)
      (by rw [p1]; exact mid_cont a1 b1) (by rw [p2]; exact end_stop q2 c3), p0, p1, p2,
      skip_of_le 3 _ _ (by simp), first_low_cont sb a0 hsb b0, mid_low a1 b1, end_low q2 c3, g3,
      applySign_small _ sb m hsg hlt]
    rfl
  simp only [c3, if_false]
  by_cases c4 : q3 < 128
  · simp only [c4, if_true]
    have p0 : peek ⟨pre ++ ([byte (sb + 0x40 + a0), byte (0x80 + a1), byte (0x80 + a2),
        byte q3] ++ rest), pre.length⟩ 0 = sb + (0x40 + a0) := by
      rw [peek_append, Nat.add_assoc]
      exact first_val sb _ hsb hc0
    have p1 : peek ⟨pre ++ ([byte (sb + 0x40 + a0), byte (0x80 + a1), byte (0x80 + a2),
        byte q3] ++ rest), pre.length⟩ 1 = 128 + a1 := by
      rw [peek_append]
      exact mid_val a1 b1
    have p2 : peek ⟨pre ++ ([byte (sb + 0x40 + a0), byte (0x80 + a1), byte (0x80 + a2),
        byte q3] ++ rest), pre.length⟩ 2 = 128 + a2 := by
      rw [peek_append]
      exact mid_val a2 b2
    have p3 : peek ⟨pre ++ ([byte (sb + 0x40 + a0), byte (0x80 + a1), byte (0x80 + a2),
        byte q3] ++ rest), pre.length⟩ 3 = q3 := by
      rw [peek_append]
      exact end_val q3 c4
    have hlt : m < 2147483648 := by
      clear g2 g3 g5 t5 hs2 hsmall hsg p0 p1 p2 p3
      omega
    rw [read_four _ (by rw [p0]; exact first_cont sb a0 hsb b0)
      (by rw [p1]; exact mid_cont a1 b1) (by rw [p2]; exact mid_cont a2 b2)
      (by rw [p3]; exact end_stop q3 c4), p0, p1, p2, p3,
      skip_of_le 4 _ _ (by simp), first_low_cont sb a0 hsb b0, mid_low a1 b1, mid_low a2 b2,
      end_low q3 c4, g4, applySign_small _ sb m hsg hlt]
    rfl
  simp only [c4, if_false]
  have p0 : peek ⟨pre ++ ([byte (sb + 0x40 + a0), byte (0x80 + a1), byte (0x80 + a2),
      byte (0x80 + a3), byte (q4 % 32)] ++ rest), pre.length⟩ 0 = sb + (0x40 + a0) := by
    rw [peek_append, Nat.add_assoc]
    exact first_val sb _ hsb hc0
  have p1 : peek ⟨pre ++ ([byte (sb + 0x40 + a0), byte (0x80 + a1), byte (0x80 + a2),
      byte (0x80 + a3), byte (q4 % 32)] ++ rest), pre.length⟩ 1 = 128 + a1 := by
    rw [peek_append]
    exact mid_val a1 b1
  have p2 : peek ⟨pre ++ ([byte (sb + 0x40 + a0), byte (0x80 + a1), byte (0x80 + a2),
      byte (0x80 + a3), byte (q4 % 32)] ++ rest), pre.length⟩ 2 = 128 + a2 := by
    rw [peek_append]
    exact mid_val a2 b2
  have p3 : peek ⟨pre ++ ([byte (sb + 0x40 + a0), byte (0x80 + a1), byte (0x80 + a2),
      byte (0x80 + a3), byte (q4 % 32)] ++ rest), pre.length⟩ 3 = 128 + a3 := by
    rw [peek_append]
    exact mid_val a3 b3
  have p4 : peek ⟨pre ++ ([byte (sb + 0x40 + a0), byte (0x80 + a1), byte (0x80 + a2),
      byte (0x80 + a3), byte (q4 % 32)] ++ rest), pre.length⟩ 4 = q4 := by
    rw [peek_append, end_low5 q4 t5]
    exact end_val q4 (Nat.lt_trans t5 (by decide))
  rw [read_five _ (by rw [p0]; exact first_cont sb a0 hsb b0)
    (by rw [p1]; exact mid_cont a1 b1) (by rw [p2]; exact mid_cont a2 b2)
    (by rw [p3]; exact mid_cont a3 b3), p0, p1, p2, p3, p4,
    skip_of_le 5 _ _ (by simp), first_low_cont sb a0 hsb b0, mid_low a1 b1, mid_low a2 b2,
    mid_low a3 b3, end_low5 q4 t5, g5, applySign_wrap _ sb m hsg hs2]
  rfl

/-- C2: compact integer round trip. For every signed 32-bit integer v, the
bytes of the documented layout (sign in bit 7 of byte 0, 6 low magnitude bits,
then groups of 7, 7, 7 and 5 bits with continue flags, shortest form), placed
anywhere in a stream, are decoded by UtxReadCompactInteger to exactly v, and
the read position ends just after them. -/
theorem compact_roundtrip (v : Int) (hlo : -2147483648 ≤ v) (hhi : v < 2147483648)
    (pre rest : List Byte) :
    UtxReadCompactInteger ⟨pre ++ (encodeCompact v ++ rest), pre.length⟩
      = (v, ⟨pre ++ (encodeCompact v ++ rest), pre.length + (encodeCompact v).length⟩) := by
  unfold encodeCompact
  by_cases hv : v < 0
  · rw [if_pos hv]
    have h := roundtrip_magnitude 0x80 v.natAbs (Or.inr ⟨rfl, by omega, by omega⟩) pre rest
    rw [h, if_pos rfl]
    have : -((v.natAbs : Nat) : Int) = v := by omega
    rw [this]
  · rw [if_neg hv]
    have h := roundtrip_magnitude 0 v.natAbs (Or.inl ⟨rfl, by omega⟩) pre rest
    rw [h, if_neg (by decide)]
    have : ((v.natAbs : Nat) : Int) = v := by omega
    rw [this]

/-- Witness of C2 at the most negative signed 32-bit integer. -/
theorem compact_roundtrip_witness :
    UtxReadCompactInteger
        ⟨[] ++ (encodeCompact (-2147483648) ++ []), ([] : List Byte).length⟩
      = (-2147483648,
         ⟨[] ++ (encodeCompact (-2147483648) ++ []),
          ([] : List Byte).length + (encodeCompact (-2147483648)).length⟩) :=
  compact_roundtrip (-2147483648) (by decide) (by decide) [] []

/-! ## Reference resolver -/

/-- C3: for a signed 32-bit raw value r, ChangeObjectReference yields index
-r - 1 with the import flag set when r is negative, index r - 1 with the flag
cleared when r is positive, and index -1 when r is zero; so 5 resolves to
(4, export), -5 to (4, import), and a non-zero r and -r (both signed 32-bit
values) resolve to the same index with opposite flags. -/
theorem ChangeObjectReference_spec (r : Int) (flag : Bool)
    (hlo : -2147483648 ≤ r) (hhi : r < 2147483648) :
    (r < 0 → ChangeObjectReference r flag = (-r - 1, true)) ∧
    (r > 0 → ChangeObjectReference r flag = (r - 1, false)) ∧
    (r = 0 → (ChangeObjectReference r flag).1 = -1) ∧
    ChangeObjectReference 5 flag = (4, false) ∧
    ChangeObjectReference (-5) flag = (4, true) ∧
    (r ≠ 0 → -r < 2147483648 →
      (ChangeObjectReference r flag).1 = (ChangeObjectReference (-r) flag).1 ∧
      (ChangeObjectReference r flag).2 = !(ChangeObjectReference (-r) flag).2) := by
  have hneg : ∀ x : Int, -2147483648 ≤ x → x < 0 → ∀ b,
      ChangeObjectReference x b = (-x - 1, true) := by
    intro x h1 h2 b
    simp only [ChangeObjectReference, h2, if_true, toInt32, Prod.mk.injEq, and_true]
    omega
  have hpos : ∀ x : Int, 0 < x → x < 2147483648 → ∀ b,
      ChangeObjectReference x b = (x - 1, false) := by
    intro x h1 h2 b
    have h3 : ¬ x < 0 := by omega
    simp only [ChangeObjectReference, h3, if_false, gt_iff_lt, h1, if_true, toInt32,
      Prod.mk.injEq, and_true]
    omega
  refine ⟨fun h => hneg r hlo h flag, fun h => hpos r h hhi flag, ?_, ?_, ?_, ?_⟩
  · intro h
    simp [ChangeObjectReference, h]
  · exact hpos 5 (by decide) (by decide) flag
  · exact hneg (-5) (by decide) (by decide) flag
  · intro hne hlo2
    rcases lt_or_gt_of_ne hne with h | h
    · rw [hneg r hlo h flag, hpos (-r) (by omega) hlo2 flag]
      simp
    · rw [hpos r h hhi flag, hneg (-r) (by omega) (by omega) flag]
      simp

/-- Witness of C3 at the raw value 5. -/
theorem ChangeObjectReference_spec_witness :
    (-2147483648 : Int) ≤ 5 ∧ (5 : Int) < 2147483648 ∧
    ChangeObjectReference 5 false = (4, false) :=
  ⟨by decide, by decide,
   (ChangeObjectReference_spec 5 false (by decide) (by decide)).2.1 (by decide)⟩

/-! ## Header parsing -/

/-- C10, as stated, fails: on a stream of 40 bytes GetUtxHead advances by 36
bytes, not 32 (its ten fields take 4+2+2+4+4+4+4+4+4+4 bytes), and on an empty
stream it reports success without advancing at all. -/
theorem GetUtxHead_not_32 :
    ¬ ((GetUtxHead ⟨List.replicate 40 0, 0⟩).2.2.pos = 0 + 32) ∧
    ¬ ((GetUtxHead ⟨[], 0⟩).2.2.pos = 0 + 32) := by
  constructor
  · have e0 := GetLittleUInt_of_le ⟨List.replicate 40 0, 0⟩ (by simp)
    have e1 := GetLittleUShort_of_le ⟨List.replicate 40 0, 4⟩ (by simp)
    have e2 := GetLittleUShort_of_le ⟨List.replicate 40 0, 6⟩ (by simp)
    have e3 := GetLittleUInt_of_le ⟨List.replicate 40 0, 8⟩ (by simp)
    have e4 := GetLittleUInt_of_le ⟨List.replicate 40 0, 12⟩ (by simp)
    have e5 := GetLittleUInt_of_le ⟨List.replicate 40 0, 16⟩ (by simp)
    have e6 := GetLittleUInt_of_le ⟨List.replicate 40 0, 20⟩ (by simp)
    have e7 := GetLittleUInt_of_le ⟨List.replicate 40 0, 24⟩ (by simp)
    have e8 := GetLittleUInt_of_le ⟨List.replicate 40 0, 28⟩ (by simp)
    have e9 := GetLittleUInt_of_le ⟨List.replicate 40 0, 32⟩ (by simp)
    simp only [Nat.zero_add, Nat.reduceAdd] at e0 e1 e2 e3 e4 e5 e6 e7 e8 e9
    simp only [GetUtxHead, e0, e1, e2, e3, e4, e5, e6, e7, e8, e9]
    decide
  · obtain ⟨v0, p0, e0, h0⟩ := GetLittleUInt_step [] 0
    obtain ⟨v1, p1, e1, h1⟩ := GetLittleUShort_step [] p0
    obtain ⟨v2, p2, e2, h2⟩ := GetLittleUShort_step [] p1
    obtain ⟨v3, p3, e3, h3⟩ := GetLittleUInt_step [] p2
    obtain ⟨v4, p4, e4, h4⟩ := GetLittleUInt_step [] p3
    obtain ⟨v5, p5, e5, h5⟩ := GetLittleUInt_step [] p4
    obtain ⟨v6, p6, e6, h6⟩ := GetLittleUInt_step [] p5
    obtain ⟨v7, p7, e7, h7⟩ := GetLittleUInt_step [] p6
    obtain ⟨v8, p8, e8, h8⟩ := GetLittleUInt_step [] p7
    obtain ⟨v9, p9, e9, h9⟩ := GetLittleUInt_step [] p8
    simp only [GetUtxHead, e0, e1, e2, e3, e4, e5, e6, e7, e8, e9]
    simp only [List.length_nil] at h0 h1 h2 h3 h4 h5 h6 h7 h8 h9
    omega

/-- C10, amended: GetUtxHead always reports success, leaves the content alone
and advances by 36 bytes or to the end of the stream, whichever comes first;
when at least 36 bytes remain it advances by exactly 36 and its ten fields are
the little-endian values of the 4, 2, 2, 4, 4, 4, 4, 4, 4 and 4 bytes found in
that order from the read position. -/
theorem GetUtxHead_consumes (s : Stream) :
    (GetUtxHead s).1 = true ∧
    (GetUtxHead s).2.2.data = s.data ∧
    (GetUtxHead s).2.2.pos = s.pos + min 36 (s.data.length - s.pos) ∧
    (s.pos + 36 ≤ s.data.length →
      (GetUtxHead s).2.2.pos = s.pos + 36 ∧
      (GetUtxHead s).2.1 =
        { Signature := leValue ((s.data.drop s.pos).take 4),
          Version := leValue ((s.data.drop (s.pos + 4)).take 2),
          LicenseMode := leValue ((s.data.drop (s.pos + 6)).take 2),
          Flags := leValue ((s.data.drop (s.pos + 8)).take 4),
          NameCount := leValue ((s.data.drop (s.pos + 12)).take 4),
          NameOffset := leValue ((s.data.drop (s.pos + 16)).take 4),
          ExportCount := leValue ((s.data.drop (s.pos + 20)).take 4),
          ExportOffset := leValue ((s.data.drop (s.pos + 24)).take 4),
          ImportCount := leValue ((s.data.drop (s.pos + 28)).take 4),
          ImportOffset := leValue ((s.data.drop (s.pos + 32)).take 4) }) := by
  obtain ⟨d, p⟩ := s
  refine ⟨?_, ?_, ?_, ?_⟩
  · simp only [GetUtxHead]
  · obtain ⟨v0, p0, e0, -⟩ := GetLittleUInt_step d p
    obtain ⟨v1, p1, e1, -⟩ := GetLittleUShort_step d p0
    obtain ⟨v2, p2, e2, -⟩ := GetLittleUShort_step d p1
    obtain ⟨v3, p3, e3, -⟩ := GetLittleUInt_step d p2
    obtain ⟨v4, p4, e4, -⟩ := GetLittleUInt_step d p3
    obtain ⟨v5, p5, e5, -⟩ := GetLittleUInt_step d p4
    obtain ⟨v6, p6, e6, -⟩ := GetLittleUInt_step d p5
    obtain ⟨v7, p7, e7, -⟩ := GetLittleUInt_step d p6
    obtain ⟨v8, p8, e8, -⟩ := GetLittleUInt_step d p7
    obtain ⟨v9, p9, e9, -⟩ := GetLittleUInt_step d p8
    simp only [GetUtxHead, e0, e1, e2, e3, e4, e5, e6, e7, e8, e9]
  · obtain ⟨v0, p0, e0, h0⟩ := GetLittleUInt_step d p
    obtain ⟨v1, p1, e1, h1⟩ := GetLittleUShort_step d p0
    obtain ⟨v2, p2, e2, h2⟩ := GetLittleUShort_step d p1
    obtain ⟨v3, p3, e3, h3⟩ := GetLittleUInt_step d p2
    obtain ⟨v4, p4, e4, h4⟩ := GetLittleUInt_step d p3
    obtain ⟨v5, p5, e5, h5⟩ := GetLittleUInt_step d p4
    obtain ⟨v6, p6, e6, h6⟩ := GetLittleUInt_step d p5
    obtain ⟨v7, p7, e7, h7⟩ := GetLittleUInt_step d p6
    obtain ⟨v8, p8, e8, h8⟩ := GetLittleUInt_step d p7
    obtain ⟨v9, p9, e9, h9⟩ := GetLittleUInt_step d p8
    simp only [GetUtxHead, e0, e1, e2, e3, e4, e5, e6, e7, e8, e9]
    clear e0 e1 e2 e3 e4 e5 e6 e7 e8 e9
    have k1 := h1.trans (advance_twice d.length p 4 2 p0 h0)
    have k2 := h2.trans (advance_twice d.length p 6 2 p1 k1)
    have k3 := h3.trans (advance_twice d.length p 8 4 p2 k2)
    have k4 := h4.trans (advance_twice d.length p 12 4 p3 k3)
    have k5 := h5.trans (advance_twice d.length p 16 4 p4 k4)
    have k6 := h6.trans (advance_twice d.length p 20 4 p5 k5)
    have k7 := h7.trans (advance_twice d.length p 24 4 p6 k6)
    have k8 := h8.trans (advance_twice d.length p 28 4 p7 k7)
    exact h9.trans (advance_twice d.length p 32 4 p8 k8)
  · intro h
    simp only at h
    simp only [GetUtxHead]
    rw [GetLittleUInt_of_le ⟨d, p⟩ (by simp only; omega)]
    simp only
    rw [GetLittleUShort_of_le ⟨d, p + 4⟩ (by simp only; omega)]
    simp only
    rw [GetLittleUShort_of_le ⟨d, p + 4 + 2⟩ (by simp only; omega)]
    simp only
    rw [GetLittleUInt_of_le ⟨d, p + 4 + 2 + 2⟩ (by simp only; omega)]
    simp only
    rw [GetLittleUInt_of_le ⟨d, p + 4 + 2 + 2 + 4⟩ (by simp only; omega)]
    simp only
    rw [GetLittleUInt_of_le ⟨d, p + 4 + 2 + 2 + 4 + 4⟩ (by simp only; omega)]
    simp only
    rw [GetLittleUInt_of_le ⟨d, p + 4 + 2 + 2 + 4 + 4 + 4⟩ (by simp only; omega)]
    simp only
    rw [GetLittleUInt_of_le ⟨d, p + 4 + 2 + 2 + 4 + 4 + 4 + 4⟩ (by simp only; omega)]
    simp only
    rw [GetLittleUInt_of_le ⟨d, p + 4 + 2 + 2 + 4 + 4 + 4 + 4 + 4⟩ (by simp only; omega)]
    simp only
    rw [GetLittleUInt_of_le ⟨d, p + 4 + 2 + 2 + 4 + 4 + 4 + 4 + 4 + 4⟩ (by simp only; omega)]
    simp only [Nat.add_assoc, Nat.reduceAdd, and_self]

/-- Witness of the amended C10 on a stream of 36 zero bytes. -/
theorem GetUtxHead_consumes_witness :
    (GetUtxHead ⟨List.replicate 36 0, 0⟩).2.2.pos = 36 := by
  have h := (GetUtxHead_consumes ⟨List.replicate 36 0, 0⟩).2.2.2 (by simp)
  simpa using h.1

/-! ## Names -/

theorem igetc_append (pre : List Byte) (b : Byte) (l : List Byte) :
    igetc ⟨pre ++ b :: l, pre.length⟩ = ((b.val : Int), ⟨pre ++ b :: l, pre.length + 1⟩) := by
  have h : pre.length < (pre ++ b :: l).length := by simp
  rw [igetc, dif_pos h]
  simp [List.getElem_append_right]

theorem igetc_at_end (d : List Byte) (p : Nat) (h : d.length ≤ p) :
    igetc ⟨d, p⟩ = (IL_EOF, ⟨d, p⟩) := by
  rw [igetc, dif_neg (by simpa using h)]

theorem oldNameLoop_lt (oob : Byte) (n : Nat) : ∀ (OldName : List Byte) (Length : Nat)
    (s : Stream), s.data.length - s.pos ≤ n → (oldNameLoop oob OldName Length s).2.1 < 256 := by
  induction n with
  | zero =>
    intro OldName Length s hn
    rw [oldNameLoop]
    have he : ieof (igetc s).2 = true := by
      obtain ⟨d, p⟩ := s
      simp only at hn
      rw [igetc_at_end d p (by omega)]
      simp only [ieof, decide_eq_true_eq]
      omega
    simp only [he, Bool.not_true, Bool.false_and, Bool.false_eq_true, if_false]
    omega
  | succ n ih =>
    intro OldName Length s hn
    rw [oldNameLoop]
    split
    · apply ih
      obtain ⟨d, p⟩ := s
      simp only at hn
      by_cases hp : p < d.length
      · rw [igetc, dif_pos hp]
        simp only
        omega
      · rw [igetc, dif_neg hp]
        simp only
        omega
    · simp only
      omega

theorem toUByte_val (b : Byte) : toUByte (b.val : Int) = b := toUByte_coe b

theorem ieof_append (pre : List Byte) (b : Byte) (l : List Byte) :
    ieof ⟨pre ++ b :: l, pre.length + 1⟩ = decide (l = []) := by
  cases l with
  | nil => simp [ieof]
  | cons c t => simp [ieof]

theorem oldNameLoop_step (oob : Byte) (buf : List Byte) (L : Nat) (pre : List Byte) (b : Byte)
    (l : List Byte) (hL : L + 1 < 256) (hbuf : buf.length = 256) :
    oldNameLoop oob buf L ⟨pre ++ b :: l, pre.length⟩ =
      if l ≠ [] ∧ b ≠ 0 then
        oldNameLoop oob (buf.set L b) (L + 1) ⟨pre ++ b :: l, pre.length + 1⟩
      else (buf.set L b, L + 1, ⟨pre ++ b :: l, pre.length + 1⟩) := by
  rw [oldNameLoop]
  have hmod : (L + 1) % 256 = L + 1 := Nat.mod_eq_of_lt hL
  have hat : oldNameAt oob (buf.set L b) (((L + 1 : Nat) : Int) - 1) = b := by
    have h1 : ¬ (((L + 1 : Nat) : Int) - 1 < 0) := by omega
    have h2 : (((L + 1 : Nat) : Int) - 1).toNat = L := by omega
    rw [oldNameAt, if_neg h1, h2, List.getD_eq_getElem?_getD,
      List.getElem?_set_self (by omega)]
    rfl
  simp only [igetc_append, toUByte_val, hmod, hat, ieof_append, NAME_MAX_LEN, hL,
    decide_True, Bool.and_true, Bool.and_eq_true, Bool.not_eq_true', decide_eq_false_iff_not,
    decide_eq_true_eq, ne_eq]

theorem oldNameLoop_wrap (oob : Byte) (buf : List Byte) (pre : List Byte) (b : Byte)
    (l : List Byte) :
    oldNameLoop oob buf 255 ⟨pre ++ b :: l, pre.length⟩ =
      if l ≠ [] ∧ oob ≠ 0 then
        oldNameLoop oob (buf.set 255 b) 0 ⟨pre ++ b :: l, pre.length + 1⟩
      else (buf.set 255 b, 0, ⟨pre ++ b :: l, pre.length + 1⟩) := by
  rw [oldNameLoop]
  have hat : oldNameAt oob (buf.set 255 b) (((0 : Nat) : Int) - 1) = oob := by
    rw [oldNameAt, if_pos (by decide)]
  simp only [igetc_append, toUByte_val, Nat.reduceAdd, Nat.mod_self, hat, ieof_append,
    NAME_MAX_LEN, Nat.zero_lt_succ, show (0 : Nat) < 256 by decide,
    decide_True, Bool.and_true, Bool.and_eq_true, Bool.not_eq_true', decide_eq_false_iff_not,
    decide_eq_true_eq, ne_eq]

theorem take_set_succ (buf : List Byte) (L : Nat) (b : Byte) (h : L < buf.length) :
    (buf.set L b).take (L + 1) = buf.take L ++ [b] := by
  rw [List.set_eq_take_append_cons_drop, if_pos h]
  rw [List.take_append_eq_append_take]
  simp [List.length_take, Nat.min_eq_left (Nat.le_of_lt h)]

theorem oldNameLoop_run (oob : Byte) (rest : List Byte) (hrest : rest ≠ []) :
    ∀ (name : List Byte), (∀ b ∈ name, b ≠ 0) →
    ∀ (pre buf : List Byte) (L : Nat), buf.length = 256 → L + name.length < 256 →
    ∃ buf2 : List Byte, buf2.length = 256 ∧
      buf2.take (L + name.length) = buf.take L ++ name ∧
      oldNameLoop oob buf L ⟨pre ++ (name ++ rest), pre.length⟩ =
        oldNameLoop oob buf2 (L + name.length)
          ⟨pre ++ (name ++ rest), pre.length + name.length⟩ := by
  intro name
  induction name with
  | nil =>
    intro _ pre buf L hbuf _
    exact ⟨buf, hbuf, by simp, by simp⟩
  | cons b t ih =>
    intro hnz pre buf L hbuf hL
    simp only [List.length_cons] at hL
    have hb : b ≠ 0 := hnz b (List.mem_cons_self _ _)
    have ht : ∀ c ∈ t, c ≠ 0 := fun c hc => hnz c (List.mem_cons_of_mem _ hc)
    obtain ⟨buf2, h1, h2, h3⟩ := ih ht (pre ++ [b]) (buf.set L b) (L + 1)
      (by simpa using hbuf) (by omega)
    refine ⟨buf2, h1, ?_, ?_⟩
    · rw [List.length_cons, show L + (t.length + 1) = L + 1 + t.length by omega, h2,
        take_set_succ buf L b (by omega)]
      simp
    · have hne : t ++ rest ≠ [] := by simp [hrest]
      rw [List.cons_append, oldNameLoop_step oob buf L pre b (t ++ rest) (by omega) hbuf,
        if_pos ⟨hne, hb⟩]
      have e1 : pre ++ b :: (t ++ rest) = (pre ++ [b]) ++ (t ++ rest) := by simp
      have e2 : pre.length + 1 = (pre ++ [b]).length := by simp
      rw [e1, e2, h3]
      simp only [List.length_append, List.length_singleton, List.length_cons, List.length_nil]
      rw [show pre.length + (0 + 1) + t.length = pre.length + (t.length + 1) by omega,
        show L + 1 + t.length = L + (t.length + 1) by omega]

theorem oldNameLoop_terminated (oob : Byte) (rest : List Byte) :
    ∀ (name : List Byte), (∀ b ∈ name, b ≠ 0) →
    ∀ (pre buf : List Byte) (L : Nat), buf.length = 256 → L + name.length + 1 < 256 →
    ∃ buf2 : List Byte,
      buf2.take (L + name.length + 1) = buf.take L ++ (name ++ [0]) ∧
      oldNameLoop oob buf L ⟨pre ++ (name ++ 0 :: rest), pre.length⟩ =
        (buf2, L + name.length + 1,
          ⟨pre ++ (name ++ 0 :: rest), pre.length + name.length + 1⟩) := by
  intro name hnz pre buf L hbuf hL
  obtain ⟨buf1, h1, h2, h3⟩ := oldNameLoop_run oob (0 :: rest) (by simp) name hnz pre buf L
    hbuf (by omega)
  refine ⟨buf1.set (L + name.length) 0, ?_, ?_⟩
  · rw [take_set_succ buf1 _ 0 (by omega), h2]
    simp
  · rw [h3]
    have e1 : pre ++ (name ++ 0 :: rest) = (pre ++ name) ++ 0 :: rest := by simp
    have e2 : pre.length + name.length = (pre ++ name).length := by simp
    rw [e1, e2, oldNameLoop_step oob buf1 _ (pre ++ name) 0 rest hL h1,
      if_neg (by simp)]

theorem GetUtxName_old_of_loop (Header : UTXHEADER) (hv : Header.Version < 64) (oob : Byte)
    (st : IL) (buf : List Byte) (L : Nat) (s2 : Stream)
    (hloop : oldNameLoop oob (List.replicate NAME_MAX_LEN 0) 0 st.io = (buf, L, s2))
    (hL : L < 256) (ha : 0 < st.avail) :
    GetUtxName Header oob st =
      (some ⟨st.next, buf.take L⟩,
       { io := s2, live := st.next :: st.live, next := st.next + 1, avail := st.avail - 1,
         error := st.error }) := by
  have hv2 : ¬ Header.Version ≥ 64 := by omega
  have hc : ¬ (L = NAME_MAX_LEN ∧ oldNameAt oob buf ((L : Int) - 1) ≠ 0) := by
    intro h
    rw [NAME_MAX_LEN] at h
    omega
  have hav : ¬ st.avail = 0 := by omega
  simp only [GetUtxName, hv2, if_false, hloop, hc, ialloc, hav]

/-- Old-style names of at most 254 characters: when the stream continues with
the non-zero bytes of name, a zero byte and anything else, and the allocator
grants the request, GetUtxName returns a fresh buffer holding name and its
terminator and leaves the stream just after the terminator. -/
theorem GetUtxName_old_terminated (Header : UTXHEADER) (hv : Header.Version < 64) (oob : Byte)
    (st : IL) (pre name rest : List Byte)
    (hio : st.io = ⟨pre ++ (name ++ 0 :: rest), pre.length⟩)
    (hnz : ∀ b ∈ name, b ≠ 0) (hlen : name.length ≤ 254) (ha : 0 < st.avail) :
    GetUtxName Header oob st =
      (some ⟨st.next, name ++ [0]⟩,
       { io := ⟨pre ++ (name ++ 0 :: rest), pre.length + name.length + 1⟩,
         live := st.next :: st.live, next := st.next + 1, avail := st.avail - 1,
         error := st.error }) := by
  obtain ⟨buf2, h1, h2⟩ := oldNameLoop_terminated oob rest name hnz pre
    (List.replicate NAME_MAX_LEN 0) 0 (by rw [List.length_replicate]; rfl) (by omega)
  rw [← hio] at h2
  rw [GetUtxName_old_of_loop Header hv oob st buf2 _ _ h2 (by omega) ha]
  simp only [Nat.zero_add] at h1
  simp only [Nat.zero_add, h1, List.take_zero, List.nil_append]

/-- The old-style branch of GetUtxName has no failure of its own: whenever the
allocator grants the request it returns a name, whatever the stream holds. -/
theorem GetUtxName_old_total (Header : UTXHEADER) (hv : Header.Version < 64) (oob : Byte)
    (st : IL) (ha : 0 < st.avail) : (GetUtxName Header oob st).1 ≠ none := by
  have hL := oldNameLoop_lt oob _ (List.replicate NAME_MAX_LEN 0) 0 st.io (Nat.le_refl _)
  rw [GetUtxName_old_of_loop Header hv oob st _ _ _ rfl hL ha]
  simp

theorem replicate_nonzero (n : Nat) : ∀ b ∈ List.replicate n (65 : Byte), b ≠ 0 := by
  intro b hb
  rw [List.eq_of_mem_replicate hb]
  decide

set_option maxRecDepth 20000 in
/-- C4 fails on the code: with version 61 and a stream of exactly 256 non-zero
bytes (no terminator), GetUtxName does not fail; whatever lies below the
scratch buffer, it returns a buffer of length 0 after consuming the 256
bytes. The length counter is an ILubyte, so it wraps from 255 to 0 and never
equals the capacity 256. -/
theorem GetUtxName_overlong_accepted (oob : Byte) :
    GetUtxName ⟨0x9E2A83C1, 61, 0, 0, 0, 0, 0, 0, 0, 0⟩ oob
        ⟨⟨List.replicate 256 65, 0⟩, [], 0, 1, []⟩
      = (some ⟨0, []⟩, ⟨⟨List.replicate 256 65, 256⟩, [0], 1, 0, []⟩) := by
  have hd : List.replicate 256 (65 : Byte) = [] ++ (List.replicate 255 65 ++ [65]) := by
    rw [List.nil_append, ← List.replicate_succ']
  obtain ⟨buf2, h1, -, h3⟩ := oldNameLoop_run oob [65] (by simp) (List.replicate 255 65)
    (replicate_nonzero 255) [] (List.replicate NAME_MAX_LEN 0) 0
    (by rw [List.length_replicate]; rfl) (by rw [List.length_replicate]; decide)
  simp only [List.length_replicate, List.length_nil, Nat.zero_add] at h3
  have hw := oldNameLoop_wrap oob buf2 (List.replicate 255 65) 65 []
  simp only [List.length_replicate, ne_eq, not_true_eq_false, false_and, if_false,
    Nat.reduceAdd] at hw
  rw [List.nil_append, hw, ← List.replicate_succ'] at h3
  have hg := GetUtxName_old_of_loop ⟨0x9E2A83C1, 61, 0, 0, 0, 0, 0, 0, 0, 0⟩ (by decide) oob
    ⟨⟨List.replicate 256 65, 0⟩, [], 0, 1, []⟩ _ _ _ h3 (by decide) (by decide)
  rw [hg]
  simp

set_option maxRecDepth 20000 in
/-- C5 fails on the code at the longest name the scratch buffer can hold: with
version 61 and a stream of 255 non-zero bytes, a zero byte and the further
bytes 98, 0, 5, GetUtxName does not return the 256 bytes of the name. The
length counter wraps to 0 on the terminator, the loop then tests the byte just
below the scratch buffer, and the result is the empty buffer (256 bytes
consumed) when that byte is zero, and the two bytes 98, 0 (258 bytes
consumed) otherwise. -/
theorem GetUtxName_old_full_buffer (oob : Byte) :
    GetUtxName ⟨0x9E2A83C1, 61, 0, 0, 0, 0, 0, 0, 0, 0⟩ oob
        ⟨⟨List.replicate 255 65 ++ [0, 98, 0, 5], 0⟩, [], 0, 1, []⟩
      = if oob = 0 then
          (some ⟨0, []⟩, ⟨⟨List.replicate 255 65 ++ [0, 98, 0, 5], 256⟩, [0], 1, 0, []⟩)
        else
          (some ⟨0, [98, 0]⟩,
           ⟨⟨List.replicate 255 65 ++ [0, 98, 0, 5], 258⟩, [0], 1, 0, []⟩) := by
  obtain ⟨buf2, h1, -, h3⟩ := oldNameLoop_run oob [0, 98, 0, 5] (by simp)
    (List.replicate 255 65) (replicate_nonzero 255) [] (List.replicate NAME_MAX_LEN 0) 0
    (by rw [List.length_replicate]; rfl) (by simp)
  simp only [List.length_replicate, List.length_nil, Nat.zero_add, List.nil_append] at h3
  have hw := oldNameLoop_wrap oob buf2 (List.replicate 255 65) 0 [98, 0, 5]
  simp only [List.length_replicate, ne_eq, Nat.reduceAdd] at hw
  by_cases ho : oob = 0
  · rw [if_neg (by simp [ho])] at hw
    rw [hw] at h3
    have hg := GetUtxName_old_of_loop ⟨0x9E2A83C1, 61, 0, 0, 0, 0, 0, 0, 0, 0⟩ (by decide) oob
      ⟨⟨List.replicate 255 65 ++ [0, 98, 0, 5], 0⟩, [], 0, 1, []⟩ _ _ _ h3 (by decide)
      (by decide)
    rw [hg, if_pos ho]
    simp
  · rw [if_pos ⟨by simp, ho⟩] at hw
    obtain ⟨buf3, k1, k2⟩ := oldNameLoop_terminated oob [5] [98] (by decide)
      (List.replicate 255 65 ++ [0]) (buf2.set 255 0) 0 (by simpa using h1) (by simp)
    simp only [List.length_append, List.length_replicate, List.length_singleton, Nat.reduceAdd,
      List.append_assoc, List.singleton_append, List.take_zero, List.nil_append] at k1 k2
    rw [hw, k2] at h3
    have hg := GetUtxName_old_of_loop ⟨0x9E2A83C1, 61, 0, 0, 0, 0, 0, 0, 0, 0⟩ (by decide) oob
      ⟨⟨List.replicate 255 65 ++ [0, 98, 0, 5], 0⟩, [], 0, 1, []⟩ _ _ _ h3 (by decide)
      (by decide)
    rw [hg, if_neg ho, k1]
    simp

theorem GetUtxName_new_unfold (Header : UTXHEADER) (hv : 64 ≤ Header.Version) (oob : Byte)
    (st : IL) (ha : 0 < st.avail) :
    GetUtxName Header oob st =
      if (iread (toUByte (igetc st.io).1).val 1 (igetc st.io).2).2.1 ≠ 1 then
        (none,
         { io := (iread (toUByte (igetc st.io).1).val 1 (igetc st.io).2).2.2,
           live := st.live, next := st.next + 1, avail := st.avail - 1, error := st.error })
      else
        (some ⟨st.next, (iread (toUByte (igetc st.io).1).val 1 (igetc st.io).2).1⟩,
         { io := (iread (toUByte (igetc st.io).1).val 1 (igetc st.io).2).2.2,
           live := st.next :: st.live, next := st.next + 1, avail := st.avail - 1,
           error := st.error }) := by
  have hv2 : Header.Version ≥ 64 := hv
  have hav : ¬ st.avail = 0 := by omega
  simp only [GetUtxName, hv2, if_true, ialloc, hav, if_false, ifree, List.erase_cons_head]

/-- C6: new-style names. For a header of version 64 or more, a length byte L
from 1 to 255 followed by at least L bytes, and an allocator that grants the
request, GetUtxName returns a fresh buffer holding exactly those L bytes in
order, whatever their content, and consumes exactly L + 1 bytes. -/
theorem GetUtxName_new_style (Header : UTXHEADER) (hv : 64 ≤ Header.Version) (oob : Byte)
    (st : IL) (pre name rest : List Byte) (L : Byte)
    (hio : st.io = ⟨pre ++ (L :: (name ++ rest)), pre.length⟩)
    (hL : 1 ≤ L.val) (hlen : name.length = L.val) (ha : 0 < st.avail) :
    GetUtxName Header oob st =
      (some ⟨st.next, name⟩,
       { io := ⟨pre ++ (L :: (name ++ rest)), pre.length + (L.val + 1)⟩,
         live := st.next :: st.live, next := st.next + 1, avail := st.avail - 1,
         error := st.error }) := by
  have hL0 : ¬ L.val = 0 := by omega
  have hmin : min (L.val * 1) ((pre ++ L :: (name ++ rest)).length - (pre.length + 1))
      = L.val := by
    simp only [List.length_append, List.length_cons]
    omega
  have hdrop : List.take L.val (List.drop (pre.length + 1) (pre ++ L :: (name ++ rest)))
      = name := by
    rw [show pre ++ L :: (name ++ rest) = (pre ++ [L]) ++ (name ++ rest) by simp,
      show pre.length + 1 = (pre ++ [L]).length by simp, List.drop_left, ← hlen,
      List.take_left]
  rw [GetUtxName_new_unfold Header hv oob st ha, hio, igetc_append, toUByte_val]
  simp only [iread, hmin, hL0, ne_eq, not_false_eq_true, if_true,
    Nat.div_self (Nat.pos_of_ne_zero hL0), not_true_eq_false, if_false, hdrop]
  rw [Nat.add_comm L.val 1, Nat.add_assoc]

/-- Witness of C6: the length byte 3 followed by the bytes 120, 121, 0 yields
those three bytes. -/
theorem GetUtxName_new_style_witness :
    GetUtxName ⟨0x9E2A83C1, 64, 0, 0, 0, 0, 0, 0, 0, 0⟩ 0
        ⟨⟨[] ++ ((3 : Byte) :: ([120, 121, 0] ++ [7])), 0⟩, [], 0, 1, []⟩
      = (some ⟨0, [120, 121, 0]⟩,
         ⟨⟨[] ++ ((3 : Byte) :: ([120, 121, 0] ++ [7])), 0 + (3 + 1)⟩, [0], 1, 0, []⟩) :=
  GetUtxName_new_style ⟨0x9E2A83C1, 64, 0, 0, 0, 0, 0, 0, 0, 0⟩ (by decide) 0
    ⟨⟨[] ++ ((3 : Byte) :: ([120, 121, 0] ++ [7])), 0⟩, [], 0, 1, []⟩ [] [120, 121, 0] [7] 3
    rfl (by decide) rfl (by decide)

/-! ## Export table -/

theorem getD_set_self {α : Type} (T : List α) (i : Nat) (a d : α) (h : i < T.length) :
    (T.set i a).getD i d = a := by
  rw [List.getD_eq_getElem?_getD, List.getElem?_set_self h]
  rfl

theorem getD_set_ne {α : Type} (T : List α) (i j : Nat) (a d : α) (h : i ≠ j) :
    (T.set i a).getD j d = T.getD j d := by
  rw [List.getD_eq_getElem?_getD, List.getD_eq_getElem?_getD, List.getElem?_set_ne h]

theorem exportLoop_step (Header : UTXHEADER) (T : List UTXEXPORTTABLE) (i : Nat) (s : Stream)
    (h : i < Header.ExportCount) :
    exportLoop Header T i s =
      exportLoop Header (T.set i (readExportEntry (T.getD i default) s).1) (i + 1)
        (readExportEntry (T.getD i default) s).2 := by
  rw [exportLoop, if_pos h]

theorem exportLoop_spec (Header : UTXHEADER) (junk : Nat → UTXEXPORTTABLE) (d : Nat) :
    ∀ (i : Nat) (T : List UTXEXPORTTABLE) (s : Stream),
      Header.ExportCount - i = d → i ≤ Header.ExportCount → T.length = Header.ExportCount →
      (∀ j, i ≤ j → j < Header.ExportCount → T.getD j default = junk j) →
      (exportLoop Header T i s).1.length = Header.ExportCount ∧
      (∀ j, j < i → (exportLoop Header T i s).1.getD j default = T.getD j default) ∧
      (∀ k, i + k < Header.ExportCount →
        (exportLoop Header T i s).1.getD (i + k) default
          = (readExportEntry (junk (i + k)) (exportAdvance junk i s k)).1) ∧
      (exportLoop Header T i s).2 = exportAdvance junk i s (Header.ExportCount - i) := by
  induction d with
  | zero =>
    intro i T s hd hi hT _
    have hn : ¬ i < Header.ExportCount := by omega
    rw [exportLoop, if_neg hn]
    have h0 : Header.ExportCount - i = 0 := hd
    refine ⟨hT, fun _ _ => rfl, fun k hk => absurd hk (by omega), ?_⟩
    rw [h0]
    rfl
  | succ d ih =>
    intro i T s hd hi hT hjunk
    have hlt : i < Header.ExportCount := by omega
    rw [exportLoop_step Header T i s hlt]
    have hTi : T.getD i default = junk i := hjunk i (Nat.le_refl _) hlt
    obtain ⟨r1, r2, r3, r4⟩ := ih (i + 1) (T.set i (readExportEntry (T.getD i default) s).1)
      (readExportEntry (T.getD i default) s).2 (by omega) (by omega)
      (by rw [List.length_set]; exact hT)
      (fun j hj1 hj2 => by rw [getD_set_ne _ _ _ _ _ (by omega)]; exact hjunk j (by omega) hj2)
    refine ⟨r1, ?_, ?_, ?_⟩
    · intro j hj
      rw [r2 j (by omega), getD_set_ne _ _ _ _ _ (by omega)]
    · intro k hk
      cases k with
      | zero =>
        show (exportLoop Header _ (i + 1) _).1.getD i default = _
        rw [r2 i (by omega), getD_set_self _ _ _ _ (by omega), hTi]
        rfl
      | succ k =>
        have := r3 k (by omega)
        rw [show i + 1 + k = i + (k + 1) by omega] at this
        rw [this, hTi]
        rfl
    · rw [r4, hTi, show Header.ExportCount - i = (Header.ExportCount - (i + 1)) + 1 by omega]
      rfl

theorem getD_map_range {α : Type} (f : Nat → α) (n j : Nat) (d : α) (h : j < n) :
    ((List.range n).map f).getD j d = f j := by
  rw [List.getD_eq_getElem?_getD, List.getElem?_map, List.getElem?_range h]
  rfl

theorem GetUtxExportTable_entries (Header : UTXHEADER) (junk : Nat → UTXEXPORTTABLE) (st : IL)
    (ha : 0 < st.avail) :
    ∃ tbl : HeapArray UTXEXPORTTABLE,
      (GetUtxExportTable Header junk st).1 = some tbl ∧
      tbl.addr = st.next ∧
      tbl.elems.length = Header.ExportCount ∧
      (∀ i, i < Header.ExportCount →
        tbl.elems.getD i default =
          (readExportEntry (junk i)
            (exportAdvance junk 0 (iseek Header.ExportOffset st.io) i)).1) ∧
      (GetUtxExportTable Header junk st).2.io =
        exportAdvance junk 0 (iseek Header.ExportOffset st.io) Header.ExportCount := by
  have hav : ¬ st.avail = 0 := by omega
  obtain ⟨r1, -, r3, r4⟩ := exportLoop_spec Header junk Header.ExportCount 0
    ((List.range Header.ExportCount).map junk) (iseek Header.ExportOffset st.io)
    (Nat.sub_zero _) (Nat.zero_le _) (by simp)
    (fun j _ hj => getD_map_range junk _ j default hj)
  refine ⟨⟨st.next, (exportLoop Header ((List.range Header.ExportCount).map junk) 0
    (iseek Header.ExportOffset st.io)).1⟩, ?_, rfl, r1, ?_, ?_⟩
  · simp only [GetUtxExportTable, ialloc, hav, if_false]
  · intro i hi
    have := r3 i (by omega)
    simp only [Nat.zero_add] at this
    exact this
  · simp only [GetUtxExportTable, ialloc, hav, if_false]
    rw [r4, Nat.sub_zero]

theorem readExportEntry_eq (e : UTXEXPORTTABLE) (s : Stream) :
    readExportEntry e s =
      ({ Class := (ChangeObjectReference (UtxReadCompactInteger s).1 e.ClassImported).1,
         Super := (ChangeObjectReference
           (UtxReadCompactInteger (UtxReadCompactInteger s).2).1 e.SuperImported).1,
         Group := (ChangeObjectReference (toInt32 ((GetLittleUInt
           (UtxReadCompactInteger (UtxReadCompactInteger s).2).2).1 : Int)) e.GroupImported).1,
         ObjectName := (UtxReadCompactInteger (GetLittleUInt
           (UtxReadCompactInteger (UtxReadCompactInteger s).2).2).2).1,
         ObjectFlags := (GetLittleUInt (UtxReadCompactInteger (GetLittleUInt
           (UtxReadCompactInteger (UtxReadCompactInteger s).2).2).2).2).1,
         SerialSize := (UtxReadCompactInteger (GetLittleUInt (UtxReadCompactInteger
           (GetLittleUInt (UtxReadCompactInteger (UtxReadCompactInteger s).2).2).2).2).2).1,
         SerialOffset := (UtxReadCompactInteger (UtxReadCompactInteger (GetLittleUInt
           (UtxReadCompactInteger (GetLittleUInt (UtxReadCompactInteger
             (UtxReadCompactInteger s).2).2).2).2).2).2).1,
         ClassImported := (ChangeObjectReference (UtxReadCompactInteger s).1 e.ClassImported).2,
         SuperImported := (ChangeObjectReference
           (UtxReadCompactInteger (UtxReadCompactInteger s).2).1 e.SuperImported).2,
         GroupImported := (ChangeObjectReference (toInt32 ((GetLittleUInt
           (UtxReadCompactInteger (UtxReadCompactInteger s).2).2).1 : Int))
           e.GroupImported).2 },
       (UtxReadCompactInteger (UtxReadCompactInteger (GetLittleUInt
           (UtxReadCompactInteger (GetLittleUInt (UtxReadCompactInteger
             (UtxReadCompactInteger s).2).2).2).2).2).2).2) := rfl

theorem Group_mk (a b c d : Int) (f : Nat) (x y : Int) (p q r : Bool) (st : Stream) :
    ((UTXEXPORTTABLE.mk a b c d f x y p q r, st) : UTXEXPORTTABLE × Stream).1.Group = c := rfl

theorem GroupImported_mk (a b c d : Int) (f : Nat) (x y : Int) (p q r : Bool) (st : Stream) :
    ((UTXEXPORTTABLE.mk a b c d f x y p q r, st) : UTXEXPORTTABLE × Stream).1.GroupImported
      = r := rfl

theorem readExportEntry_Group (e : UTXEXPORTTABLE) (s : Stream) :
    (readExportEntry e s).1.Group =
      (ChangeObjectReference
        (toInt32 ((GetLittleUInt (UtxReadCompactInteger (UtxReadCompactInteger s).2).2).1 : Int))
        e.GroupImported).1 := by
  rewrite [readExportEntry_eq, Group_mk]
  exact Eq.refl _

theorem readExportEntry_GroupImported (e : UTXEXPORTTABLE) (s : Stream) :
    (readExportEntry e s).1.GroupImported =
      (ChangeObjectReference
        (toInt32 ((GetLittleUInt (UtxReadCompactInteger (UtxReadCompactInteger s).2).2).1 : Int))
        e.GroupImported).2 := by
  rewrite [readExportEntry_eq, GroupImported_mk]
  exact Eq.refl _

/-- C9, amended: the group field of an export record is passed through the
reference resolver like the class and super fields. When the allocator grants
the table, GetUtxExportTable returns a table of ExportCount records, and for
every record i the stored Group and GroupImported are the two results of
ChangeObjectReference applied to the 32-bit little-endian value read for that
record (after its two leading compact integers) taken as a signed 32-bit
integer, and to the flag the fresh array held. -/
theorem GetUtxExportTable_group (Header : UTXHEADER) (junk : Nat → UTXEXPORTTABLE) (st : IL)
    (ha : 0 < st.avail) (i : Nat) (hi : i < Header.ExportCount) :
    ∃ tbl : HeapArray UTXEXPORTTABLE,
      (GetUtxExportTable Header junk st).1 = some tbl ∧
      tbl.elems.length = Header.ExportCount ∧
      (tbl.elems.getD i default).Group =
        (ChangeObjectReference
          (toInt32 ((GetLittleUInt (UtxReadCompactInteger (UtxReadCompactInteger
            (exportAdvance junk 0 (iseek Header.ExportOffset st.io) i)).2).2).1 : Int))
          (junk i).GroupImported).1 ∧
      (tbl.elems.getD i default).GroupImported =
        (ChangeObjectReference
          (toInt32 ((GetLittleUInt (UtxReadCompactInteger (UtxReadCompactInteger
            (exportAdvance junk 0 (iseek Header.ExportOffset st.io) i)).2).2).1 : Int))
          (junk i).GroupImported).2 := by
  obtain ⟨tbl, h1, -, h3, h4, -⟩ := GetUtxExportTable_entries Header junk st ha
  refine ⟨tbl, h1, h3, ?_, ?_⟩
  · rewrite [h4 i hi, readExportEntry_Group]
    exact Eq.refl _
  · rewrite [h4 i hi, readExportEntry_GroupImported]
    exact Eq.refl _

theorem exportAdvance_zero (junk : Nat → UTXEXPORTTABLE) (i : Nat) (s : Stream) :
    exportAdvance junk i s 0 = s := rfl

theorem iseek_mk (o : Nat) (d : List Byte) (p : Nat) : iseek o ⟨d, p⟩ = ⟨d, o⟩ := rfl

theorem exportSample_first :
    (UtxReadCompactInteger ⟨[0, 0, 5, 0, 0, 0, 0, 0, 0, 0, 0, 0, 0], 0⟩).2
      = ⟨[0, 0, 5, 0, 0, 0, 0, 0, 0, 0, 0, 0, 0], 1⟩ := by
  have p0 : peek ⟨[0, 0, 5, 0, 0, 0, 0, 0, 0, 0, 0, 0, 0], 0⟩ 0 = 0 := by
    rw [peek_eq_getD]; rfl
  rw [read_one _ (by rw [p0]), skip_of_le 1 _ _ (by decide)]

theorem exportSample_second :
    (UtxReadCompactInteger ⟨[0, 0, 5, 0, 0, 0, 0, 0, 0, 0, 0, 0, 0], 1⟩).2
      = ⟨[0, 0, 5, 0, 0, 0, 0, 0, 0, 0, 0, 0, 0], 2⟩ := by
  have p0 : peek ⟨[0, 0, 5, 0, 0, 0, 0, 0, 0, 0, 0, 0, 0], 1⟩ 0 = 0 := by
    rw [peek_eq_getD]; rfl
  rw [read_one _ (by rw [p0]), skip_of_le 1 _ _ (by decide)]

theorem exportSample_group :
    (GetLittleUInt ⟨[0, 0, 5, 0, 0, 0, 0, 0, 0, 0, 0, 0, 0], 2⟩).1 = 5 := by
  rw [GetLittleUInt_of_le _ (by decide)]
  rfl

theorem resolve_five (b : Bool) : ChangeObjectReference (toInt32 ((5 : Nat) : Int)) b
    = (4, false) := by
  have h : toInt32 ((5 : Nat) : Int) = 5 := by decide
  rw [h]
  simp [ChangeObjectReference, toInt32]

/-- C9, as stated, fails: for a package with one export record whose group
bytes are 5, 0, 0, 0, the 32-bit little-endian value read for the group is 5
but the stored Group is 4 (with GroupImported cleared): the value has been
resolved as an export reference. -/
theorem export_group_is_resolved :
    (GetLittleUInt ⟨[0, 0, 5, 0, 0, 0, 0, 0, 0, 0, 0, 0, 0], 2⟩).1 = 5 ∧
    ∃ tbl : HeapArray UTXEXPORTTABLE,
      (GetUtxExportTable ⟨0x9E2A83C1, 61, 0, 0, 0, 0, 1, 0, 0, 0⟩ (fun _ => default)
        ⟨⟨[0, 0, 5, 0, 0, 0, 0, 0, 0, 0, 0, 0, 0], 0⟩, [], 0, 1, []⟩).1 = some tbl ∧
      (tbl.elems.getD 0 default).Group = 4 ∧
      (tbl.elems.getD 0 default).GroupImported = false ∧
      ¬ ((tbl.elems.getD 0 default).Group = 5) := by
  refine ⟨exportSample_group, ?_⟩
  obtain ⟨tbl, h1, -, -, h4, -⟩ := GetUtxExportTable_entries
    ⟨0x9E2A83C1, 61, 0, 0, 0, 0, 1, 0, 0, 0⟩ (fun _ => default)
    ⟨⟨[0, 0, 5, 0, 0, 0, 0, 0, 0, 0, 0, 0, 0], 0⟩, [], 0, 1, []⟩ (by decide)
  have h5 := h4 0 (by decide)
  have hG : (tbl.elems.getD 0 default).Group = 4 := by
    rewrite [h5, readExportEntry_Group, exportAdvance_zero, iseek_mk, exportSample_first,
      exportSample_second, exportSample_group, resolve_five]
    exact Eq.refl _
  have hI : (tbl.elems.getD 0 default).GroupImported = false := by
    rewrite [h5, readExportEntry_GroupImported, exportAdvance_zero, iseek_mk,
      exportSample_first, exportSample_second, exportSample_group, resolve_five]
    exact Eq.refl _
  refine ⟨tbl, h1, hG, hI, ?_⟩
  rw [hG]
  decide

/-- Witness of the amended C9 on a package with one export record. -/
theorem GetUtxExportTable_group_witness :
    ∃ tbl : HeapArray UTXEXPORTTABLE,
      (GetUtxExportTable ⟨0x9E2A83C1, 61, 0, 0, 0, 0, 1, 0, 0, 0⟩ (fun _ => default)
        ⟨⟨[0, 0, 5, 0, 0, 0, 0, 0, 0, 0, 0, 0, 0], 0⟩, [], 0, 1, []⟩).1 = some tbl ∧
      tbl.elems.length = 1 :=
  (GetUtxExportTable_group ⟨0x9E2A83C1, 61, 0, 0, 0, 0, 1, 0, 0, 0⟩ (fun _ => default)
    ⟨⟨[0, 0, 5, 0, 0, 0, 0, 0, 0, 0, 0, 0, 0], 0⟩, [], 0, 1, []⟩ (by decide) 0
    (by decide)).imp (fun _ h => ⟨h.1, h.2.1⟩)

/-! ## Name table -/

theorem take_set_succ_gen {α : Type} (T : List α) (i : Nat) (a : α) (h : i < T.length) :
    (T.set i a).take (i + 1) = T.take i ++ [a] := by
  rw [List.set_eq_take_append_cons_drop, if_pos h]
  rw [List.take_append_eq_append_take]
  simp [List.length_take, Nat.min_eq_left (Nat.le_of_lt h)]

theorem nameTableLoop_done (Header : UTXHEADER) (oob : Byte) (T : List UTXENTRYNAME)
    (NumRead : Nat) (st : IL) (h : ¬ NumRead < Header.NameCount) :
    nameTableLoop Header oob T NumRead st = (T, NumRead, st) := by
  rw [nameTableLoop, if_neg h]

theorem nameTableLoop_break (Header : UTXHEADER) (oob : Byte) (T : List UTXENTRYNAME)
    (NumRead : Nat) (st : IL) (h : NumRead < Header.NameCount)
    (hn : (GetUtxName Header oob st).1 = none) :
    nameTableLoop Header oob T NumRead st =
      (T.set NumRead { T.getD NumRead default with Name := none }, NumRead,
       (GetUtxName Header oob st).2) := by
  rw [nameTableLoop, if_pos h]
  simp only [hn, if_true]

theorem nameTableLoop_next (Header : UTXHEADER) (oob : Byte) (T : List UTXENTRYNAME)
    (NumRead : Nat) (st : IL) (h : NumRead < Header.NameCount) (hT : NumRead < T.length)
    (nm : CStr) (hn : (GetUtxName Header oob st).1 = some nm) :
    nameTableLoop Header oob T NumRead st =
      nameTableLoop Header oob
        (T.set NumRead ⟨some nm, (GetLittleUInt (GetUtxName Header oob st).2.io).1⟩)
        (NumRead + 1)
        { (GetUtxName Header oob st).2 with
          io := (GetLittleUInt (GetUtxName Header oob st).2.io).2 } := by
  rw [nameTableLoop, if_pos h]
  simp only [hn, reduceCtorEq, if_false, getD_set_self _ _ _ _ hT, List.set_set]

theorem nameTableLoop_spec (Header : UTXHEADER) (oob : Byte) (d : Nat) :
    ∀ (NumRead : Nat) (T : List UTXENTRYNAME) (st : IL),
      Header.NameCount - NumRead = d → NumRead ≤ Header.NameCount →
      T.length = Header.NameCount →
      (∀ es st2, decodeNames Header oob d st = some (es, st2) →
        nameTableLoop Header oob T NumRead st = (T.take NumRead ++ es, Header.NameCount, st2) ∧
        es.length = d) ∧
      (decodeNames Header oob d st = none →
        ∃ k es stk T2, k < d ∧ decodeNames Header oob k st = some (es, stk) ∧
          (GetUtxName Header oob stk).1 = none ∧
          nameTableLoop Header oob T NumRead st
            = (T2, NumRead + k, (GetUtxName Header oob stk).2) ∧
          (T2.getD (NumRead + k) default).Name = none) := by
  induction d with
  | zero =>
    intro NumRead T st hd hle hT
    have hn : ¬ NumRead < Header.NameCount := by omega
    have he : NumRead = Header.NameCount := by omega
    constructor
    · intro es st2 h
      simp only [decodeNames, Option.some.injEq, Prod.mk.injEq] at h
      rw [nameTableLoop_done _ _ _ _ _ hn, ← h.1, ← h.2, List.append_nil,
        List.take_of_length_le (by omega), he]
      exact ⟨rfl, rfl⟩
    · intro h
      simp [decodeNames] at h
  | succ d ih =>
    intro NumRead T st hd hle hT
    have hlt : NumRead < Header.NameCount := by omega
    cases hg : (GetUtxName Header oob st).1 with
    | none =>
      constructor
      · intro es st2 h
        simp [decodeNames, hg] at h
      · intro _
        refine ⟨0, [], st, T.set NumRead { T.getD NumRead default with Name := none },
          Nat.succ_pos _, rfl, hg, ?_, ?_⟩
        · rw [nameTableLoop_break _ _ _ _ _ hlt hg]
          rfl
        · rw [Nat.add_zero, getD_set_self _ _ _ _ (by omega)]
    | some nm =>
      obtain ⟨ih1, ih2⟩ := ih (NumRead + 1)
        (T.set NumRead ⟨some nm, (GetLittleUInt (GetUtxName Header oob st).2.io).1⟩)
        { (GetUtxName Header oob st).2 with
          io := (GetLittleUInt (GetUtxName Header oob st).2.io).2 }
        (by omega) (by omega) (by rw [List.length_set]; exact hT)
      rw [nameTableLoop_next _ _ _ _ _ hlt (by omega) nm hg]
      constructor
      · intro es st2 h
        simp only [decodeNames, hg] at h
        cases hr : decodeNames Header oob d
            { (GetUtxName Header oob st).2 with
              io := (GetLittleUInt (GetUtxName Header oob st).2.io).2 } with
        | none => rw [hr] at h; simp at h
        | some r =>
          rw [hr] at h
          simp only [Option.some.injEq, Prod.mk.injEq] at h
          obtain ⟨k1, k2⟩ := ih1 r.1 r.2 hr
          rw [k1, take_set_succ_gen _ _ _ (by omega), ← h.1, ← h.2]
          refine ⟨?_, by simp [k2]⟩
          simp
      · intro h
        simp only [decodeNames, hg] at h
        cases hr : decodeNames Header oob d
            { (GetUtxName Header oob st).2 with
              io := (GetLittleUInt (GetUtxName Header oob st).2.io).2 } with
        | some r => rw [hr] at h; simp at h
        | none =>
          obtain ⟨k, es, stk, T2, a1, a2, a3, a4, a5⟩ := ih2 hr
          refine ⟨k + 1, ⟨some nm, (GetLittleUInt (GetUtxName Header oob st).2.io).1⟩ :: es,
            stk, T2, by omega, ?_, a3, ?_, ?_⟩
          · simp only [decodeNames, hg, a2]
          · rw [a4, show NumRead + 1 + k = NumRead + (k + 1) by omega]
          · rw [show NumRead + (k + 1) = NumRead + 1 + k by omega]
            exact a5

theorem decodeNames_prefix_fail (Header : UTXHEADER) (oob : Byte) (k : Nat) :
    ∀ (n : Nat) (st : IL) (es : List UTXENTRYNAME) (stk : IL), k < n →
      decodeNames Header oob k st = some (es, stk) →
      (GetUtxName Header oob stk).1 = none → decodeNames Header oob n st = none := by
  induction k with
  | zero =>
    intro n st es stk hk h hf
    simp only [decodeNames, Option.some.injEq, Prod.mk.injEq] at h
    obtain ⟨m, rfl⟩ : ∃ m, n = m + 1 := ⟨n - 1, by omega⟩
    rw [← h.2] at hf
    simp only [decodeNames, hf]
  | succ k ih =>
    intro n st es stk hk h hf
    obtain ⟨m, rfl⟩ : ∃ m, n = m + 1 := ⟨n - 1, by omega⟩
    cases hg : (GetUtxName Header oob st).1 with
    | none => simp only [decodeNames, hg]
    | some nm =>
      simp only [decodeNames, hg] at h ⊢
      cases hr : decodeNames Header oob k
          { (GetUtxName Header oob st).2 with
            io := (GetLittleUInt (GetUtxName Header oob st).2.io).2 } with
      | none => rw [hr] at h; simp at h
      | some r =>
        rw [hr] at h
        simp only [Option.some.injEq, Prod.mk.injEq] at h
        have := ih m _ r.1 r.2 (by omega) hr (by rw [h.2]; exact hf)
        rw [this]

theorem decodeNames_fail_unique (Header : UTXHEADER) (oob : Byte) (st : IL) (k1 k2 : Nat)
    (es1 es2 : List UTXENTRYNAME) (s1 s2 : IL)
    (h1 : decodeNames Header oob k1 st = some (es1, s1))
    (f1 : (GetUtxName Header oob s1).1 = none)
    (h2 : decodeNames Header oob k2 st = some (es2, s2))
    (f2 : (GetUtxName Header oob s2).1 = none) : k1 = k2 ∧ s1 = s2 := by
  have hk : k1 = k2 := by
    rcases Nat.lt_trichotomy k1 k2 with h | h | h
    · have := decodeNames_prefix_fail Header oob k1 k2 st es1 s1 h h1 f1
      rw [this] at h2
      simp at h2
    · exact h
    · have := decodeNames_prefix_fail Header oob k2 k1 st es2 s2 h h2 f2
      rw [this] at h1
      simp at h1
  subst hk
  rw [h1] at h2
  simp only [Option.some.injEq, Prod.mk.injEq] at h2
  exact ⟨rfl, h2.2⟩

theorem nameFreeLoop_noop (T : List UTXENTRYNAME) (NumRead : Nat)
    (hT : (T.getD NumRead default).Name = none) (d : Nat) :
    ∀ (i : Nat) (st : IL), NumRead - i = d → nameFreeLoop T NumRead i st = st := by
  induction d with
  | zero =>
    intro i st hd
    rw [nameFreeLoop, if_neg (by omega)]
  | succ d ih =>
    intro i st hd
    rw [nameFreeLoop, if_pos (by omega), hT, ih (i + 1) _ (by omega)]
    rfl

theorem GetUtxNameTable_unfold (Header : UTXHEADER) (oob : Byte) (junk : Nat → UTXENTRYNAME)
    (st : IL) (ha : 0 < st.avail) :
    GetUtxNameTable Header oob junk st =
      if (nameTableLoop Header oob ((List.range Header.NameCount).map junk) 0
            (nameTableStart Header st)).2.1 < Header.NameCount then
        (none, ilSetError ILerror.IL_INVALID_FILE_HEADER
          (nameFreeLoop
            (nameTableLoop Header oob ((List.range Header.NameCount).map junk) 0
              (nameTableStart Header st)).1
            (nameTableLoop Header oob ((List.range Header.NameCount).map junk) 0
              (nameTableStart Header st)).2.1 0
            (nameTableLoop Header oob ((List.range Header.NameCount).map junk) 0
              (nameTableStart Header st)).2.2))
      else
        (some ⟨st.next,
          (nameTableLoop Header oob ((List.range Header.NameCount).map junk) 0
            (nameTableStart Header st)).1⟩,
         (nameTableLoop Header oob ((List.range Header.NameCount).map junk) 0
            (nameTableStart Header st)).2.2) := by
  have hav : ¬ st.avail = 0 := by omega
  simp only [GetUtxNameTable, ialloc, hav, if_false, nameTableStart]

theorem GetUtxNameTable_success (Header : UTXHEADER) (oob : Byte) (junk : Nat → UTXENTRYNAME)
    (st : IL) (ha : 0 < st.avail) (es : List UTXENTRYNAME) (st2 : IL)
    (h : decodeNames Header oob Header.NameCount (nameTableStart Header st) = some (es, st2)) :
    GetUtxNameTable Header oob junk st = (some ⟨st.next, es⟩, st2) ∧
    es.length = Header.NameCount := by
  obtain ⟨k1, k2⟩ := (nameTableLoop_spec Header oob Header.NameCount 0
    ((List.range Header.NameCount).map junk) (nameTableStart Header st) (Nat.sub_zero _)
    (Nat.zero_le _) (by simp)).1 es st2 h
  refine ⟨?_, k2⟩
  rw [GetUtxNameTable_unfold Header oob junk st ha, k1, if_neg (Nat.lt_irrefl _)]
  rfl

theorem GetUtxNameTable_failure (Header : UTXHEADER) (oob : Byte) (junk : Nat → UTXENTRYNAME)
    (st : IL) (ha : 0 < st.avail) (k : Nat) (es : List UTXENTRYNAME) (stk : IL)
    (hk : k < Header.NameCount)
    (h : decodeNames Header oob k (nameTableStart Header st) = some (es, stk))
    (hf : (GetUtxName Header oob stk).1 = none) :
    GetUtxNameTable Header oob junk st =
      (none, ilSetError ILerror.IL_INVALID_FILE_HEADER (GetUtxName Header oob stk).2) := by
  have hnone := decodeNames_prefix_fail Header oob k Header.NameCount _ es stk hk h hf
  obtain ⟨k2, es2, stk2, T2, a1, a2, a3, a4, a5⟩ := (nameTableLoop_spec Header oob
    Header.NameCount 0 ((List.range Header.NameCount).map junk) (nameTableStart Header st)
    (Nat.sub_zero _) (Nat.zero_le _) (by simp)).2 hnone
  obtain ⟨e1, e2⟩ := decodeNames_fail_unique Header oob _ k2 k es2 es stk2 stk a2 a3 h hf
  subst e1 e2
  rw [GetUtxNameTable_unfold Header oob junk st ha, a4,
    if_pos (by show 0 + k2 < Header.NameCount; omega),
    nameFreeLoop_noop T2 _ a5 _ 0 _ rfl]

/-- C7: name table construction is all-or-nothing. When the allocator grants
the block of the table, GetUtxNameTable either returns a table of exactly
NameCount entries, which are the names decoded one after the other from
NameOffset by GetUtxName, each paired with the 32-bit little-endian flags read
after it; or it returns no table and records IL_INVALID_FILE_HEADER, and this
happens exactly when GetUtxName fails on some entry k below NameCount after k
successful entries. -/
theorem GetUtxNameTable_all_or_nothing (Header : UTXHEADER) (oob : Byte)
    (junk : Nat → UTXENTRYNAME) (st : IL) (ha : 0 < st.avail) :
    (∀ tbl, (GetUtxNameTable Header oob junk st).1 = some tbl →
      tbl.elems.length = Header.NameCount ∧
      decodeNames Header oob Header.NameCount (nameTableStart Header st)
        = some (tbl.elems, (GetUtxNameTable Header oob junk st).2)) ∧
    ((GetUtxNameTable Header oob junk st).1 = none ↔
      ∃ k es stk, k < Header.NameCount ∧
        decodeNames Header oob k (nameTableStart Header st) = some (es, stk) ∧
        (GetUtxName Header oob stk).1 = none) ∧
    ((GetUtxNameTable Header oob junk st).1 = none →
      (GetUtxNameTable Header oob junk st).2.error.head?
        = some ILerror.IL_INVALID_FILE_HEADER) := by
  cases hd : decodeNames Header oob Header.NameCount (nameTableStart Header st) with
  | some r =>
    obtain ⟨h1, h2⟩ := GetUtxNameTable_success Header oob junk st ha r.1 r.2 hd
    rw [h1]
    refine ⟨?_, ?_, ?_⟩
    · intro tbl ht
      simp only [Option.some.injEq] at ht
      rw [← ht]
      exact ⟨h2, rfl⟩
    · constructor
      · intro h
        simp at h
      · rintro ⟨k, es, stk, hk, a1, a2⟩
        have := decodeNames_prefix_fail Header oob k Header.NameCount _ es stk hk a1 a2
        rw [this] at hd
        simp at hd
    · intro h
      simp at h
  | none =>
    obtain ⟨k, es, stk, T2, a1, a2, a3, -, -⟩ := (nameTableLoop_spec Header oob
      Header.NameCount 0 ((List.range Header.NameCount).map junk) (nameTableStart Header st)
      (Nat.sub_zero _) (Nat.zero_le _) (by simp)).2 hd
    rw [GetUtxNameTable_failure Header oob junk st ha k es stk a1 a2 a3]
    refine ⟨?_, ?_, ?_⟩
    · intro tbl ht
      simp at ht
    · exact ⟨fun _ => ⟨k, es, stk, a1, a2, a3⟩, fun _ => rfl⟩
    · intro _
      rfl

/-- Witness of C7 on a package of version 64 with two names, the second of
which is cut short. -/
theorem GetUtxNameTable_all_or_nothing_witness :
    (∀ tbl, (GetUtxNameTable ⟨0x9E2A83C1, 64, 0, 0, 2, 0, 0, 0, 0, 0⟩ 0 (fun _ => default)
        ⟨⟨[2, 97, 0, 1, 0, 0, 0, 5, 120], 0⟩, [], 0, 10, []⟩).1 = some tbl →
      tbl.elems.length = 2 ∧
      decodeNames ⟨0x9E2A83C1, 64, 0, 0, 2, 0, 0, 0, 0, 0⟩ 0 2
          (nameTableStart ⟨0x9E2A83C1, 64, 0, 0, 2, 0, 0, 0, 0, 0⟩
            ⟨⟨[2, 97, 0, 1, 0, 0, 0, 5, 120], 0⟩, [], 0, 10, []⟩)
        = some (tbl.elems,
            (GetUtxNameTable ⟨0x9E2A83C1, 64, 0, 0, 2, 0, 0, 0, 0, 0⟩ 0 (fun _ => default)
              ⟨⟨[2, 97, 0, 1, 0, 0, 0, 5, 120], 0⟩, [], 0, 10, []⟩).2)) ∧
    ((GetUtxNameTable ⟨0x9E2A83C1, 64, 0, 0, 2, 0, 0, 0, 0, 0⟩ 0 (fun _ => default)
        ⟨⟨[2, 97, 0, 1, 0, 0, 0, 5, 120], 0⟩, [], 0, 10, []⟩).1 = none ↔
      ∃ k es stk, k < 2 ∧
        decodeNames ⟨0x9E2A83C1, 64, 0, 0, 2, 0, 0, 0, 0, 0⟩ 0 k
          (nameTableStart ⟨0x9E2A83C1, 64, 0, 0, 2, 0, 0, 0, 0, 0⟩
            ⟨⟨[2, 97, 0, 1, 0, 0, 0, 5, 120], 0⟩, [], 0, 10, []⟩) = some (es, stk) ∧
        (GetUtxName ⟨0x9E2A83C1, 64, 0, 0, 2, 0, 0, 0, 0, 0⟩ 0 stk).1 = none) ∧
    ((GetUtxNameTable ⟨0x9E2A83C1, 64, 0, 0, 2, 0, 0, 0, 0, 0⟩ 0 (fun _ => default)
        ⟨⟨[2, 97, 0, 1, 0, 0, 0, 5, 120], 0⟩, [], 0, 10, []⟩).1 = none →
      (GetUtxNameTable ⟨0x9E2A83C1, 64, 0, 0, 2, 0, 0, 0, 0, 0⟩ 0 (fun _ => default)
        ⟨⟨[2, 97, 0, 1, 0, 0, 0, 5, 120], 0⟩, [], 0, 10, []⟩).2.error.head?
        = some ILerror.IL_INVALID_FILE_HEADER) :=
  GetUtxNameTable_all_or_nothing ⟨0x9E2A83C1, 64, 0, 0, 2, 0, 0, 0, 0, 0⟩ 0
    (fun _ => default) ⟨⟨[2, 97, 0, 1, 0, 0, 0, 5, 120], 0⟩, [], 0, 10, []⟩ (by decide)

theorem leakSample_first :
    GetUtxName ⟨0x9E2A83C1, 64, 0, 0, 2, 0, 0, 0, 0, 0⟩ 0
        ⟨⟨[2, 97, 0, 1, 0, 0, 0, 5, 120], 0⟩, [0], 1, 9, []⟩
      = (some ⟨1, [97, 0]⟩, ⟨⟨[2, 97, 0, 1, 0, 0, 0, 5, 120], 3⟩, [1, 0], 2, 8, []⟩) := by
  have hg : igetc ⟨[2, 97, 0, 1, 0, 0, 0, 5, 120], 0⟩
      = (((2 : Byte).val : Int), ⟨[2, 97, 0, 1, 0, 0, 0, 5, 120], 1⟩) :=
    igetc_append [] 2 [97, 0, 1, 0, 0, 0, 5, 120]
  have hr : iread (2 : Byte).val 1 ⟨[2, 97, 0, 1, 0, 0, 0, 5, 120], 1⟩
      = ([97, 0], 1, ⟨[2, 97, 0, 1, 0, 0, 0, 5, 120], 3⟩) := by decide
  rw [GetUtxName_new_unfold _ (by decide) _ _ (by decide)]
  simp only [hg, toUByte_val, hr, ne_eq, not_true_eq_false, if_false, Nat.reduceAdd,
    Nat.reduceSub]

theorem leakSample_flags :
    GetLittleUInt ⟨[2, 97, 0, 1, 0, 0, 0, 5, 120], 3⟩
      = (1, ⟨[2, 97, 0, 1, 0, 0, 0, 5, 120], 7⟩) := by
  rw [GetLittleUInt_of_le _ (by decide)]
  rfl

theorem leakSample_second :
    GetUtxName ⟨0x9E2A83C1, 64, 0, 0, 2, 0, 0, 0, 0, 0⟩ 0
        ⟨⟨[2, 97, 0, 1, 0, 0, 0, 5, 120], 7⟩, [1, 0], 2, 8, []⟩
      = (none, ⟨⟨[2, 97, 0, 1, 0, 0, 0, 5, 120], 9⟩, [1, 0], 3, 7, []⟩) := by
  have hg : igetc ⟨[2, 97, 0, 1, 0, 0, 0, 5, 120], 7⟩
      = (((5 : Byte).val : Int), ⟨[2, 97, 0, 1, 0, 0, 0, 5, 120], 8⟩) :=
    igetc_append [2, 97, 0, 1, 0, 0, 0] 5 [120]
  have hr : iread (5 : Byte).val 1 ⟨[2, 97, 0, 1, 0, 0, 0, 5, 120], 8⟩
      = ([120], 0, ⟨[2, 97, 0, 1, 0, 0, 0, 5, 120], 9⟩) := by decide
  rw [GetUtxName_new_unfold _ (by decide) _ _ (by decide)]
  simp only [hg, toUByte_val, hr, ne_eq, Nat.zero_ne_one, not_false_eq_true, if_true,
    Nat.reduceAdd, Nat.reduceSub]

theorem leakSample_decode :
    decodeNames ⟨0x9E2A83C1, 64, 0, 0, 2, 0, 0, 0, 0, 0⟩ 0 1
        (nameTableStart ⟨0x9E2A83C1, 64, 0, 0, 2, 0, 0, 0, 0, 0⟩
          ⟨⟨[2, 97, 0, 1, 0, 0, 0, 5, 120], 0⟩, [], 0, 10, []⟩)
      = some ([⟨some ⟨1, [97, 0]⟩, 1⟩],
          ⟨⟨[2, 97, 0, 1, 0, 0, 0, 5, 120], 7⟩, [1, 0], 2, 8, []⟩) := by
  have hs : nameTableStart ⟨0x9E2A83C1, 64, 0, 0, 2, 0, 0, 0, 0, 0⟩
      ⟨⟨[2, 97, 0, 1, 0, 0, 0, 5, 120], 0⟩, [], 0, 10, []⟩
      = ⟨⟨[2, 97, 0, 1, 0, 0, 0, 5, 120], 0⟩, [0], 1, 9, []⟩ := rfl
  rw [hs]
  simp only [decodeNames, leakSample_first, leakSample_flags]

/-- C8 fails on the code: for a package of version 64 with NameCount 2 whose
second name is cut short (length byte 5, one byte left), GetUtxNameTable
returns no table, yet the heap, empty before the call, afterwards still holds
block 0 (the table) and block 1 (the string of entry 0). The clean-up loop
releases NameEntries[NumRead].Name, which is NULL, on every iteration, and the
table itself is never released. -/
theorem GetUtxNameTable_leaks :
    (GetUtxNameTable ⟨0x9E2A83C1, 64, 0, 0, 2, 0, 0, 0, 0, 0⟩ 0 (fun _ => default)
        ⟨⟨[2, 97, 0, 1, 0, 0, 0, 5, 120], 0⟩, [], 0, 10, []⟩).1 = none ∧
    (GetUtxNameTable ⟨0x9E2A83C1, 64, 0, 0, 2, 0, 0, 0, 0, 0⟩ 0 (fun _ => default)
        ⟨⟨[2, 97, 0, 1, 0, 0, 0, 5, 120], 0⟩, [], 0, 10, []⟩).2.live = [1, 0] := by
  have h := GetUtxNameTable_failure ⟨0x9E2A83C1, 64, 0, 0, 2, 0, 0, 0, 0, 0⟩ 0
    (fun _ => default) ⟨⟨[2, 97, 0, 1, 0, 0, 0, 5, 120], 0⟩, [], 0, 10, []⟩ (by decide) 1 _ _
    (by decide) leakSample_decode (by rw [leakSample_second])
  rw [h, leakSample_second]
  exact ⟨rfl, rfl⟩

/-! ## Compact integers: values and lengths -/

theorem peek_streamByte (s : Stream) (k : Nat) : peek s k = (streamByte s k).val :=
  peek_eq_getD s k

theorem fst_pair {α β : Type} (a : α) (b : β) : (a, b).1 = a := rfl

theorem snd_pair {α β : Type} (a : α) (b : β) : (a, b).2 = b := rfl

theorem bit6_clear_iff (x : Byte) : x.val &&& 0x40 = 0 ↔ x.val / 64 % 2 = 0 := by
  rw [byte_and_40]
  omega

theorem bit7_clear_iff (x : Byte) : x.val &&& 0x80 = 0 ↔ x.val / 128 = 0 := by
  rw [byte_and_80]
  omega

theorem compactSign_byte (x : Byte) :
    compactSign x.val = if 128 ≤ x.val then -1 else 1 := by
  have h := bit7_clear_iff x
  have hx := x.isLt
  unfold compactSign
  by_cases c : 128 ≤ x.val
  · rw [if_neg (by rw [h]; omega), if_pos c]
  · rw [if_pos (by rw [h]; omega), if_neg c]

theorem applySign_mul (x : Byte) (M : Nat) (hM : M < 2147483648) :
    applySign x.val (M : Int) = compactSign x.val * (M : Int) := by
  rw [compactSign_byte]
  unfold applySign toInt32
  by_cases c : 128 ≤ x.val
  · rw [if_pos c, if_pos c]; omega
  · rw [if_neg c, if_neg c]; omega

theorem toInt32_neg_toInt32 (z : Int) : toInt32 (toInt32 z * -1) = toInt32 (-1 * z) := by
  unfold toInt32
  omega

theorem applySign_wrap32 (x : Byte) (M : Nat) :
    applySign x.val (toInt32 (M : Int)) = toInt32 (compactSign x.val * (M : Int)) := by
  rw [compactSign_byte]
  unfold applySign
  by_cases c : 128 ≤ x.val
  · rw [if_pos c, if_pos c, toInt32_neg_toInt32]
  · rw [if_neg c, if_neg c, Int.one_mul]

theorem decode_one (s : Stream) (h0 : (streamByte s 0).val &&& 0x40 = 0) :
    UtxReadCompactInteger s =
      (compactSign (streamByte s 0).val * (((streamByte s 0).val &&& 0x3F : Nat) : Int),
       skip 1 s) := by
  have c0 : peek s 0 / 64 % 2 = 0 := by
    rw [peek_streamByte]; exact (bit6_clear_iff _).mp h0
  have hb : (streamByte s 0).val % 64 < 2147483648 := by omega
  rewrite [read_one s c0, peek_streamByte, applySign_mul _ _ hb, byte_and_3F]
  exact Eq.refl _

theorem decode_two (s : Stream) (h0 : (streamByte s 0).val &&& 0x40 ≠ 0)
    (h1 : (streamByte s 1).val &&& 0x80 = 0) :
    UtxReadCompactInteger s =
      (compactSign (streamByte s 0).val *
        (((streamByte s 0).val &&& 0x3F) + ((streamByte s 1).val &&& 0x7F) * 2 ^ 6 : Nat),
       skip 2 s) := by
  have c0 : ¬ peek s 0 / 64 % 2 = 0 := by
    rw [peek_streamByte]; exact fun h => h0 ((bit6_clear_iff _).mpr h)
  have c1 : peek s 1 / 128 = 0 := by
    rw [peek_streamByte]; exact (bit7_clear_iff _).mp h1
  have hb : (streamByte s 0).val % 64 + (streamByte s 1).val % 128 * 2 ^ 6 < 2147483648 := by
    omega
  rewrite [read_two s c0 c1, peek_streamByte, peek_streamByte, applySign_mul _ _ hb,
    byte_and_3F, byte_and_7F]
  exact Eq.refl _

theorem decode_three (s : Stream) (h0 : (streamByte s 0).val &&& 0x40 ≠ 0)
    (h1 : (streamByte s 1).val &&& 0x80 ≠ 0) (h2 : (streamByte s 2).val &&& 0x80 = 0) :
    UtxReadCompactInteger s =
      (compactSign (streamByte s 0).val *
        (((streamByte s 0).val &&& 0x3F) + ((streamByte s 1).val &&& 0x7F) * 2 ^ 6
          + ((streamByte s 2).val &&& 0x7F) * 2 ^ 13 : Nat),
       skip 3 s) := by
  have c0 : ¬ peek s 0 / 64 % 2 = 0 := by
    rw [peek_streamByte]; exact fun h => h0 ((bit6_clear_iff _).mpr h)
  have c1 : ¬ peek s 1 / 128 = 0 := by
    rw [peek_streamByte]; exact fun h => h1 ((bit7_clear_iff _).mpr h)
  have c2 : peek s 2 / 128 = 0 := by
    rw [peek_streamByte]; exact (bit7_clear_iff _).mp h2
  have hb : (streamByte s 0).val % 64 + (streamByte s 1).val % 128 * 2 ^ 6
      + (streamByte s 2).val % 128 * 2 ^ 13 < 2147483648 := by
    omega
  rewrite [read_three s c0 c1 c2, peek_streamByte, peek_streamByte, peek_streamByte,
    applySign_mul _ _ hb, byte_and_3F, byte_and_7F, byte_and_7F]
  exact Eq.refl _

theorem decode_four (s : Stream) (h0 : (streamByte s 0).val &&& 0x40 ≠ 0)
    (h1 : (streamByte s 1).val &&& 0x80 ≠ 0) (h2 : (streamByte s 2).val &&& 0x80 ≠ 0)
    (h3 : (streamByte s 3).val &&& 0x80 = 0) :
    UtxReadCompactInteger s =
      (compactSign (streamByte s 0).val *
        (((streamByte s 0).val &&& 0x3F) + ((streamByte s 1).val &&& 0x7F) * 2 ^ 6
          + ((streamByte s 2).val &&& 0x7F) * 2 ^ 13
          + ((streamByte s 3).val &&& 0x7F) * 2 ^ 20 : Nat),
       skip 4 s) := by
  have c0 : ¬ peek s 0 / 64 % 2 = 0 := by
    rw [peek_streamByte]; exact fun h => h0 ((bit6_clear_iff _).mpr h)
  have c1 : ¬ peek s 1 / 128 = 0 := by
    rw [peek_streamByte]; exact fun h => h1 ((bit7_clear_iff _).mpr h)
  have c2 : ¬ peek s 2 / 128 = 0 := by
    rw [peek_streamByte]; exact fun h => h2 ((bit7_clear_iff _).mpr h)
  have c3 : peek s 3 / 128 = 0 := by
    rw [peek_streamByte]; exact (bit7_clear_iff _).mp h3
  have hb : (streamByte s 0).val % 64 + (streamByte s 1).val % 128 * 2 ^ 6
      + (streamByte s 2).val % 128 * 2 ^ 13 + (streamByte s 3).val % 128 * 2 ^ 20
      < 2147483648 := by
    omega
  rewrite [read_four s c0 c1 c2 c3, peek_streamByte, peek_streamByte, peek_streamByte,
    peek_streamByte, applySign_mul _ _ hb, byte_and_3F, byte_and_7F, byte_and_7F, byte_and_7F]
  exact Eq.refl _

theorem decode_five (s : Stream) (h0 : (streamByte s 0).val &&& 0x40 ≠ 0)
    (h1 : (streamByte s 1).val &&& 0x80 ≠ 0) (h2 : (streamByte s 2).val &&& 0x80 ≠ 0)
    (h3 : (streamByte s 3).val &&& 0x80 ≠ 0) :
    UtxReadCompactInteger s =
      (toInt32 (compactSign (streamByte s 0).val *
        (((streamByte s 0).val &&& 0x3F) + ((streamByte s 1).val &&& 0x7F) * 2 ^ 6
          + ((streamByte s 2).val &&& 0x7F) * 2 ^ 13
          + ((streamByte s 3).val &&& 0x7F) * 2 ^ 20
          + ((streamByte s 4).val &&& 0x1F) * 2 ^ 27 : Nat)),
       skip 5 s) := by
  have c0 : ¬ peek s 0 / 64 % 2 = 0 := by
    rw [peek_streamByte]; exact fun h => h0 ((bit6_clear_iff _).mpr h)
  have c1 : ¬ peek s 1 / 128 = 0 := by
    rw [peek_streamByte]; exact fun h => h1 ((bit7_clear_iff _).mpr h)
  have c2 : ¬ peek s 2 / 128 = 0 := by
    rw [peek_streamByte]; exact fun h => h2 ((bit7_clear_iff _).mpr h)
  have c3 : ¬ peek s 3 / 128 = 0 := by
    rw [peek_streamByte]; exact fun h => h3 ((bit7_clear_iff _).mpr h)
  rewrite [read_five s c0 c1 c2 c3, peek_streamByte, peek_streamByte, peek_streamByte,
    peek_streamByte, peek_streamByte, applySign_wrap32, byte_and_3F, byte_and_7F, byte_and_7F,
    byte_and_7F, byte_and_1F]
  exact Eq.refl _

theorem toInt32_sign_mul (x : Byte) (M : Nat) (hM : M < 2147483648) :
    toInt32 (compactSign x.val * (M : Int)) = compactSign x.val * (M : Int) := by
  rw [compactSign_byte]
  unfold toInt32
  by_cases c : 128 ≤ x.val
  · rw [if_pos c]; omega
  · rw [if_neg c]; omega

/-- C16: compact integers of one to four bytes. Writing b0, b1, b2, b3 for the
bytes at the read position, when decoding stops within the first four bytes
UtxReadCompactInteger returns s * M, where M is the low 6 bits of b0 plus the
low 7 bits of each further consumed byte at bit offsets 6, 13 and 20, and s is
-1 when bit 7 of b0 is set and +1 otherwise; the single byte 0x80 decodes
to 0. -/
theorem compact_value_one_to_four (s : Stream) :
    ((streamByte s 0).val &&& 0x40 = 0 →
      (UtxReadCompactInteger s).1 =
        compactSign (streamByte s 0).val * (((streamByte s 0).val &&& 0x3F : Nat) : Int)) ∧
    ((streamByte s 0).val &&& 0x40 ≠ 0 → (streamByte s 1).val &&& 0x80 = 0 →
      (UtxReadCompactInteger s).1 =
        compactSign (streamByte s 0).val *
          ((((streamByte s 0).val &&& 0x3F) + ((streamByte s 1).val &&& 0x7F) * 2 ^ 6 : Nat)
            : Int)) ∧
    ((streamByte s 0).val &&& 0x40 ≠ 0 → (streamByte s 1).val &&& 0x80 ≠ 0 →
      (streamByte s 2).val &&& 0x80 = 0 →
      (UtxReadCompactInteger s).1 =
        compactSign (streamByte s 0).val *
          ((((streamByte s 0).val &&& 0x3F) + ((streamByte s 1).val &&& 0x7F) * 2 ^ 6
            + ((streamByte s 2).val &&& 0x7F) * 2 ^ 13 : Nat) : Int)) ∧
    ((streamByte s 0).val &&& 0x40 ≠ 0 → (streamByte s 1).val &&& 0x80 ≠ 0 →
      (streamByte s 2).val &&& 0x80 ≠ 0 → (streamByte s 3).val &&& 0x80 = 0 →
      (UtxReadCompactInteger s).1 =
        compactSign (streamByte s 0).val *
          ((((streamByte s 0).val &&& 0x3F) + ((streamByte s 1).val &&& 0x7F) * 2 ^ 6
            + ((streamByte s 2).val &&& 0x7F) * 2 ^ 13
            + ((streamByte s 3).val &&& 0x7F) * 2 ^ 20 : Nat) : Int)) ∧
    (UtxReadCompactInteger ⟨[0x80], 0⟩).1 = 0 := by
  refine ⟨?_, ?_, ?_, ?_, ?_⟩
  · intro h0
    rewrite [decode_one s h0, fst_pair]
    exact Eq.refl _
  · intro h0 h1
    rewrite [decode_two s h0 h1, fst_pair]
    exact Eq.refl _
  · intro h0 h1 h2
    rewrite [decode_three s h0 h1 h2, fst_pair]
    exact Eq.refl _
  · intro h0 h1 h2 h3
    rewrite [decode_four s h0 h1 h2 h3, fst_pair]
    exact Eq.refl _
  · rewrite [decode_one ⟨[0x80], 0⟩ (by decide), fst_pair]
    decide

theorem toInt32_eq_self_iff (z : Int) :
    toInt32 z = z ↔ -2147483648 ≤ z ∧ z < 2147483648 := by
  unfold toInt32
  constructor
  · intro h; omega
  · intro h; omega

theorem sign_mul_fits_iff (x : Byte) (M : Nat) :
    toInt32 (compactSign x.val * (M : Int)) = compactSign x.val * (M : Int) ↔
      (M < 2147483648 ∨ (M = 2147483648 ∧ x.val &&& 0x80 ≠ 0)) := by
  rw [toInt32_eq_self_iff, compactSign_byte]
  have hb := bit7_clear_iff x
  have hx := x.isLt
  by_cases c : 128 ≤ x.val
  · have hn : x.val &&& 0x80 ≠ 0 := by rw [Ne, hb]; omega
    rw [if_pos c]
    constructor
    · intro h
      rcases Nat.lt_or_ge M 2147483648 with k | k
      · exact Or.inl k
      · exact Or.inr ⟨by omega, hn⟩
    · intro h
      rcases h with h | ⟨h, -⟩ <;> omega
  · have hz : x.val &&& 0x80 = 0 := by rw [hb]; omega
    rw [if_neg c]
    constructor
    · intro h
      exact Or.inl (by omega)
    · intro h
      rcases h with h | ⟨-, h⟩
      · omega
      · exact absurd hz h

theorem fiveBytes_wrap_value :
    (UtxReadCompactInteger ⟨[0x7F, 0xFF, 0xFF, 0xFF, 0x1F], 0⟩).1 = -1 := by
  rewrite [decode_five ⟨[0x7F, 0xFF, 0xFF, 0xFF, 0x1F], 0⟩ (by decide) (by decide) (by decide)
    (by decide), fst_pair]
  decide

/-- C14, as stated, fails: the five bytes 7F FF FF FF 1F have the sign flag
clear and magnitude M = 63 + 127 * 2^6 + 127 * 2^13 + 127 * 2^20 + 31 * 2^27 =
4294967295, yet UtxReadCompactInteger returns -1: the 32-bit result has
wrapped around. -/
theorem compact_five_bytes_wrap :
    (UtxReadCompactInteger ⟨[0x7F, 0xFF, 0xFF, 0xFF, 0x1F], 0⟩).1 = -1 ∧
    compactSign 0x7F *
      ((((0x7F &&& 0x3F) + (0xFF &&& 0x7F) * 2 ^ 6 + (0xFF &&& 0x7F) * 2 ^ 13
        + (0xFF &&& 0x7F) * 2 ^ 20 + (0x1F &&& 0x1F) * 2 ^ 27 : Nat)) : Int) = 4294967295 ∧
    ¬ ((UtxReadCompactInteger ⟨[0x7F, 0xFF, 0xFF, 0xFF, 0x1F], 0⟩).1 =
      compactSign 0x7F *
        ((((0x7F &&& 0x3F) + (0xFF &&& 0x7F) * 2 ^ 6 + (0xFF &&& 0x7F) * 2 ^ 13
          + (0xFF &&& 0x7F) * 2 ^ 20 + (0x1F &&& 0x1F) * 2 ^ 27 : Nat)) : Int)) := by
  refine ⟨fiveBytes_wrap_value, by decide, ?_⟩
  rw [fiveBytes_wrap_value]
  decide

/-- C14, amended: for every five-byte encoding (continue flags of b0..b3 all
set) UtxReadCompactInteger returns s * M reduced modulo 2^32 into the signed
32-bit range, where M = (b0 & 0x3F) + (b1 & 0x7F) * 2^6 + (b2 & 0x7F) * 2^13 +
(b3 & 0x7F) * 2^20 + (b4 & 0x1F) * 2^27 and s is -1 when bit 7 of b0 is set and
+1 otherwise. The result equals s * M if and only if s * M fits in a signed
32-bit integer, that is, M is below 2^31, or M is 2^31 and the sign flag is
set; in every other case the 32-bit result has wrapped around. The result does
not depend on bits 5-7 of b4: a stream with the same b0..b3 and the same low
five bits of b4 decodes to the same value. -/
theorem compact_value_five (s : Stream) (h0 : (streamByte s 0).val &&& 0x40 ≠ 0)
    (h1 : (streamByte s 1).val &&& 0x80 ≠ 0) (h2 : (streamByte s 2).val &&& 0x80 ≠ 0)
    (h3 : (streamByte s 3).val &&& 0x80 ≠ 0) :
    (UtxReadCompactInteger s).1 =
      toInt32 (compactSign (streamByte s 0).val *
        ((((streamByte s 0).val &&& 0x3F) + ((streamByte s 1).val &&& 0x7F) * 2 ^ 6
          + ((streamByte s 2).val &&& 0x7F) * 2 ^ 13
          + ((streamByte s 3).val &&& 0x7F) * 2 ^ 20
          + ((streamByte s 4).val &&& 0x1F) * 2 ^ 27 : Nat) : Int)) ∧
    ((UtxReadCompactInteger s).1 =
        compactSign (streamByte s 0).val *
          ((((streamByte s 0).val &&& 0x3F) + ((streamByte s 1).val &&& 0x7F) * 2 ^ 6
            + ((streamByte s 2).val &&& 0x7F) * 2 ^ 13
            + ((streamByte s 3).val &&& 0x7F) * 2 ^ 20
            + ((streamByte s 4).val &&& 0x1F) * 2 ^ 27 : Nat) : Int) ↔
      ((((streamByte s 0).val &&& 0x3F) + ((streamByte s 1).val &&& 0x7F) * 2 ^ 6
          + ((streamByte s 2).val &&& 0x7F) * 2 ^ 13
          + ((streamByte s 3).val &&& 0x7F) * 2 ^ 20
          + ((streamByte s 4).val &&& 0x1F) * 2 ^ 27) < 2147483648 ∨
       ((((streamByte s 0).val &&& 0x3F) + ((streamByte s 1).val &&& 0x7F) * 2 ^ 6
          + ((streamByte s 2).val &&& 0x7F) * 2 ^ 13
          + ((streamByte s 3).val &&& 0x7F) * 2 ^ 20
          + ((streamByte s 4).val &&& 0x1F) * 2 ^ 27) = 2147483648 ∧
        (streamByte s 0).val &&& 0x80 ≠ 0))) ∧
    (∀ s2 : Stream, streamByte s2 0 = streamByte s 0 → streamByte s2 1 = streamByte s 1 →
      streamByte s2 2 = streamByte s 2 → streamByte s2 3 = streamByte s 3 →
      (streamByte s2 4).val &&& 0x1F = (streamByte s 4).val &&& 0x1F →
      (UtxReadCompactInteger s2).1 = (UtxReadCompactInteger s).1) := by
  refine ⟨?_, ?_, ?_⟩
  · rewrite [decode_five s h0 h1 h2 h3, fst_pair]
    exact Eq.refl _
  · rewrite [decode_five s h0 h1 h2 h3, fst_pair]
    exact sign_mul_fits_iff _ _
  · intro s2 e0 e1 e2 e3 e4
    rewrite [decode_five s h0 h1 h2 h3,
      decode_five s2 (by rw [e0]; exact h0) (by rw [e1]; exact h1) (by rw [e2]; exact h2)
        (by rw [e3]; exact h3), fst_pair, fst_pair, e0, e1, e2, e3, e4]
    exact Eq.refl _

/-- Witness of the amended C14: the five bytes 7F FF FF FF 1F decode to the
wrapped value, and the five bytes C0 80 80 80 10, whose magnitude is 2^31 with
the sign flag set, decode to exactly -2^31. -/
theorem compact_value_five_witness :
    (UtxReadCompactInteger ⟨[0x7F, 0xFF, 0xFF, 0xFF, 0x1F], 0⟩).1 =
      toInt32 (compactSign (streamByte ⟨[0x7F, 0xFF, 0xFF, 0xFF, 0x1F], 0⟩ 0).val *
        ((((streamByte ⟨[0x7F, 0xFF, 0xFF, 0xFF, 0x1F], 0⟩ 0).val &&& 0x3F)
          + ((streamByte ⟨[0x7F, 0xFF, 0xFF, 0xFF, 0x1F], 0⟩ 1).val &&& 0x7F) * 2 ^ 6
          + ((streamByte ⟨[0x7F, 0xFF, 0xFF, 0xFF, 0x1F], 0⟩ 2).val &&& 0x7F) * 2 ^ 13
          + ((streamByte ⟨[0x7F, 0xFF, 0xFF, 0xFF, 0x1F], 0⟩ 3).val &&& 0x7F) * 2 ^ 20
          + ((streamByte ⟨[0x7F, 0xFF, 0xFF, 0xFF, 0x1F], 0⟩ 4).val &&& 0x1F) * 2 ^ 27 : Nat)
          : Int)) ∧
    (UtxReadCompactInteger ⟨[0xC0, 0x80, 0x80, 0x80, 0x10], 0⟩).1 = -2147483648 :=
  ⟨(compact_value_five ⟨[0x7F, 0xFF, 0xFF, 0xFF, 0x1F], 0⟩ (by decide) (by decide) (by decide)
    (by decide)).1,
   ((compact_value_five ⟨[0xC0, 0x80, 0x80, 0x80, 0x10], 0⟩ (by decide) (by decide)
    (by decide) (by decide)).2.1.mpr (Or.inr ⟨by decide, by decide⟩)).trans (by decide)⟩

theorem skip_of_available (k : Nat) (s : Stream) (h : s.pos + k ≤ s.data.length) :
    skip k s = ⟨s.data, s.pos + k⟩ := by
  obtain ⟨d, p⟩ := s
  exact skip_of_le k d p h

/-- C15: compact integer length rule. With at least five bytes available,
UtxReadCompactInteger performs exactly n single-byte reads and leaves the read
position n bytes further, where n is 1 when bit 6 of byte 0 is clear,
otherwise i + 1 for the first i among 1, 2, 3 whose byte has bit 7 clear,
otherwise 5; so n lies between 1 and 5. No byte after those n influences the
result: any stream with the same first n bytes decodes to the same value with
the same number of reads. -/
theorem compact_length_rule (s : Stream) (h5 : s.pos + 5 ≤ s.data.length) :
    (UtxReadCompactInteger s).2
      = skip (compactLength (streamByte s 0).val (streamByte s 1).val (streamByte s 2).val
          (streamByte s 3).val) s ∧
    (UtxReadCompactInteger s).2
      = ⟨s.data, s.pos + compactLength (streamByte s 0).val (streamByte s 1).val
          (streamByte s 2).val (streamByte s 3).val⟩ ∧
    1 ≤ compactLength (streamByte s 0).val (streamByte s 1).val (streamByte s 2).val
          (streamByte s 3).val ∧
    compactLength (streamByte s 0).val (streamByte s 1).val (streamByte s 2).val
          (streamByte s 3).val ≤ 5 ∧
    (∀ s2 : Stream,
      (∀ i, i < compactLength (streamByte s 0).val (streamByte s 1).val (streamByte s 2).val
          (streamByte s 3).val → streamByte s2 i = streamByte s i) →
      (UtxReadCompactInteger s2).1 = (UtxReadCompactInteger s).1 ∧
      (UtxReadCompactInteger s2).2
        = skip (compactLength (streamByte s 0).val (streamByte s 1).val (streamByte s 2).val
            (streamByte s 3).val) s2) := by
  by_cases h0 : (streamByte s 0).val &&& 0x40 = 0
  · have hn : compactLength (streamByte s 0).val (streamByte s 1).val (streamByte s 2).val
        (streamByte s 3).val = 1 := by
      unfold compactLength; rw [if_pos h0]
    rw [hn]
    refine ⟨?_, ?_, Nat.le_refl _, by decide, ?_⟩
    · rewrite [decode_one s h0, snd_pair]; exact Eq.refl _
    · rewrite [decode_one s h0, snd_pair, skip_of_available 1 s (by omega)]; exact Eq.refl _
    · intro s2 hs
      have e0 := hs 0 (by decide)
      constructor
      · rewrite [decode_one s h0, decode_one s2 (by rw [e0]; exact h0), fst_pair, fst_pair, e0]
        exact Eq.refl _
      · rewrite [decode_one s2 (by rw [e0]; exact h0), snd_pair]; exact Eq.refl _
  by_cases h1 : (streamByte s 1).val &&& 0x80 = 0
  · have hn : compactLength (streamByte s 0).val (streamByte s 1).val (streamByte s 2).val
        (streamByte s 3).val = 2 := by
      unfold compactLength; rw [if_neg h0, if_pos h1]
    rw [hn]
    refine ⟨?_, ?_, by decide, by decide, ?_⟩
    · rewrite [decode_two s h0 h1, snd_pair]; exact Eq.refl _
    · rewrite [decode_two s h0 h1, snd_pair, skip_of_available 2 s (by omega)]
      exact Eq.refl _
    · intro s2 hs
      have e0 := hs 0 (by decide)
      have e1 := hs 1 (by decide)
      constructor
      · rewrite [decode_two s h0 h1,
          decode_two s2 (by rw [e0]; exact h0) (by rw [e1]; exact h1), fst_pair, fst_pair,
          e0, e1]
        exact Eq.refl _
      · rewrite [decode_two s2 (by rw [e0]; exact h0) (by rw [e1]; exact h1), snd_pair]
        exact Eq.refl _
  by_cases h2 : (streamByte s 2).val &&& 0x80 = 0
  · have hn : compactLength (streamByte s 0).val (streamByte s 1).val (streamByte s 2).val
        (streamByte s 3).val = 3 := by
      unfold compactLength; rw [if_neg h0, if_neg h1, if_pos h2]
    rw [hn]
    refine ⟨?_, ?_, by decide, by decide, ?_⟩
    · rewrite [decode_three s h0 h1 h2, snd_pair]; exact Eq.refl _
    · rewrite [decode_three s h0 h1 h2, snd_pair, skip_of_available 3 s (by omega)]
      exact Eq.refl _
    · intro s2 hs
      have e0 := hs 0 (by decide)
      have e1 := hs 1 (by decide)
      have e2 := hs 2 (by decide)
      constructor
      · rewrite [decode_three s h0 h1 h2,
          decode_three s2 (by rw [e0]; exact h0) (by rw [e1]; exact h1)
            (by rw [e2]; exact h2), fst_pair, fst_pair, e0, e1, e2]
        exact Eq.refl _
      · rewrite [decode_three s2 (by rw [e0]; exact h0) (by rw [e1]; exact h1)
          (by rw [e2]; exact h2), snd_pair]
        exact Eq.refl _
  by_cases h3 : (streamByte s 3).val &&& 0x80 = 0
  · have hn : compactLength (streamByte s 0).val (streamByte s 1).val (streamByte s 2).val
        (streamByte s 3).val = 4 := by
      unfold compactLength; rw [if_neg h0, if_neg h1, if_neg h2, if_pos h3]
    rw [hn]
    refine ⟨?_, ?_, by decide, by decide, ?_⟩
    · rewrite [decode_four s h0 h1 h2 h3, snd_pair]; exact Eq.refl _
    · rewrite [decode_four s h0 h1 h2 h3, snd_pair, skip_of_available 4 s (by omega)]
      exact Eq.refl _
    · intro s2 hs
      have e0 := hs 0 (by decide)
      have e1 := hs 1 (by decide)
      have e2 := hs 2 (by decide)
      have e3 := hs 3 (by decide)
      constructor
      · rewrite [decode_four s h0 h1 h2 h3,
          decode_four s2 (by rw [e0]; exact h0) (by rw [e1]; exact h1)
            (by rw [e2]; exact h2) (by rw [e3]; exact h3), fst_pair, fst_pair, e0, e1, e2, e3]
        exact Eq.refl _
      · rewrite [decode_four s2 (by rw [e0]; exact h0) (by rw [e1]; exact h1)
          (by rw [e2]; exact h2) (by rw [e3]; exact h3), snd_pair]
        exact Eq.refl _
  · have hn : compactLength (streamByte s 0).val (streamByte s 1).val (streamByte s 2).val
        (streamByte s 3).val = 5 := by
      unfold compactLength; rw [if_neg h0, if_neg h1, if_neg h2, if_neg h3]
    rw [hn]
    refine ⟨?_, ?_, by decide, by decide, ?_⟩
    · rewrite [decode_five s h0 h1 h2 h3, snd_pair]; exact Eq.refl _
    · rewrite [decode_five s h0 h1 h2 h3, snd_pair, skip_of_available 5 s (by omega)]
      exact Eq.refl _
    · intro s2 hs
      have e0 := hs 0 (by decide)
      have e1 := hs 1 (by decide)
      have e2 := hs 2 (by decide)
      have e3 := hs 3 (by decide)
      have e4 := hs 4 (by decide)
      constructor
      · rewrite [decode_five s h0 h1 h2 h3,
          decode_five s2 (by rw [e0]; exact h0) (by rw [e1]; exact h1)
            (by rw [e2]; exact h2) (by rw [e3]; exact h3), fst_pair, fst_pair, e0, e1, e2, e3,
          e4]
        exact Eq.refl _
      · rewrite [decode_five s2 (by rw [e0]; exact h0) (by rw [e1]; exact h1)
          (by rw [e2]; exact h2) (by rw [e3]; exact h3), snd_pair]
        exact Eq.refl _

/-- Witness of C15 on a stream of five continuation bytes followed by one more. -/
theorem compact_length_rule_witness :
    (UtxReadCompactInteger ⟨[0x40, 0x80, 0x80, 0x80, 0x01, 0x07], 0⟩).2
      = ⟨[0x40, 0x80, 0x80, 0x80, 0x01, 0x07],
          0 + compactLength (streamByte ⟨[0x40, 0x80, 0x80, 0x80, 0x01, 0x07], 0⟩ 0).val
            (streamByte ⟨[0x40, 0x80, 0x80, 0x80, 0x01, 0x07], 0⟩ 1).val
            (streamByte ⟨[0x40, 0x80, 0x80, 0x80, 0x01, 0x07], 0⟩ 2).val
            (streamByte ⟨[0x40, 0x80, 0x80, 0x80, 0x01, 0x07], 0⟩ 3).val⟩ :=
  (compact_length_rule ⟨[0x40, 0x80, 0x80, 0x80, 0x01, 0x07], 0⟩ (by decide)).2.1

/-! ## Table layouts -/

theorem importLoop_step (Header : UTXHEADER) (T : List UTXIMPORTTABLE) (i : Nat) (s : Stream)
    (h : i < Header.ImportCount) :
    importLoop Header T i s =
      importLoop Header (T.set i (readImportEntry (T.getD i default) s).1) (i + 1)
        (readImportEntry (T.getD i default) s).2 := by
  rw [importLoop, if_pos h]

theorem importLoop_spec (Header : UTXHEADER) (junk : Nat → UTXIMPORTTABLE) (d : Nat) :
    ∀ (i : Nat) (T : List UTXIMPORTTABLE) (s : Stream),
      Header.ImportCount - i = d → i ≤ Header.ImportCount → T.length = Header.ImportCount →
      (∀ j, i ≤ j → j < Header.ImportCount → T.getD j default = junk j) →
      (importLoop Header T i s).1.length = Header.ImportCount ∧
      (∀ j, j < i → (importLoop Header T i s).1.getD j default = T.getD j default) ∧
      (∀ k, i + k < Header.ImportCount →
        (importLoop Header T i s).1.getD (i + k) default
          = (readImportEntry (junk (i + k)) (importAdvance junk i s k)).1) ∧
      (importLoop Header T i s).2 = importAdvance junk i s (Header.ImportCount - i) := by
  induction d with
  | zero =>
    intro i T s hd hi hT _
    have hn : ¬ i < Header.ImportCount := by omega
    rw [importLoop, if_neg hn]
    have h0 : Header.ImportCount - i = 0 := hd
    refine ⟨hT, fun _ _ => rfl, fun k hk => absurd hk (by omega), ?_⟩
    rw [h0]
    rfl
  | succ d ih =>
    intro i T s hd hi hT hjunk
    have hlt : i < Header.ImportCount := by omega
    rw [importLoop_step Header T i s hlt]
    have hTi : T.getD i default = junk i := hjunk i (Nat.le_refl _) hlt
    obtain ⟨r1, r2, r3, r4⟩ := ih (i + 1) (T.set i (readImportEntry (T.getD i default) s).1)
      (readImportEntry (T.getD i default) s).2 (by omega) (by omega)
      (by rw [List.length_set]; exact hT)
      (fun j hj1 hj2 => by rw [getD_set_ne _ _ _ _ _ (by omega)]; exact hjunk j (by omega) hj2)
    refine ⟨r1, ?_, ?_, ?_⟩
    · intro j hj
      rw [r2 j (by omega), getD_set_ne _ _ _ _ _ (by omega)]
    · intro k hk
      cases k with
      | zero =>
        show (importLoop Header _ (i + 1) _).1.getD i default = _
        rw [r2 i (by omega), getD_set_self _ _ _ _ (by omega), hTi]
        rfl
      | succ k =>
        have := r3 k (by omega)
        rw [show i + 1 + k = i + (k + 1) by omega] at this
        rw [this, hTi]
        rfl
    · rw [r4, hTi, show Header.ImportCount - i = (Header.ImportCount - (i + 1)) + 1 by omega]
      rfl

theorem GetUtxImportTable_entries (Header : UTXHEADER) (junk : Nat → UTXIMPORTTABLE) (st : IL)
    (ha : 0 < st.avail) :
    ∃ tbl : HeapArray UTXIMPORTTABLE,
      (GetUtxImportTable Header junk st).1 = some tbl ∧
      tbl.addr = st.next ∧
      tbl.elems.length = Header.ImportCount ∧
      (∀ i, i < Header.ImportCount →
        tbl.elems.getD i default =
          (readImportEntry (junk i)
            (importAdvance junk 0 (iseek Header.ImportOffset st.io) i)).1) ∧
      (GetUtxImportTable Header junk st).2.io =
        importAdvance junk 0 (iseek Header.ImportOffset st.io) Header.ImportCount := by
  have hav : ¬ st.avail = 0 := by omega
  obtain ⟨r1, -, r3, r4⟩ := importLoop_spec Header junk Header.ImportCount 0
    ((List.range Header.ImportCount).map junk) (iseek Header.ImportOffset st.io)
    (Nat.sub_zero _) (Nat.zero_le _) (by simp)
    (fun j _ hj => getD_map_range junk _ j default hj)
  refine ⟨⟨st.next, (importLoop Header ((List.range Header.ImportCount).map junk) 0
    (iseek Header.ImportOffset st.io)).1⟩, ?_, rfl, r1, ?_, ?_⟩
  · simp only [GetUtxImportTable, ialloc, hav, if_false]
  · intro i hi
    have := r3 i (by omega)
    simp only [Nat.zero_add] at this
    exact this
  · simp only [GetUtxImportTable, ialloc, hav, if_false]
    rw [r4, Nat.sub_zero]

theorem readImportEntry_eq (e : UTXIMPORTTABLE) (s : Stream) :
    readImportEntry e s =
      ({ ClassPackage := (UtxReadCompactInteger s).1,
         ClassName := (UtxReadCompactInteger (UtxReadCompactInteger s).2).1,
         Package := (ChangeObjectReference (toInt32 ((GetLittleUInt
           (UtxReadCompactInteger (UtxReadCompactInteger s).2).2).1 : Int))
           e.PackageImported).1,
         ObjectName := (UtxReadCompactInteger (GetLittleUInt
           (UtxReadCompactInteger (UtxReadCompactInteger s).2).2).2).1,
         PackageImported := (ChangeObjectReference (toInt32 ((GetLittleUInt
           (UtxReadCompactInteger (UtxReadCompactInteger s).2).2).1 : Int))
           e.PackageImported).2 },
       (UtxReadCompactInteger (GetLittleUInt
           (UtxReadCompactInteger (UtxReadCompactInteger s).2).2).2).2) := rfl

theorem exportAdvance_succ (junk : Nat → UTXEXPORTTABLE) (k : Nat) :
    ∀ (j : Nat) (s : Stream),
      exportAdvance junk j s (k + 1)
        = (readExportEntry (junk (j + k)) (exportAdvance junk j s k)).2 := by
  induction k with
  | zero => intro j s; rfl
  | succ k ih =>
    intro j s
    have h := ih (j + 1) (readExportEntry (junk j) s).2
    rw [show j + 1 + k = j + (k + 1) by omega] at h
    exact h

theorem importAdvance_succ (junk : Nat → UTXIMPORTTABLE) (k : Nat) :
    ∀ (j : Nat) (s : Stream),
      importAdvance junk j s (k + 1)
        = (readImportEntry (junk (j + k)) (importAdvance junk j s k)).2 := by
  induction k with
  | zero => intro j s; rfl
  | succ k ih =>
    intro j s
    have h := ih (j + 1) (readImportEntry (junk j) s).2
    rw [show j + 1 + k = j + (k + 1) by omega] at h
    exact h

/-- C17: export record layout. When the allocator grants the table, record i
of the table built by GetUtxExportTable is read from the stream position s
where it starts (record 0 starts at ExportOffset) as seven consecutive fields:
class and super (compact integers), group (32-bit little-endian), object name
(compact integer), object flags (32-bit little-endian), serial size and serial
offset (compact integers), each field starting where the previous one ended.
Class and Super with their flags are the results of ChangeObjectReference on
the decoded values; ObjectName, ObjectFlags, SerialSize and SerialOffset are
stored as decoded; and record i + 1 starts where record i ended. -/
theorem GetUtxExportTable_layout (Header : UTXHEADER) (junk : Nat → UTXEXPORTTABLE) (st : IL)
    (ha : 0 < st.avail) (i : Nat) (hi : i < Header.ExportCount) (s : Stream)
    (hs : exportAdvance junk 0 (iseek Header.ExportOffset st.io) i = s) :
    exportAdvance junk 0 (iseek Header.ExportOffset st.io) 0
      = ⟨st.io.data, Header.ExportOffset⟩ ∧
    ∃ tbl : HeapArray UTXEXPORTTABLE,
      (GetUtxExportTable Header junk st).1 = some tbl ∧
      tbl.elems.getD i default =
        { Class := (ChangeObjectReference (UtxReadCompactInteger s).1
            (junk i).ClassImported).1,
          Super := (ChangeObjectReference
            (UtxReadCompactInteger (UtxReadCompactInteger s).2).1 (junk i).SuperImported).1,
          Group := (ChangeObjectReference (toInt32 ((GetLittleUInt
            (UtxReadCompactInteger (UtxReadCompactInteger s).2).2).1 : Int))
            (junk i).GroupImported).1,
          ObjectName := (UtxReadCompactInteger (GetLittleUInt
            (UtxReadCompactInteger (UtxReadCompactInteger s).2).2).2).1,
          ObjectFlags := (GetLittleUInt (UtxReadCompactInteger (GetLittleUInt
            (UtxReadCompactInteger (UtxReadCompactInteger s).2).2).2).2).1,
          SerialSize := (UtxReadCompactInteger (GetLittleUInt (UtxReadCompactInteger
            (GetLittleUInt (UtxReadCompactInteger (UtxReadCompactInteger s).2).2).2).2).2).1,
          SerialOffset := (UtxReadCompactInteger (UtxReadCompactInteger (GetLittleUInt
            (UtxReadCompactInteger (GetLittleUInt (UtxReadCompactInteger
              (UtxReadCompactInteger s).2).2).2).2).2).2).1,
          ClassImported := (ChangeObjectReference (UtxReadCompactInteger s).1
            (junk i).ClassImported).2,
          SuperImported := (ChangeObjectReference
            (UtxReadCompactInteger (UtxReadCompactInteger s).2).1 (junk i).SuperImported).2,
          GroupImported := (ChangeObjectReference (toInt32 ((GetLittleUInt
            (UtxReadCompactInteger (UtxReadCompactInteger s).2).2).1 : Int))
            (junk i).GroupImported).2 } ∧
      exportAdvance junk 0 (iseek Header.ExportOffset st.io) (i + 1)
        = (UtxReadCompactInteger (UtxReadCompactInteger (GetLittleUInt
            (UtxReadCompactInteger (GetLittleUInt (UtxReadCompactInteger
              (UtxReadCompactInteger s).2).2).2).2).2).2).2 := by
  refine ⟨rfl, ?_⟩
  obtain ⟨tbl, h1, -, -, h4, -⟩ := GetUtxExportTable_entries Header junk st ha
  refine ⟨tbl, h1, ?_, ?_⟩
  · rewrite [h4 i hi, hs, readExportEntry_eq, fst_pair]
    exact Eq.refl _
  · rewrite [exportAdvance_succ, Nat.zero_add, hs, readExportEntry_eq, snd_pair]
    exact Eq.refl _

/-- Witness of C17 on a package with one export record of 13 bytes. -/
theorem GetUtxExportTable_layout_witness :
    exportAdvance (fun _ => default) 0
        (iseek 0 (⟨[0, 0, 5, 0, 0, 0, 0, 0, 0, 0, 0, 0, 0], 0⟩ : Stream)) (0 + 1)
      = (UtxReadCompactInteger (UtxReadCompactInteger (GetLittleUInt
          (UtxReadCompactInteger (GetLittleUInt (UtxReadCompactInteger
            (UtxReadCompactInteger
              ⟨[0, 0, 5, 0, 0, 0, 0, 0, 0, 0, 0, 0, 0], 0⟩).2).2).2).2).2).2).2 :=
  (GetUtxExportTable_layout ⟨0x9E2A83C1, 61, 0, 0, 0, 0, 1, 0, 0, 0⟩ (fun _ => default)
    ⟨⟨[0, 0, 5, 0, 0, 0, 0, 0, 0, 0, 0, 0, 0], 0⟩, [], 0, 1, []⟩ (by decide) 0 (by decide)
    ⟨[0, 0, 5, 0, 0, 0, 0, 0, 0, 0, 0, 0, 0], 0⟩ rfl).2.elim (fun _ h => h.2.2)

theorem leValue_lt (bs : List Byte) : leValue bs < 256 ^ bs.length := by
  induction bs with
  | nil => simp [leValue]
  | cons b t ih =>
    have hb := b.isLt
    simp only [leValue, List.length_cons, Nat.pow_succ]
    omega

theorem GetLittleUInt_lt (s : Stream) : (GetLittleUInt s).1 < 4294967296 := by
  have h := leValue_lt (iread 4 1 s).1
  have hl : (iread 4 1 s).1.length ≤ 4 := by
    simp only [iread, List.length_take]
    omega
  have hp : 256 ^ (iread 4 1 s).1.length ≤ 256 ^ 4 :=
    Nat.pow_le_pow_right (by decide) hl
  have e : (GetLittleUInt s).1 = leValue (iread 4 1 s).1 := rfl
  rw [e]
  exact Nat.lt_of_lt_of_le h (by simpa using hp)

theorem toInt32_top_bit (v : Nat) (h1 : 2147483648 ≤ v) (h2 : v < 4294967296) :
    toInt32 (v : Int) < 0 := by
  unfold toInt32
  omega

theorem resolve_negative_flag (x : Int) (b : Bool) (h : x < 0) :
    (ChangeObjectReference x b).2 = true := by
  unfold ChangeObjectReference
  rewrite [if_pos h, snd_pair]
  exact Eq.refl _

/-- C18: import record layout. When the allocator grants the table, record i
of the table built by GetUtxImportTable is read from the stream position s
where it starts (record 0 starts at ImportOffset) as four consecutive fields:
class package and class name (compact integers), package (32-bit
little-endian) and object name (compact integer), each field starting where
the previous one ended. ClassPackage, ClassName and ObjectName are stored as
decoded; Package and PackageImported are the results of ChangeObjectReference
on the 32-bit package value taken as a signed 32-bit integer, so a value with
its top bit set is stored as an import reference; and record i + 1 starts
where record i ended. -/
theorem GetUtxImportTable_layout (Header : UTXHEADER) (junk : Nat → UTXIMPORTTABLE) (st : IL)
    (ha : 0 < st.avail) (i : Nat) (hi : i < Header.ImportCount) (s : Stream)
    (hs : importAdvance junk 0 (iseek Header.ImportOffset st.io) i = s) :
    importAdvance junk 0 (iseek Header.ImportOffset st.io) 0
      = ⟨st.io.data, Header.ImportOffset⟩ ∧
    ∃ tbl : HeapArray UTXIMPORTTABLE,
      (GetUtxImportTable Header junk st).1 = some tbl ∧
      tbl.elems.getD i default =
        { ClassPackage := (UtxReadCompactInteger s).1,
          ClassName := (UtxReadCompactInteger (UtxReadCompactInteger s).2).1,
          Package := (ChangeObjectReference (toInt32 ((GetLittleUInt
            (UtxReadCompactInteger (UtxReadCompactInteger s).2).2).1 : Int))
            (junk i).PackageImported).1,
          ObjectName := (UtxReadCompactInteger (GetLittleUInt
            (UtxReadCompactInteger (UtxReadCompactInteger s).2).2).2).1,
          PackageImported := (ChangeObjectReference (toInt32 ((GetLittleUInt
            (UtxReadCompactInteger (UtxReadCompactInteger s).2).2).1 : Int))
            (junk i).PackageImported).2 } ∧
      (2147483648 ≤ (GetLittleUInt
          (UtxReadCompactInteger (UtxReadCompactInteger s).2).2).1 →
        (ChangeObjectReference (toInt32 ((GetLittleUInt
            (UtxReadCompactInteger (UtxReadCompactInteger s).2).2).1 : Int))
            (junk i).PackageImported).2 = true) ∧
      importAdvance junk 0 (iseek Header.ImportOffset st.io) (i + 1)
        = (UtxReadCompactInteger (GetLittleUInt
            (UtxReadCompactInteger (UtxReadCompactInteger s).2).2).2).2 := by
  refine ⟨rfl, ?_⟩
  obtain ⟨tbl, h1, -, -, h4, -⟩ := GetUtxImportTable_entries Header junk st ha
  refine ⟨tbl, h1, ?_, ?_, ?_⟩
  · rewrite [h4 i hi, hs, readImportEntry_eq, fst_pair]
    exact Eq.refl _
  · intro hv
    exact resolve_negative_flag _ _ (toInt32_top_bit _ hv (GetLittleUInt_lt _))
  · rewrite [importAdvance_succ, Nat.zero_add, hs, readImportEntry_eq, snd_pair]
    exact Eq.refl _

/-- Witness of C18 on a package with one import record of 7 bytes. -/
theorem GetUtxImportTable_layout_witness :
    importAdvance (fun _ => default) 0
        (iseek 0 (⟨[1, 2, 0, 0, 0, 0x80, 3], 0⟩ : Stream)) (0 + 1)
      = (UtxReadCompactInteger (GetLittleUInt
          (UtxReadCompactInteger (UtxReadCompactInteger
            ⟨[1, 2, 0, 0, 0, 0x80, 3], 0⟩).2).2).2).2 :=
  (GetUtxImportTable_layout ⟨0x9E2A83C1, 61, 0, 0, 0, 0, 0, 0, 1, 0⟩ (fun _ => default)
    ⟨⟨[1, 2, 0, 0, 0, 0x80, 3], 0⟩, [], 0, 1, []⟩ (by decide) 0 (by decide)
    ⟨[1, 2, 0, 0, 0, 0x80, 3], 0⟩ rfl).2.elim (fun _ h => h.2.2.2)

/-! ## Null references -/

theorem Class_mk (a b c d : Int) (f : Nat) (x y : Int) (p q r : Bool) (st : Stream) :
    ((UTXEXPORTTABLE.mk a b c d f x y p q r, st) : UTXEXPORTTABLE × Stream).1.Class = a := rfl

theorem ClassImported_mk (a b c d : Int) (f : Nat) (x y : Int) (p q r : Bool) (st : Stream) :
    ((UTXEXPORTTABLE.mk a b c d f x y p q r, st) : UTXEXPORTTABLE × Stream).1.ClassImported
      = p := rfl

theorem Package_mk (a b c d : Int) (p : Bool) (st : Stream) :
    ((UTXIMPORTTABLE.mk a b c d p, st) : UTXIMPORTTABLE × Stream).1.Package = c := rfl

theorem PackageImported_mk (a b c d : Int) (p : Bool) (st : Stream) :
    ((UTXIMPORTTABLE.mk a b c d p, st) : UTXIMPORTTABLE × Stream).1.PackageImported = p := rfl

theorem resolve_zero (b : Bool) : ChangeObjectReference 0 b = (-1, b) := by
  unfold ChangeObjectReference
  rw [if_neg (by decide), if_neg (by decide)]

theorem toInt32_zero : toInt32 ((0 : Nat) : Int) = 0 := by decide

/-- C20: a null reference leaves the flag alone. ChangeObjectReference on the
raw value 0 returns index -1 and the flag it was given. Hence, in the table
built by GetUtxExportTable, a record whose class decodes to 0 has Class = -1
and ClassImported equal to what the freshly allocated array held at that
record; and in the table built by GetUtxImportTable, a record whose 32-bit
package value is 0 has Package = -1 and PackageImported equal to what the
fresh array held. -/
theorem null_reference_keeps_flag (Header : UTXHEADER) (junk : Nat → UTXEXPORTTABLE) (st : IL)
    (ha : 0 < st.avail) (i : Nat) (hi : i < Header.ExportCount) (flag : Bool)
    (hz : (UtxReadCompactInteger
      (exportAdvance junk 0 (iseek Header.ExportOffset st.io) i)).1 = 0) :
    ChangeObjectReference 0 flag = (-1, flag) ∧
    (∃ tbl : HeapArray UTXEXPORTTABLE,
      (GetUtxExportTable Header junk st).1 = some tbl ∧
      (tbl.elems.getD i default).Class = -1 ∧
      (tbl.elems.getD i default).ClassImported = (junk i).ClassImported) ∧
    (∀ (junkI : Nat → UTXIMPORTTABLE) (stI : IL) (j : Nat), 0 < stI.avail →
      j < Header.ImportCount →
      (GetLittleUInt (UtxReadCompactInteger (UtxReadCompactInteger
        (importAdvance junkI 0 (iseek Header.ImportOffset stI.io) j)).2).2).1 = 0 →
      ∃ tbl : HeapArray UTXIMPORTTABLE,
        (GetUtxImportTable Header junkI stI).1 = some tbl ∧
        (tbl.elems.getD j default).Package = -1 ∧
        (tbl.elems.getD j default).PackageImported = (junkI j).PackageImported) := by
  refine ⟨resolve_zero flag, ?_, ?_⟩
  · obtain ⟨tbl, h1, -, -, h4, -⟩ := GetUtxExportTable_entries Header junk st ha
    refine ⟨tbl, h1, ?_, ?_⟩
    · rewrite [h4 i hi, readExportEntry_eq, Class_mk, hz, resolve_zero, fst_pair]
      exact Eq.refl _
    · rewrite [h4 i hi, readExportEntry_eq, ClassImported_mk, hz, resolve_zero, snd_pair]
      exact Eq.refl _
  · intro junkI stI j haI hj hzI
    obtain ⟨tbl, h1, -, -, h4, -⟩ := GetUtxImportTable_entries Header junkI stI haI
    refine ⟨tbl, h1, ?_, ?_⟩
    · rewrite [h4 j hj, readImportEntry_eq, Package_mk, hzI, toInt32_zero, resolve_zero,
        fst_pair]
      exact Eq.refl _
    · rewrite [h4 j hj, readImportEntry_eq, PackageImported_mk, hzI, toInt32_zero,
        resolve_zero, snd_pair]
      exact Eq.refl _

theorem exportSample_class :
    (UtxReadCompactInteger ⟨[0, 0, 5, 0, 0, 0, 0, 0, 0, 0, 0, 0, 0], 0⟩).1 = 0 := by
  rewrite [decode_one ⟨[0, 0, 5, 0, 0, 0, 0, 0, 0, 0, 0, 0, 0], 0⟩ (by decide), fst_pair]
  decide

/-- Witness of C20 on a package with one export record whose class is 0 and a
fresh array holding ClassImported = true. -/
theorem null_reference_keeps_flag_witness :
    ∃ tbl : HeapArray UTXEXPORTTABLE,
      (GetUtxExportTable ⟨0x9E2A83C1, 61, 0, 0, 0, 0, 1, 0, 0, 0⟩
        (fun _ => ⟨0, 0, 0, 0, 0, 0, 0, true, false, false⟩)
        ⟨⟨[0, 0, 5, 0, 0, 0, 0, 0, 0, 0, 0, 0, 0], 0⟩, [], 0, 1, []⟩).1 = some tbl ∧
      (tbl.elems.getD 0 default).Class = -1 ∧
      (tbl.elems.getD 0 default).ClassImported = true :=
  (null_reference_keeps_flag ⟨0x9E2A83C1, 61, 0, 0, 0, 0, 1, 0, 0, 0⟩
    (fun _ => ⟨0, 0, 0, 0, 0, 0, 0, true, false, false⟩)
    ⟨⟨[0, 0, 5, 0, 0, 0, 0, 0, 0, 0, 0, 0, 0], 0⟩, [], 0, 1, []⟩ (by decide) 0 (by decide)
    false (by rewrite [exportAdvance_zero, iseek_mk]; exact exportSample_class)).2.1

/-! ## The loader -/

theorem GetUtxHead_true (s : Stream) : (GetUtxHead s).1 = true := by
  simp only [GetUtxHead]

theorem iLoad_rejected (env : Env) (w : Lib) (hc : w.curImage = true)
    (hk : CheckUtxHead (stageHeader w) = false) :
    iLoadUtxInternal env w =
      some (false, { w with il := { w.il with io := (GetUtxHead w.il.io).2.2 } }) := by
  have hc2 : ¬ w.curImage = false := by rw [hc]; decide
  rw [stageHeader] at hk
  rw [iLoadUtxInternal, if_neg hc2]
  simp only [GetUtxHead_true, hk, Bool.true_eq_false, if_false, if_true]

theorem iLoad_scan_undefined (env : Env) (w : Lib) (hc : w.curImage = true)
    (hk : CheckUtxHead (stageHeader w) = true) (nt : HeapArray UTXENTRYNAME)
    (hn : (stageNames env w).1 = some nt) (et : HeapArray UTXEXPORTTABLE)
    (he : (stageExports env w).1 = some et) (it : HeapArray UTXIMPORTTABLE)
    (hi : (stageImports env w).1 = some it)
    (hs : scanLoop (stageHeader w) nt et 0 = none) :
    iLoadUtxInternal env w = none := by
  have hc2 : ¬ w.curImage = false := by rw [hc]; decide
  rw [stageImports, stageExports, stageNames, stageHeader] at hi
  rw [stageExports, stageNames, stageHeader] at he
  rw [stageNames, stageHeader] at hn
  rw [stageHeader] at hk hs
  rw [iLoadUtxInternal, if_neg hc2]
  simp only [GetUtxHead_true, hk, Bool.true_eq_false, if_false, hn, he, hi, hs]

theorem iLoad_success (env : Env) (w : Lib) (hc : w.curImage = true)
    (hk : CheckUtxHead (stageHeader w) = true) (nt : HeapArray UTXENTRYNAME)
    (hn : (stageNames env w).1 = some nt) (et : HeapArray UTXEXPORTTABLE)
    (he : (stageExports env w).1 = some et) (it : HeapArray UTXIMPORTTABLE)
    (hi : (stageImports env w).1 = some it)
    (hs : scanLoop (stageHeader w) nt et 0 = some ()) :
    iLoadUtxInternal env w =
      some ((env.ilFixImage (stageTeardown env w nt et it)).1,
        { il := (env.ilFixImage (stageTeardown env w nt et it)).2,
          curImage := w.curImage,
          fixCalls := w.fixCalls + 1 }) := by
  have hc2 : ¬ w.curImage = false := by rw [hc]; decide
  rw [stageImports, stageExports, stageNames, stageHeader] at hi
  rw [stageExports, stageNames, stageHeader] at he
  rw [stageNames, stageHeader] at hn
  rw [stageHeader] at hk hs
  rw [iLoadUtxInternal, if_neg hc2]
  simp only [GetUtxHead_true, hk, Bool.true_eq_false, if_false, hn, he, hi, hs, stageTeardown,
    stageImports, stageExports, stageNames, stageHeader]

theorem strcmp_nil (b : List Byte) : strcmp [] b = none := by
  cases b <;> rfl

theorem nameEntryAt_inside (nt : HeapArray UTXENTRYNAME) (idx : Int)
    (h : 0 ≤ idx ∧ idx < (nt.elems.length : Int)) :
    ∃ e, nameEntryAt nt idx = some e := by
  have hlt : idx.toNat < nt.elems.length := by omega
  refine ⟨nt.elems.get ⟨idx.toNat, hlt⟩, ?_⟩
  rw [nameEntryAt, if_pos h]
  exact List.get?_eq_get hlt

theorem nameEntryAt_outside (nt : HeapArray UTXENTRYNAME) (idx : Int)
    (h : ¬ (0 ≤ idx ∧ idx < (nt.elems.length : Int))) :
    nameEntryAt nt idx = none := by
  rw [nameEntryAt, if_neg h]

theorem nameEntryAt_isSome_iff (nt : HeapArray UTXENTRYNAME) (idx : Int) :
    (nameEntryAt nt idx).isSome = true ↔ 0 ≤ idx ∧ idx < (nt.elems.length : Int) := by
  by_cases h : 0 ≤ idx ∧ idx < (nt.elems.length : Int)
  · obtain ⟨e, he⟩ := nameEntryAt_inside nt idx h
    rw [he]
    exact ⟨fun _ => h, fun _ => rfl⟩
  · rw [nameEntryAt_outside nt idx h]
    exact ⟨fun k => (by simp at k), fun k => absurd k h⟩

theorem scanCompare_outside (nt : HeapArray UTXENTRYNAME) (idx : Int)
    (h : ¬ (0 ≤ idx ∧ idx < (nt.elems.length : Int))) :
    scanCompare nt idx = none := by
  rw [scanCompare, nameEntryAt_outside nt idx h]

theorem scanCompare_defined_inside (nt : HeapArray UTXENTRYNAME) (idx : Int)
    (h : scanCompare nt idx ≠ none) : 0 ≤ idx ∧ idx < (nt.elems.length : Int) := by
  by_contra hc
  exact h (scanCompare_outside nt idx hc)

theorem scanLoop_step_none (Header : UTXHEADER) (nt : HeapArray UTXENTRYNAME)
    (et : HeapArray UTXEXPORTTABLE) (i : Nat) (hi : i < Header.ExportCount)
    (h : scanCompare nt (et.elems.getD i default).ObjectName = none) :
    scanLoop Header nt et i = none := by
  rw [scanLoop, if_pos hi, h]

theorem scanLoop_step_some (Header : UTXHEADER) (nt : HeapArray UTXENTRYNAME)
    (et : HeapArray UTXEXPORTTABLE) (i : Nat) (hi : i < Header.ExportCount)
    (h : scanCompare nt (et.elems.getD i default).ObjectName ≠ none) :
    scanLoop Header nt et i = scanLoop Header nt et (i + 1) := by
  cases hv : scanCompare nt (et.elems.getD i default).ObjectName with
  | none => exact absurd hv h
  | some v => rw [scanLoop, if_pos hi, hv]

theorem scanLoop_done (Header : UTXHEADER) (nt : HeapArray UTXENTRYNAME)
    (et : HeapArray UTXEXPORTTABLE) (i : Nat) (hi : ¬ i < Header.ExportCount) :
    scanLoop Header nt et i = some () := by
  rw [scanLoop, if_neg hi]

theorem scanLoop_some_iff (Header : UTXHEADER) (nt : HeapArray UTXENTRYNAME)
    (et : HeapArray UTXEXPORTTABLE) (d : Nat) :
    ∀ i, Header.ExportCount - i = d →
      (scanLoop Header nt et i = some () ↔
        ∀ j, i ≤ j → j < Header.ExportCount →
          scanCompare nt (et.elems.getD j default).ObjectName ≠ none) := by
  induction d with
  | zero =>
    intro i h
    rw [scanLoop_done Header nt et i (by omega)]
    exact ⟨fun _ j h1 h2 => by omega, fun _ => rfl⟩
  | succ n ih =>
    intro i h
    have hi : i < Header.ExportCount := by omega
    by_cases hv : scanCompare nt (et.elems.getD i default).ObjectName = none
    · rw [scanLoop_step_none Header nt et i hi hv]
      constructor
      · intro k; cases k
      · intro k; exact absurd hv (k i (Nat.le_refl i) hi)
    · rw [scanLoop_step_some Header nt et i hi hv, ih (i + 1) (by omega)]
      constructor
      · intro k j h1 h2
        rcases Nat.eq_or_lt_of_le h1 with e | e
        · rw [← e]; exact hv
        · exact k j e h2
      · intro k j h1 h2
        exact k j (by omega) h2

theorem scanLoop_all (Header : UTXHEADER) (nt : HeapArray UTXENTRYNAME)
    (et : HeapArray UTXEXPORTTABLE) :
    scanLoop Header nt et 0 = some () ↔
      ∀ j, j < Header.ExportCount →
        scanCompare nt (et.elems.getD j default).ObjectName ≠ none := by
  rw [scanLoop_some_iff Header nt et _ 0 rfl]
  exact ⟨fun k j h => k j (Nat.zero_le j) h, fun k j _ h => k j h⟩

theorem scanLoop_none_of_not_all (Header : UTXHEADER) (nt : HeapArray UTXENTRYNAME)
    (et : HeapArray UTXEXPORTTABLE)
    (h : ¬ ∀ j, j < Header.ExportCount →
      scanCompare nt (et.elems.getD j default).ObjectName ≠ none) :
    scanLoop Header nt et 0 = none := by
  cases hs : scanLoop Header nt et 0 with
  | none => rfl
  | some u => exact absurd ((scanLoop_all Header nt et).mp hs) h

theorem GetUtxNameTable_length (Header : UTXHEADER) (oob : Byte) (junk : Nat → UTXENTRYNAME)
    (st : IL) (tbl : HeapArray UTXENTRYNAME)
    (h : (GetUtxNameTable Header oob junk st).1 = some tbl) :
    tbl.elems.length = Header.NameCount := by
  by_cases ha : st.avail = 0
  · have hn : (GetUtxNameTable Header oob junk st).1 = none := by
      simp only [GetUtxNameTable, ialloc, ha, if_true]
    rw [hn] at h
    cases h
  · have ha2 : 0 < st.avail := by omega
    cases hd : decodeNames Header oob Header.NameCount (nameTableStart Header st) with
    | some r =>
      obtain ⟨h1, h2⟩ := GetUtxNameTable_success Header oob junk st ha2 r.1 r.2 hd
      rw [h1] at h
      simp only [Option.some.injEq] at h
      rw [← h]
      exact h2
    | none =>
      obtain ⟨k, es, stk, T2, a1, a2, a3, -, -⟩ := (nameTableLoop_spec Header oob
        Header.NameCount 0 ((List.range Header.NameCount).map junk)
        (nameTableStart Header st) (Nat.sub_zero _) (Nat.zero_le _) (by simp)).2 hd
      rw [GetUtxNameTable_failure Header oob junk st ha2 k es stk a1 a2 a3] at h
      cases h

/-! ## Evaluation at a read position -/

theorem igetc_of_head (d : List Byte) (p : Nat) (b : Byte)
    (h : (d.drop p).head? = some b) :
    igetc ⟨d, p⟩ = ((b.val : Int), ⟨d, p + 1⟩) := by
  have hp : p < d.length := by
    by_contra hc
    rw [List.drop_eq_nil_of_le (by omega)] at h
    cases h
  rw [List.drop_eq_getElem_cons hp] at h
  simp only [List.head?_cons, Option.some.injEq] at h
  rw [igetc, dif_pos hp]
  simp only [List.get_eq_getElem, h]

theorem iread_of_take (n : Nat) (d : List Byte) (p : Nat) (bs : List Byte) (hn : n ≠ 0)
    (hl : p + n ≤ d.length) (h : (d.drop p).take n = bs) :
    iread n 1 ⟨d, p⟩ = (bs, 1, ⟨d, p + n⟩) := by
  have hm : min (n * 1) (d.length - p) = n := by omega
  have hd : n / n = 1 := Nat.div_self (by omega)
  simp only [iread, hm, h, hn, ne_eq, not_false_eq_true, if_true, hd]

theorem streamByte_of_head (d : List Byte) (p : Nat) (b : Byte)
    (h : (d.drop p).head? = some b) : streamByte ⟨d, p⟩ 0 = b := by
  unfold streamByte
  cases hd : d.drop p with
  | nil => rw [hd] at h; cases h
  | cons x l =>
    rw [hd] at h
    simp only [List.head?_cons, Option.some.injEq] at h
    simp only [List.getD_cons_zero, h]

theorem compact_one_byte (d : List Byte) (p : Nat) (b : Byte)
    (h : (d.drop p).head? = some b) (h0 : b.val &&& 0x40 = 0) :
    UtxReadCompactInteger ⟨d, p⟩ =
      (compactSign b.val * ((b.val &&& 0x3F : Nat) : Int), ⟨d, p + 1⟩) := by
  have hp : p + 1 ≤ d.length := by
    by_contra hc
    rw [List.drop_eq_nil_of_le (by omega)] at h
    cases h
  have hs := streamByte_of_head d p b h
  rw [decode_one ⟨d, p⟩ (by rw [hs]; exact h0), hs, skip_of_le 1 d p hp]

theorem GetUtxExportTable_state (Header : UTXHEADER) (junk : Nat → UTXEXPORTTABLE) (st : IL)
    (ha : 0 < st.avail) :
    (GetUtxExportTable Header junk st).2.avail = st.avail - 1 ∧
    (GetUtxExportTable Header junk st).2.error = st.error ∧
    (GetUtxExportTable Header junk st).2.live = st.next :: st.live := by
  have hav : ¬ st.avail = 0 := by omega
  simp only [GetUtxExportTable, ialloc, hav, if_false, and_self]

theorem GetUtxImportTable_state (Header : UTXHEADER) (junk : Nat → UTXIMPORTTABLE) (st : IL)
    (ha : 0 < st.avail) :
    (GetUtxImportTable Header junk st).2.avail = st.avail - 1 ∧
    (GetUtxImportTable Header junk st).2.error = st.error ∧
    (GetUtxImportTable Header junk st).2.live = st.next :: st.live := by
  have hav : ¬ st.avail = 0 := by omega
  simp only [GetUtxImportTable, ialloc, hav, if_false, and_self]

theorem GetUtxExportTable_refused (Header : UTXHEADER) (junk : Nat → UTXEXPORTTABLE) (st : IL)
    (ha : st.avail = 0) :
    (GetUtxExportTable Header junk st).1 = none := by
  simp only [GetUtxExportTable, ialloc, ha, if_true]

theorem GetUtxImportTable_refused (Header : UTXHEADER) (junk : Nat → UTXIMPORTTABLE) (st : IL)
    (ha : st.avail = 0) :
    (GetUtxImportTable Header junk st).1 = none := by
  simp only [GetUtxImportTable, ialloc, ha, if_true]

/-! ## Reads at the end of the stream and a sample package -/

theorem CheckUtxHead_false_of (Header : UTXHEADER)
    (h : Header.Signature ≠ 0x9E2A83C1 ∨ Header.Version < 61 ∨ 69 < Header.Version) :
    CheckUtxHead Header = false := by
  unfold CheckUtxHead
  by_cases hs : Header.Signature ≠ 0x9E2A83C1
  · rw [if_pos hs]
  · have hv : Header.Version < 61 ∨ Header.Version > 69 := by
      rcases h with h | h | h
      · exact absurd h hs
      · exact Or.inl h
      · exact Or.inr h
    rw [if_neg hs, if_pos hv]

theorem ObjectName_mk (a b c d : Int) (f : Nat) (x y : Int) (p q r : Bool) (st : Stream) :
    (({ Class := a, Super := b, Group := c, ObjectName := d, ObjectFlags := f,
        SerialSize := x, SerialOffset := y, ClassImported := p, SuperImported := q,
        GroupImported := r } : UTXEXPORTTABLE), st).1.ObjectName = d := rfl

theorem samplePackage_length (tail : List Byte) :
    (samplePackage tail).length = tail.length + 56 := rfl

theorem sample_GetUtxHead (tail : List Byte) :
    GetUtxHead ⟨samplePackage tail, 0⟩ = (true, sampleHeader, ⟨samplePackage tail, 36⟩) := by
  have hl := samplePackage_length tail
  have e0 := GetLittleUInt_of_le ⟨samplePackage tail, 0⟩
    (by show 0 + 4 ≤ (samplePackage tail).length; omega)
  have e1 := GetLittleUShort_of_le ⟨samplePackage tail, 4⟩
    (by show 4 + 2 ≤ (samplePackage tail).length; omega)
  have e2 := GetLittleUShort_of_le ⟨samplePackage tail, 6⟩
    (by show 6 + 2 ≤ (samplePackage tail).length; omega)
  have e3 := GetLittleUInt_of_le ⟨samplePackage tail, 8⟩
    (by show 8 + 4 ≤ (samplePackage tail).length; omega)
  have e4 := GetLittleUInt_of_le ⟨samplePackage tail, 12⟩
    (by show 12 + 4 ≤ (samplePackage tail).length; omega)
  have e5 := GetLittleUInt_of_le ⟨samplePackage tail, 16⟩
    (by show 16 + 4 ≤ (samplePackage tail).length; omega)
  have e6 := GetLittleUInt_of_le ⟨samplePackage tail, 20⟩
    (by show 20 + 4 ≤ (samplePackage tail).length; omega)
  have e7 := GetLittleUInt_of_le ⟨samplePackage tail, 24⟩
    (by show 24 + 4 ≤ (samplePackage tail).length; omega)
  have e8 := GetLittleUInt_of_le ⟨samplePackage tail, 28⟩
    (by show 28 + 4 ≤ (samplePackage tail).length; omega)
  have e9 := GetLittleUInt_of_le ⟨samplePackage tail, 32⟩
    (by show 32 + 4 ≤ (samplePackage tail).length; omega)
  have k0 : ((samplePackage tail).drop 0).take 4 = [0xC1, 0x83, 0x2A, 0x9E] := rfl
  have k1 : ((samplePackage tail).drop 4).take 2 = [64, 0] := rfl
  have k2 : ((samplePackage tail).drop 6).take 2 = [0, 0] := rfl
  have k3 : ((samplePackage tail).drop 8).take 4 = [0, 0, 0, 0] := rfl
  have k4 : ((samplePackage tail).drop 12).take 4 = [2, 0, 0, 0] := rfl
  have k5 : ((samplePackage tail).drop 16).take 4 = [36, 0, 0, 0] := rfl
  have k6 : ((samplePackage tail).drop 20).take 4 = [1, 0, 0, 0] := rfl
  have k7 : ((samplePackage tail).drop 24).take 4 = [56, 0, 0, 0] := rfl
  have k8 : ((samplePackage tail).drop 28).take 4 = [0, 0, 0, 0] := rfl
  have k9 : ((samplePackage tail).drop 32).take 4 = [56, 0, 0, 0] := rfl
  rw [k0] at e0
  rw [k1] at e1
  rw [k2] at e2
  rw [k3] at e3
  rw [k4] at e4
  rw [k5] at e5
  rw [k6] at e6
  rw [k7] at e7
  rw [k8] at e8
  rw [k9] at e9
  simp only [Nat.zero_add, Nat.reduceAdd] at e0 e1 e2 e3 e4 e5 e6 e7 e8 e9
  simp only [GetUtxHead, e0, e1, e2, e3, e4, e5, e6, e7, e8, e9]
  rfl

theorem sample_stageHeader (tail : List Byte) :
    stageHeader (sampleLib tail) = sampleHeader := by
  show (GetUtxHead ⟨samplePackage tail, 0⟩).2.1 = sampleHeader
  rw [sample_GetUtxHead]

theorem sample_name0 (oob : Byte) (tail : List Byte) :
    GetUtxName sampleHeader oob ⟨⟨samplePackage tail, 36⟩, [0], 1, 9, []⟩
      = (some ⟨1, [84, 101, 120, 116, 117, 114, 101, 0]⟩,
         ⟨⟨samplePackage tail, 45⟩, [1, 0], 2, 8, []⟩) := by
  have hl := samplePackage_length tail
  have hg : igetc ⟨samplePackage tail, 36⟩
      = (((8 : Byte).val : Int), ⟨samplePackage tail, 37⟩) :=
    igetc_of_head (samplePackage tail) 36 8 rfl
  have hr : iread (8 : Byte).val 1 ⟨samplePackage tail, 37⟩
      = ([84, 101, 120, 116, 117, 114, 101, 0], 1, ⟨samplePackage tail, 45⟩) :=
    iread_of_take 8 (samplePackage tail) 37 _ (by decide) (by omega) rfl
  rw [GetUtxName_new_unfold _ (by decide) _ _ (Nat.succ_pos _)]
  simp only [hg, toUByte_val, hr, ne_eq, not_true_eq_false, if_false, Nat.reduceAdd,
    Nat.reduceSub]

theorem sample_flags0 (tail : List Byte) :
    GetLittleUInt ⟨samplePackage tail, 45⟩ = (0, ⟨samplePackage tail, 49⟩) := by
  have hl := samplePackage_length tail
  have k : ((samplePackage tail).drop 45).take 4 = [0, 0, 0, 0] := rfl
  rw [GetLittleUInt_of_le _ (by show 45 + 4 ≤ (samplePackage tail).length; omega)]
  show (leValue (((samplePackage tail).drop 45).take 4), _) = _
  rw [k]
  rfl

theorem sample_name1 (oob : Byte) (tail : List Byte) :
    GetUtxName sampleHeader oob ⟨⟨samplePackage tail, 49⟩, [1, 0], 2, 8, []⟩
      = (some ⟨2, [65, 0]⟩, ⟨⟨samplePackage tail, 52⟩, [2, 1, 0], 3, 7, []⟩) := by
  have hl := samplePackage_length tail
  have hg : igetc ⟨samplePackage tail, 49⟩
      = (((2 : Byte).val : Int), ⟨samplePackage tail, 50⟩) :=
    igetc_of_head (samplePackage tail) 49 2 rfl
  have hr : iread (2 : Byte).val 1 ⟨samplePackage tail, 50⟩
      = ([65, 0], 1, ⟨samplePackage tail, 52⟩) :=
    iread_of_take 2 (samplePackage tail) 50 _ (by decide) (by omega) rfl
  rw [GetUtxName_new_unfold _ (by decide) _ _ (Nat.succ_pos _)]
  simp only [hg, toUByte_val, hr, ne_eq, not_true_eq_false, if_false, Nat.reduceAdd,
    Nat.reduceSub]

theorem sample_flags1 (tail : List Byte) :
    GetLittleUInt ⟨samplePackage tail, 52⟩ = (0, ⟨samplePackage tail, 56⟩) := by
  have hl := samplePackage_length tail
  have k : ((samplePackage tail).drop 52).take 4 = [0, 0, 0, 0] := rfl
  rw [GetLittleUInt_of_le _ (by show 52 + 4 ≤ (samplePackage tail).length; omega)]
  show (leValue (((samplePackage tail).drop 52).take 4), _) = _
  rw [k]
  rfl

theorem sample_decode (oob : Byte) (tail : List Byte) :
    decodeNames sampleHeader oob 2
        (nameTableStart sampleHeader ⟨⟨samplePackage tail, 36⟩, [], 0, 10, []⟩)
      = some ([⟨some ⟨1, [84, 101, 120, 116, 117, 114, 101, 0]⟩, 0⟩, ⟨some ⟨2, [65, 0]⟩, 0⟩],
          ⟨⟨samplePackage tail, 56⟩, [2, 1, 0], 3, 7, []⟩) := by
  have hs : nameTableStart sampleHeader ⟨⟨samplePackage tail, 36⟩, [], 0, 10, []⟩
      = ⟨⟨samplePackage tail, 36⟩, [0], 1, 9, []⟩ := rfl
  rw [hs]
  simp only [decodeNames, sample_name0, sample_flags0, sample_name1, sample_flags1]

theorem sample_stageNames (env : Env) (tail : List Byte) :
    stageNames env (sampleLib tail)
      = (some sampleNames, ⟨⟨samplePackage tail, 56⟩, [2, 1, 0], 3, 7, []⟩) := by
  rw [stageNames, sample_stageHeader]
  show GetUtxNameTable sampleHeader env.oob env.junkNames
    { io := (GetUtxHead ⟨samplePackage tail, 0⟩).2.2, live := [], next := 0, avail := 10,
      error := [] } = _
  rw [sample_GetUtxHead]
  exact (GetUtxNameTable_success sampleHeader env.oob env.junkNames
    ⟨⟨samplePackage tail, 36⟩, [], 0, 10, []⟩ (Nat.succ_pos _) _ _ (sample_decode env.oob tail)).1

/-! ## Stages of the loader on the sample package -/

theorem ifree_error (p : Option Nat) (st : IL) : (ifree p st).error = st.error := by
  cases p <;> rfl

theorem UtxDestroyNameEntries_error (nt : HeapArray UTXENTRYNAME) (Header : UTXHEADER)
    (st : IL) : (UtxDestroyNameEntries nt Header st).error = st.error := by
  have h : ∀ (l : List Nat) (s : IL),
      (l.foldl (fun acc i => ifree (ptrOf (nt.elems.getD i default).Name) acc) s).error
        = s.error := by
    intro l
    induction l with
    | nil => intro s; rfl
    | cons a t ih => intro s; rw [List.foldl_cons, ih, ifree_error]
  rw [UtxDestroyNameEntries, ifree_error, h]

theorem UtxDestroyExportTable_error (et : HeapArray UTXEXPORTTABLE) (Header : UTXHEADER)
    (st : IL) : (UtxDestroyExportTable et Header st).error = st.error :=
  ifree_error _ st

theorem UtxDestroyImportTable_error (it : HeapArray UTXIMPORTTABLE) (Header : UTXHEADER)
    (st : IL) : (UtxDestroyImportTable it Header st).error = st.error :=
  ifree_error _ st

theorem stageTeardown_error (env : Env) (w : Lib) (nt : HeapArray UTXENTRYNAME)
    (et : HeapArray UTXEXPORTTABLE) (it : HeapArray UTXIMPORTTABLE) :
    (stageTeardown env w nt et it).error = (stageImports env w).2.error := by
  rw [stageTeardown, UtxDestroyImportTable_error, UtxDestroyExportTable_error,
    UtxDestroyNameEntries_error]

theorem stage_tables_built (env : Env) (w : Lib) (ha : 2 ≤ (stageNames env w).2.avail) :
    ∃ (et : HeapArray UTXEXPORTTABLE) (it : HeapArray UTXIMPORTTABLE),
      (stageExports env w).1 = some et ∧ et.elems.length = (stageHeader w).ExportCount ∧
      (∀ i, i < (stageHeader w).ExportCount →
        et.elems.getD i default =
          (readExportEntry (env.junkExports i)
            (exportAdvance env.junkExports 0
              (iseek (stageHeader w).ExportOffset (stageNames env w).2.io) i)).1) ∧
      (stageImports env w).1 = some it ∧ it.elems.length = (stageHeader w).ImportCount ∧
      (stageImports env w).2.error = (stageNames env w).2.error := by
  have ha1 : 0 < (stageNames env w).2.avail := by omega
  obtain ⟨et, e1, -, e3, e4, -⟩ :=
    GetUtxExportTable_entries (stageHeader w) env.junkExports (stageNames env w).2 ha1
  obtain ⟨s1, s2, -⟩ :=
    GetUtxExportTable_state (stageHeader w) env.junkExports (stageNames env w).2 ha1
  have he : (stageExports env w).1 = some et := by rw [stageExports]; exact e1
  have ha2 : 0 < (stageExports env w).2.avail := by
    rw [stageExports, s1]; omega
  obtain ⟨it, i1, -, i3, -, -⟩ :=
    GetUtxImportTable_entries (stageHeader w) env.junkImports (stageExports env w).2 ha2
  obtain ⟨-, t2, -⟩ :=
    GetUtxImportTable_state (stageHeader w) env.junkImports (stageExports env w).2 ha2
  have hi : (stageImports env w).1 = some it := by rw [stageImports]; exact i1
  refine ⟨et, it, he, e3, e4, hi, i3, ?_⟩
  rw [stageImports, t2, stageExports, s2]

theorem sample_curImage (tail : List Byte) : (sampleLib tail).curImage = true := rfl

theorem sample_check (tail : List Byte) :
    CheckUtxHead (stageHeader (sampleLib tail)) = true := by
  rw [sample_stageHeader]
  decide

theorem sample_exportCount (tail : List Byte) :
    (stageHeader (sampleLib tail)).ExportCount = 1 := by
  rw [sample_stageHeader]; rfl

theorem sample_nameCount (tail : List Byte) :
    (stageHeader (sampleLib tail)).NameCount = 2 := by
  rw [sample_stageHeader]; rfl

theorem sample_names_built (tail : List Byte) :
    (stageNames sampleEnv (sampleLib tail)).1 = some sampleNames := by
  rw [sample_stageNames]

theorem sample_stream_after_names (tail : List Byte) :
    (stageNames sampleEnv (sampleLib tail)).2.io = ⟨samplePackage tail, 56⟩ := by
  rw [sample_stageNames]

theorem sample_avail_after_names (tail : List Byte) :
    (stageNames sampleEnv (sampleLib tail)).2.avail = 7 := by
  rw [sample_stageNames]

theorem sample_error_after_names (tail : List Byte) :
    (stageNames sampleEnv (sampleLib tail)).2.error = [] := by
  rw [sample_stageNames]

theorem sample_tables (tail : List Byte) :
    ∃ (et : HeapArray UTXEXPORTTABLE) (it : HeapArray UTXIMPORTTABLE),
      (stageExports sampleEnv (sampleLib tail)).1 = some et ∧
      (stageImports sampleEnv (sampleLib tail)).1 = some it ∧
      et.elems.getD 0 default = (readExportEntry default ⟨samplePackage tail, 56⟩).1 ∧
      (stageTeardown sampleEnv (sampleLib tail) sampleNames et it).error = [] := by
  obtain ⟨et, it, he, -, e4, hi, -, herr⟩ := stage_tables_built sampleEnv (sampleLib tail)
    (by rw [sample_avail_after_names]; decide)
  have e5 := e4 0 (by rw [sample_exportCount]; exact Nat.one_pos)
  rw [sample_stageHeader, sample_stream_after_names] at e5
  refine ⟨et, it, he, hi, e5, ?_⟩
  rw [stageTeardown_error, herr, sample_error_after_names]

theorem sample_scan (tail : List Byte) (et : HeapArray UTXEXPORTTABLE) :
    scanLoop (stageHeader (sampleLib tail)) sampleNames et 0 = some () ↔
      scanCompare sampleNames (et.elems.getD 0 default).ObjectName ≠ none := by
  rw [scanLoop_all, sample_exportCount]
  constructor
  · intro h; exact h 0 Nat.one_pos
  · intro h j hj
    have : j = 0 := by omega
    rw [this]; exact h

theorem sample_undefined (tail : List Byte)
    (hs : scanCompare sampleNames
      (readExportEntry default ⟨samplePackage tail, 56⟩).1.ObjectName = none) :
    iLoadUtxInternal sampleEnv (sampleLib tail) = none := by
  obtain ⟨et, it, he, hi, h0, -⟩ := sample_tables tail
  rw [← h0] at hs
  have hn : scanLoop (stageHeader (sampleLib tail)) sampleNames et 0 = none := by
    cases hv : scanLoop (stageHeader (sampleLib tail)) sampleNames et 0 with
    | none => rfl
    | some u => exact absurd hs ((sample_scan tail et).mp hv)
  exact iLoad_scan_undefined sampleEnv (sampleLib tail) (sample_curImage tail)
    (sample_check tail) sampleNames (sample_names_built tail) et he it hi hn

theorem scanCompare_before : scanCompare sampleNames (-1) = none := by decide

theorem outOfRange_objectName :
    (readExportEntry default
      ⟨samplePackage [0, 0, 0, 0, 0, 0, 0x81, 0, 0, 0, 0, 0, 0], 56⟩).1.ObjectName = -1 := by
  have c0 : (UtxReadCompactInteger
      ⟨samplePackage [0, 0, 0, 0, 0, 0, 0x81, 0, 0, 0, 0, 0, 0], 56⟩).2
      = ⟨samplePackage [0, 0, 0, 0, 0, 0, 0x81, 0, 0, 0, 0, 0, 0], 57⟩ := by
    rw [compact_one_byte
      (samplePackage [0, 0, 0, 0, 0, 0, 0x81, 0, 0, 0, 0, 0, 0]) 56 0 rfl (by decide)]
  have c1 : (UtxReadCompactInteger
      ⟨samplePackage [0, 0, 0, 0, 0, 0, 0x81, 0, 0, 0, 0, 0, 0], 57⟩).2
      = ⟨samplePackage [0, 0, 0, 0, 0, 0, 0x81, 0, 0, 0, 0, 0, 0], 58⟩ := by
    rw [compact_one_byte
      (samplePackage [0, 0, 0, 0, 0, 0, 0x81, 0, 0, 0, 0, 0, 0]) 57 0 rfl (by decide)]
  have g : (GetLittleUInt
      ⟨samplePackage [0, 0, 0, 0, 0, 0, 0x81, 0, 0, 0, 0, 0, 0], 58⟩).2
      = ⟨samplePackage [0, 0, 0, 0, 0, 0, 0x81, 0, 0, 0, 0, 0, 0], 62⟩ := by
    rw [GetLittleUInt_of_le _ (by decide)]
  have v : compactSign (0x81 : Byte).val * (((0x81 : Byte).val &&& 0x3F : Nat) : Int) = -1 := by
    decide
  have c2 : (UtxReadCompactInteger
      ⟨samplePackage [0, 0, 0, 0, 0, 0, 0x81, 0, 0, 0, 0, 0, 0], 62⟩).1 = -1 := by
    rw [compact_one_byte
      (samplePackage [0, 0, 0, 0, 0, 0, 0x81, 0, 0, 0, 0, 0, 0]) 62 0x81 rfl (by decide),
      fst_pair, v]
  rewrite [readExportEntry_eq, ObjectName_mk, c0, c1, g, c2]
  exact Eq.refl _

theorem bad_signature :
    (stageHeader ⟨⟨⟨badPackage, 0⟩, [], 0, 10, []⟩, true, 0⟩).Signature = 0x12345678 := by
  have e0 : GetLittleUInt ⟨badPackage, 0⟩ = (0x12345678, ⟨badPackage, 4⟩) := by
    rw [GetLittleUInt_of_le _ (by decide)]
    rfl
  show (GetUtxHead ⟨badPackage, 0⟩).2.1.Signature = 0x12345678
  simp only [GetUtxHead, e0]

/-- C11 fails on the code: when the header read from the stream fails
validation (wrong signature, or version outside 61..69) and an image is
bound, iLoadUtxInternal returns failure without recording any error: the
error stack is exactly what it was before the call, so IL_INVALID_FILE_HEADER
is not reported. The finalize step is not invoked. -/
theorem rejected_header_records_no_error (env : Env) (w : Lib) (hc : w.curImage = true)
    (hk : (stageHeader w).Signature ≠ 0x9E2A83C1 ∨ (stageHeader w).Version < 61 ∨
      69 < (stageHeader w).Version) :
    ∃ r : Bool × Lib, iLoadUtxInternal env w = some r ∧
      r.1 = false ∧ r.2.il.error = w.il.error ∧ r.2.fixCalls = w.fixCalls := by
  rw [iLoad_rejected env w hc (CheckUtxHead_false_of _ hk)]
  exact ⟨_, rfl, rfl, rfl, rfl⟩

/-- Witness of C11 on a stream of 36 bytes whose signature is 0x12345678:
iLoadUtxInternal fails and the error stack, empty before the call, is still
empty afterwards. -/
theorem rejected_header_records_no_error_witness :
    ∃ r : Bool × Lib,
      iLoadUtxInternal sampleEnv ⟨⟨⟨badPackage, 0⟩, [], 0, 10, []⟩, true, 0⟩ = some r ∧
      r.1 = false ∧ r.2.il.error = [] ∧ r.2.fixCalls = 0 :=
  rejected_header_records_no_error sampleEnv ⟨⟨⟨badPackage, 0⟩, [], 0, 10, []⟩, true, 0⟩
    rfl (Or.inl (by rw [bad_signature]; decide))

/-- C19: the texture scan looks names up without any bounds check. When all
three tables are built, every lookup NameEntries[ObjectName] of the scan is
inside the name table if and only if every export entry 0..ExportCount-1 has
0 <= ObjectName < NameCount. Nothing checks this: when some export entry has
its ObjectName outside that range, iLoadUtxInternal reads outside the name
table and has no defined result; it does not return failure and records no
error. Whenever iLoadUtxInternal does return, every ObjectName was in range
and the result is that of the finalize step, applied to a state whose errors
are those left by the import stage. For the sample package whose export
record has the object-name byte 0x81, the header is valid, all three tables
are built, ObjectName is -1 and the run has no defined result. -/
theorem scan_lookups_unchecked (env : Env) (w : Lib) (hc : w.curImage = true)
    (hk : CheckUtxHead (stageHeader w) = true) (nt : HeapArray UTXENTRYNAME)
    (hn : (stageNames env w).1 = some nt) (et : HeapArray UTXEXPORTTABLE)
    (he : (stageExports env w).1 = some et) (it : HeapArray UTXIMPORTTABLE)
    (hi : (stageImports env w).1 = some it) :
    ((∀ i, i < (stageHeader w).ExportCount →
        (nameEntryAt nt (et.elems.getD i default).ObjectName).isSome = true) ↔
      ∀ i, i < (stageHeader w).ExportCount →
        0 ≤ (et.elems.getD i default).ObjectName ∧
        (et.elems.getD i default).ObjectName < ((stageHeader w).NameCount : Int)) ∧
    ((∃ i, i < (stageHeader w).ExportCount ∧
        ¬ (0 ≤ (et.elems.getD i default).ObjectName ∧
          (et.elems.getD i default).ObjectName < ((stageHeader w).NameCount : Int))) →
      iLoadUtxInternal env w = none) ∧
    (∀ r : Bool × Lib, iLoadUtxInternal env w = some r →
      (∀ i, i < (stageHeader w).ExportCount →
        0 ≤ (et.elems.getD i default).ObjectName ∧
        (et.elems.getD i default).ObjectName < ((stageHeader w).NameCount : Int)) ∧
      r.1 = (env.ilFixImage (stageTeardown env w nt et it)).1 ∧
      r.2.il = (env.ilFixImage (stageTeardown env w nt et it)).2 ∧
      (stageTeardown env w nt et it).error = (stageImports env w).2.error) ∧
    (∃ (et0 : HeapArray UTXEXPORTTABLE) (it0 : HeapArray UTXIMPORTTABLE),
      CheckUtxHead (stageHeader
        (sampleLib [0, 0, 0, 0, 0, 0, 0x81, 0, 0, 0, 0, 0, 0])) = true ∧
      (stageHeader (sampleLib [0, 0, 0, 0, 0, 0, 0x81, 0, 0, 0, 0, 0, 0])).NameCount = 2 ∧
      (stageNames sampleEnv
        (sampleLib [0, 0, 0, 0, 0, 0, 0x81, 0, 0, 0, 0, 0, 0])).1 = some sampleNames ∧
      (stageExports sampleEnv
        (sampleLib [0, 0, 0, 0, 0, 0, 0x81, 0, 0, 0, 0, 0, 0])).1 = some et0 ∧
      (stageImports sampleEnv
        (sampleLib [0, 0, 0, 0, 0, 0, 0x81, 0, 0, 0, 0, 0, 0])).1 = some it0 ∧
      (et0.elems.getD 0 default).ObjectName = -1 ∧
      nameEntryAt sampleNames (et0.elems.getD 0 default).ObjectName = none ∧
      iLoadUtxInternal sampleEnv
        (sampleLib [0, 0, 0, 0, 0, 0, 0x81, 0, 0, 0, 0, 0, 0]) = none) := by
  have hlen : nt.elems.length = (stageHeader w).NameCount := by
    rw [stageNames] at hn
    exact GetUtxNameTable_length _ _ _ _ nt hn
  refine ⟨?_, ?_, ?_, ?_⟩
  · constructor
    · intro h i hlt
      have k := (nameEntryAt_isSome_iff nt _).mp (h i hlt)
      rw [hlen] at k
      exact k
    · intro h i hlt
      have k := h i hlt
      rw [← hlen] at k
      exact (nameEntryAt_isSome_iff nt _).mpr k
  · rintro ⟨i, hlt, hout⟩
    rw [← hlen] at hout
    exact iLoad_scan_undefined env w hc hk nt hn et he it hi
      (scanLoop_none_of_not_all _ nt et (fun k => k i hlt (scanCompare_outside nt _ hout)))
  · intro r hr
    cases hs : scanLoop (stageHeader w) nt et 0 with
    | none =>
      rw [iLoad_scan_undefined env w hc hk nt hn et he it hi hs] at hr
      cases hr
    | some u =>
      have hs2 : scanLoop (stageHeader w) nt et 0 = some () := hs
      rw [iLoad_success env w hc hk nt hn et he it hi hs2] at hr
      simp only [Option.some.injEq] at hr
      refine ⟨?_, ?_, ?_, stageTeardown_error env w nt et it⟩
      · intro i hlt
        have k := scanCompare_defined_inside nt _ ((scanLoop_all _ nt et).mp hs2 i hlt)
        rw [hlen] at k
        exact k
      · rw [← hr]
      · rw [← hr]
  · obtain ⟨et0, it0, he0, hi0, h0, -⟩ :=
      sample_tables [0, 0, 0, 0, 0, 0, 0x81, 0, 0, 0, 0, 0, 0]
    have hO : (et0.elems.getD 0 default).ObjectName = -1 := by
      rw [h0, outOfRange_objectName]
    refine ⟨et0, it0, sample_check _, sample_nameCount _, sample_names_built _, he0, hi0,
      hO, ?_, ?_⟩
    · rw [hO]; decide
    · exact sample_undefined _ (by rw [outOfRange_objectName]; exact scanCompare_before)

/-- Witness of C19 on the sample package whose export record has the
object-name byte 0x81: entry 0 has ObjectName -1, outside the name table, and
the run has no defined result. -/
theorem scan_lookups_unchecked_witness :
    iLoadUtxInternal sampleEnv (sampleLib [0, 0, 0, 0, 0, 0, 0x81, 0, 0, 0, 0, 0, 0])
      = none := by
  obtain ⟨et0, it0, he0, hi0, h0, -⟩ :=
    sample_tables [0, 0, 0, 0, 0, 0, 0x81, 0, 0, 0, 0, 0, 0]
  have hO : (et0.elems.getD 0 default).ObjectName = -1 := by
    rw [h0, outOfRange_objectName]
  exact (scan_lookups_unchecked sampleEnv
    (sampleLib [0, 0, 0, 0, 0, 0, 0x81, 0, 0, 0, 0, 0, 0]) (sample_curImage _)
    (sample_check _) sampleNames (sample_names_built _) et0 he0 it0 hi0).2.1
    ⟨0, by rw [sample_exportCount]; exact Nat.one_pos, by rw [hO]; decide⟩

end Utx
